import Mathlib

/-!
# testcafe-hammerhead: origin-policy decision and cross-window cookie synchronisation

A shallow embedding of

* `src/pipeline/same-origin-policy.js` (the function `check`), and
* `src/client/sandbox/cookie/window-sync.ts` (the class `WindowSync`),

followed by the properties proved about them.
-/

set_option autoImplicit false

/-! ## Part 1. `src/pipeline/same-origin-policy.js` -/

namespace SameOriginPolicy

/-- The two bit masks imported from `../const`.  That module is not part of the
sources at hand, so the masks are parameters of the embedding. -/
structure Const where
  XHR_CORS_SUPPORTED_FLAG : Int
  XHR_WITH_CREDENTIALS_FLAG : Int

/-- A response header as Node hands it over: missing (`undefined`), one string, or
an array of strings. -/
inductive HeaderValue where
  | undefined
  | str (s : String)
  | arr (xs : List String)
  deriving DecidableEq, Repr

/-- The fields of `ctx` read by `check`.

* `reqOrigin`, `domain` : `ctx.dest.reqOrigin`, `ctx.dest.domain`; `none` is `undefined`.
* `xhrHeader` : `ctx.req.headers[XHR_REQUEST_MARKER_HEADER]` as the operator `&` sees
  it: `none` when the header is missing, `some n` when the header converts to the
  integer `n` (a header that is not numeric converts to `NaN`, which `&` treats
  as `0`, so it is represented by `some 0`).
* `method` : `ctx.req.method`.
* `allowOriginHeader`, `allowCredentialsHeader` : the two entries of
  `ctx.destRes.headers` that are read. -/
structure Ctx where
  reqOrigin : Option String
  domain : Option String
  xhrHeader : Option Int
  method : String
  allowOriginHeader : HeaderValue
  allowCredentialsHeader : HeaderValue
  deriving DecidableEq, Repr

/-- The 32 bit pattern of a number (`ToInt32`, read as unsigned). -/
def toUint32 (n : Int) : Nat := (n % 4294967296).toNat

/-- JavaScript `a & b` where `a` is the marker header: the 32 bit pattern of the
result.  `undefined` converts to `0`.  The JavaScript result is this pattern read
as a signed number, hence it is zero (falsy) exactly when the pattern is zero. -/
def bitAnd (a : Option Int) (b : Int) : Nat :=
  toUint32 (a.getD 0) &&& toUint32 b

/-- ASCII lower-casing of one string.  `String.prototype.toLowerCase` also maps
letters outside ASCII, but none of them to `t`, `r`, `u` or `e`, so the comparison
with `'true'` made by `check` is not affected. -/
def toLowerCase (s : String) : String := String.mk (s.data.map Char.toLower)

/-- JavaScript `String(v)` for a header value: `'undefined'` for a missing header,
the elements joined by `,` for an array. -/
def jsString : HeaderValue → String
  | .undefined => "undefined"
  | .str s => s
  | .arr xs => ",".intercalate xs

/-- The array `Array.isArray(h) ? h : [h]`; the elements are JavaScript values, `none` being
`undefined`. -/
def normalizeOrigins : HeaderValue → List (Option String)
  | .undefined => [none]
  | .str s => [some s]
  | .arr xs => xs.map some

/-- The method `Array.prototype.indexOf` with strict equality: the first position holding `v`,
`-1` when there is none. -/
def indexOf (xs : List (Option String)) (v : Option String) : Int :=
  match xs with
  | [] => -1
  | x :: rest =>
    if x = v then 0
    else if indexOf rest v = -1 then -1
    else indexOf rest v + 1

/-- The exported function `check (ctx)`. -/
def check (k : Const) (ctx : Ctx) : Bool :=
  let reqOrigin := ctx.reqOrigin
  -- PASSED: Same origin
  if ctx.domain = reqOrigin then true
  else
    -- Ok, we have a cross-origin request
    let xhrHeader := ctx.xhrHeader
    let corsSupported := bitAnd xhrHeader k.XHR_CORS_SUPPORTED_FLAG != 0
    -- FAILED: CORS not supported
    if !corsSupported then false
    -- PASSED: we have a "preflight" request
    else if ctx.method = "OPTIONS" then true
    else
      let withCredentials := bitAnd xhrHeader k.XHR_WITH_CREDENTIALS_FLAG
      let allowOriginHeader := ctx.allowOriginHeader
      let allowCredentialsHeader := ctx.allowCredentialsHeader
      let allowCredentials := toLowerCase (jsString allowCredentialsHeader) == "true"
      let allowedOrigins := normalizeOrigins allowOriginHeader
      let wildcardAllowed := decide (indexOf allowedOrigins (some "*") > -1)
      -- FAILED: Credentialed requests are not allowed or wild carding was used
      if withCredentials != 0 && (!allowCredentials || wildcardAllowed) then false
      -- FINAL CHECK: request origin should match one of the allowed origins
      else wildcardAllowed || decide (indexOf allowedOrigins reqOrigin > -1)

end SameOriginPolicy

namespace SameOriginPolicy

/-- Two one-bit masks (`0x10` and `0x01`) used for concrete evaluations only. -/
def sampleConst : Const := ⟨16, 1⟩

/-- A credentialed cross-origin `GET` answered with the exact origin and
`access-control-allow-credentials: true`. -/
def ctxCredentialedExact : Ctx :=
  ⟨some "https://a.example", some "https://b.example", some 17, "GET",
    .str "https://a.example", .str "true"⟩

/-- A non-credentialed cross-origin `GET` answered with the wildcard. -/
def ctxPlainWildcard : Ctx :=
  ⟨some "https://a.example", some "https://b.example", some 16, "GET", .str "*", .undefined⟩

/-- A same-origin request without marker header and without response headers. -/
def ctxSameOrigin : Ctx :=
  ⟨some "https://a.example", some "https://a.example", none, "POST", .undefined, .undefined⟩

/-- A cross-origin `OPTIONS` request without marker header, answered with the wildcard. -/
def ctxUnsupported : Ctx :=
  ⟨some "https://a.example", some "https://b.example", none, "OPTIONS", .str "*", .str "true"⟩

/-- A credentialed cross-origin preflight whose response carries no CORS header. -/
def ctxPreflight : Ctx :=
  ⟨some "https://a.example", some "https://b.example", some 17, "OPTIONS", .undefined, .undefined⟩

/-- A cross-origin `GET` flagged as CORS-capable, with no request origin, whose
response carries neither `access-control-allow-origin` nor
`access-control-allow-credentials`. -/
def ctxNoOriginNoHeaders : Ctx :=
  ⟨none, some "https://b.example", some 16, "GET", .undefined, .undefined⟩

end SameOriginPolicy

/-! ## Part 2. `src/client/sandbox/cookie/window-sync.ts` -/

namespace WindowSync

def SYNC_COOKIE_START_CMD : String := "hammerhead|command|sync-cookie-start"
def SYNC_COOKIE_DONE_CMD : String := "hammerhead|command|sync-cookie-done"
def SYNC_MESSAGE_TIMEOUT : Nat := 500
def SYNC_MESSAGE_ATTEMPT_COUNT : Nat := 5

/-- Identity of a `Window` object. -/
abbrev WinId := Nat

/-- The frame tree as one traversal sees it: a window and the windows listed by its
`frames`, in that order. -/
inductive Win where
  | mk (id : WinId) (frames : List Win)

def Win.id : Win → WinId
  | .mk i _ => i

def Win.frames : Win → List Win
  | .mk _ fs => fs

/-- Modelled from the spec: the record of a parsed cookie is declared in
`utils/cookie`, which is not among the sources; section 3 lists name, value, domain,
path, expiry and the sync-type flags `window` and `client`.  `window-sync.ts` itself
reads `isClientSync` only.

A parsed cookie is an object, and `changeSyncType` changes it in place.  `ref` is the
identity of the object: two records with the same `ref` are one object, held by two
arrays or read at two moments.  The cookies of a message are new objects. -/
structure ParsedCookie where
  ref : Nat
  name : String
  value : String
  domain : String
  path : String
  expires : String
  isClientSync : Bool
  isWindowSync : Bool
  deriving DecidableEq, Repr

/-- The flags object given to `changeSyncType`; a flag that is not mentioned is `none`. -/
structure SyncTypeFlags where
  server : Option Bool
  client : Option Bool
  window : Option Bool
  deriving DecidableEq, Repr

/-- The functions imported from `utils/cookie` and `CookieSandbox.isSyncCookieExists`.
Their code is not among the sources, so they are parameters of the embedding.
`changeSyncType` updates the record in place in the program; here it gives what the
object reads afterwards, and `changeSyncTypeInPlace` makes the change show in the
arrays that hold the object.  The program changes flags of the object only, so the
functions meant keep `ref`; no theorem below needs this. -/
structure Codec where
  changeSyncType : ParsedCookie → SyncTypeFlags → ParsedCookie
  formatSyncCookie : ParsedCookie → String
  generateDeleteSyncCookieStr : ParsedCookie → String
  isSyncCookieExists : ParsedCookie → String → Bool

/-- Modelled from the spec: `IntegerIdGenerator.increment` (from
`utils/integer-id-generator`, not among the sources).  Section 4.1: each call returns
an integer strictly greater than every value returned before, the first call
returns 1.  The argument is the value returned last (`0` for a new generator). -/
def increment (counter : Nat) : Nat := counter + 1

/-- The interface `SyncCookieMsg`: a message as the handler receives it.  An `id` that
is missing is `none`; the keys of the resolvers map are numbers drawn from the
generator, so any other `id` value behaves like a number that is not a key. -/
structure SyncCookieMsg where
  id : Option Nat
  cmd : String
  cookies : List ParsedCookie
  deriving DecidableEq, Repr

/-- An object literal handed to `sendServiceMsg`: `id` and `cookies` may be left out. -/
structure ServiceMsg where
  id : Option Nat
  cmd : String
  cookies : Option (List ParsedCookie)
  deriving DecidableEq, Repr

/-- What the coordinator does to its collaborators, and the calls the promise library
makes to its callbacks, in program order. -/
inductive Effect where
  /-- The call `this._messageSandbox.sendServiceMsg(msg, target)`. -/
  | sendServiceMsg (msg : ServiceMsg) (target : WinId)
  /-- The call `nativeMethods.setTimeout.call(this._win, sendMsg, delay)` returning
  `handle`; `callback` is the id of the send whose `sendMsg` was passed. -/
  | setTimeout (handle : Nat) (callback : Nat) (delay : Nat)
  /-- The call `nativeMethods.clearTimeout.call(this._win, timeoutId)`; `none` is `null`. -/
  | clearTimeout (timeoutId : Option Nat)
  /-- The call `syncWindowCookie(cookies)` on the cookie sandbox of window `win`. -/
  | syncWindowCookie (win : WinId) (cookies : List ParsedCookie)
  /-- The call `getWindowSync().syncBetweenWindows(cookies, initiator)` on the cookie
  sandbox of window `win` (made by a frame that reaches the top window directly). -/
  | syncBetweenWindows (win : WinId) (cookies : List ParsedCookie) (initiator : WinId)
  /-- The call `nativeMethods.documentCookieSetter.call(doc, value)`. -/
  | documentCookieSetter (value : String)
  /-- The call `this._messageSandbox.on(SERVICE_MSG_RECEIVED_EVENT, ...)`. -/
  | on
  /-- A `then` callback threw: the promise it returns is rejected and nobody handles it. -/
  | unhandledRejection
  /-- The promise library calls the callback registered by
  `Promise.all(syncMessages).then(...)` at line 146: `promises` names `syncMessages`,
  `cookies` is what the captured array holds at that moment.  The callback then calls
  `_removeSyncCookie (cookies)`. -/
  | thenCallback (promises : List Nat) (cookies : List ParsedCookie)
  deriving DecidableEq, Repr

/-- The variables captured by the closures of one `_sendSyncMessage` call.  `cookies`
is the array passed to `syncBetweenWindows`, not a copy of it. -/
structure SendClosure where
  id : Nat
  win : WinId
  cmd : String
  cookies : List ParsedCookie
  attempts : Nat
  timeoutId : Option Nat
  deriving DecidableEq, Repr

/-- An armed timer: its handle, the send whose `sendMsg` it will run, its delay. -/
structure Timer where
  handle : Nat
  callback : Nat
  delay : Nat
  deriving DecidableEq, Repr

/-- A pending `Promise.all(syncMessages).then(() => this._removeSyncCookie(cookies))`:
the promises waited for (named by the id of their send) and the array `cookies`
captured by the callback, the one the sends of the fan-out hold too. -/
structure Join where
  promises : List Nat
  cookies : List ParsedCookie
  deriving DecidableEq, Repr

/-- The state of one attached `WindowSync` instance, of the promises it created and of
the timers it armed.

* `win` : `_win`.
* `messageIdGenerator` : `_messageIdGenerator`, `none` for `null`, otherwise the value
  returned last.
* `resolversMap` : `_resolversMap`; the value under a key is the `resolveWrapper` of
  the send named by the second component.
* `resolved` : the sends whose promise has been resolved, the one resolved last
  first.
* `joins` : the `then` callbacks that have not run yet, in the order of their
  registration.
* `log` : the effects so far, oldest first. -/
structure State where
  win : WinId
  messageIdGenerator : Option Nat
  resolversMap : List (Nat × Nat)
  closures : List SendClosure
  resolved : List Nat
  joins : List Join
  timers : List Timer
  nextTimer : Nat
  log : List Effect
  deriving DecidableEq, Repr

/-- What evaluating `win[INTERNAL_PROPS.hammerhead].sandbox.cookie` gives: an exception
(access denied, or a property of `undefined` is read), or a cookie sandbox whose
`document` is truthy or not. -/
inductive CookieSandboxAccess where
  | throws
  | sandbox (hasDocument : Bool)
  deriving DecidableEq, Repr

/-- What the environment answers during one task.

* `top` : the frame tree below `this._win.top`.
* `cookieSandbox w` : what reading the cookie sandbox of window `w` gives.
* `hasParent w` : `w.parent` is not `null`.
* `documentCookie` : what `nativeMethods.documentCookieGetter.call(doc)` returns. -/
structure Env where
  top : Win
  cookieSandbox : WinId → CookieSandboxAccess
  hasParent : WinId → Bool
  documentCookie : String

/-- The static method `_getCookieSandbox (win)`: `true` when it returns the cookie
sandbox of `win`, `false` when it returns `null` (the access threw) or the falsy
`document` of the sandbox. -/
def getCookieSandbox (env : Env) (win : WinId) : Bool :=
  match env.cookieSandbox win with
  | .throws => false
  | .sandbox hasDocument => hasDocument

/-- A `TypeError`: a property read on `null` or `undefined`. -/
inductive JsError where
  | typeError
  deriving DecidableEq, Repr

/-- The result of a method that may throw: the state reached, or the error together
with the state reached when it was thrown. -/
abbrev Outcome (α : Type) := Except (JsError × State) α

def State.emit (s : State) (e : Effect) : State := { s with log := s.log ++ [e] }

/-- The method `Map.prototype.get`. -/
def mapGet (m : List (Nat × Nat)) (key : Option Nat) : Option Nat :=
  match key with
  | none => none
  | some k => (m.find? (fun e => e.1 == k)).map (fun e => e.2)

/-- The method `Map.prototype.delete`. -/
def mapDelete (m : List (Nat × Nat)) (k : Nat) : List (Nat × Nat) :=
  m.filter (fun e => e.1 != k)

/-- The method `Map.prototype.set`.  A key that is already present is moved to the
end instead of keeping its place; the program never iterates over the map. -/
def mapSet (m : List (Nat × Nat)) (k : Nat) (v : Nat) : List (Nat × Nat) :=
  mapDelete m k ++ [(k, v)]

/-- The closure variables of send `i`. -/
def getClosure : List SendClosure → Nat → Option SendClosure
  | [], _ => none
  | c :: cs, i => if c.id = i then some c else getClosure cs i

/-- Writes the closure variables of send `c.id`. -/
def putClosure (c : SendClosure) : List SendClosure → List SendClosure
  | [] => [c]
  | d :: ds => if d.id = c.id then c :: ds else d :: putClosure c ds

/-- The armed timer with handle `h`. -/
def getTimer : List Timer → Nat → Option Timer
  | [], _ => none
  | t :: ts, h => if t.handle = h then some t else getTimer ts h

/-- Disarms the timer with handle `h`; `none` (`null`) disarms nothing. -/
def dropTimer (ts : List Timer) (h : Option Nat) : List Timer :=
  ts.filter (fun t => some t.handle != h)

mutual
/-- The method `_getWindowsForSync (initiator, currentWindow, windows)`; `top` is
`this._win.top` and an initiator that was not passed is `none`.  The array `windows`
is returned after the pushes. -/
def getWindowsForSync (top : WinId) (initiator : Option WinId) (currentWindow : Win)
    (windows : List WinId) : List WinId :=
  match currentWindow with
  | .mk id frames =>
    getWindowsForSyncFrames top initiator frames
      (if some id ≠ initiator ∧ id ≠ top then windows ++ [id] else windows)
/-- The loop `for (const frameWindow of currentWindow.frames)`. -/
def getWindowsForSyncFrames (top : WinId) (initiator : Option WinId) (frames : List Win)
    (windows : List WinId) : List WinId :=
  match frames with
  | [] => windows
  | frameWindow :: rest =>
    getWindowsForSyncFrames top initiator rest
      (getWindowsForSync top initiator frameWindow windows)
end

/-- The call `changeSyncType (cookie, flags)` as the rest of the program sees it: the
object `cookie` is changed in place, so every array that holds it (the `cookies`
captured by a send and by a `then` callback) reads the changed record afterwards. -/
def changeSyncTypeInPlace (k : Codec) (cookie : ParsedCookie) (flags : SyncTypeFlags)
    (s : State) : State :=
  { s with
    closures := (s.closures.map (fun (c : SendClosure) =>
      { c with cookies := (c.cookies.map
          (fun d => if d.ref = cookie.ref then k.changeSyncType d flags else d)) })),
    joins := (s.joins.map (fun (j : Join) =>
      { j with cookies := (j.cookies.map
          (fun d => if d.ref = cookie.ref then k.changeSyncType d flags else d)) })) }

/-- The method `_removeSyncCookie (cookies)`.  Reading `cookies[0].isClientSync` throws
on an empty array. -/
def removeSyncCookie (k : Codec) (env : Env) (cookies : List ParsedCookie) (s : State) :
    Outcome State :=
  match cookies with
  | [] => .error (.typeError, s)
  | parsedCookie :: _ =>
    let clientCookieStr : Option String :=
      if parsedCookie.isClientSync then some env.documentCookie else none
    let s1 := cookies.foldl
      (fun st c => st.emit (.documentCookieSetter (k.generateDeleteSyncCookieStr c))) s
    -- NOTE: client cookie is passed one at a time
    match clientCookieStr with
    | none => .ok s1
    | some str =>
      if str ≠ "" ∧ k.isSyncCookieExists parsedCookie str = true then
        .ok ((changeSyncTypeInPlace k parsedCookie ⟨none, none, some false⟩ s1).emit
          (.documentCookieSetter
            (k.formatSyncCookie (k.changeSyncType parsedCookie ⟨none, none, some false⟩))))
      else .ok s1

/-- The callback `() => this._removeSyncCookie(cookies)` of a join, run by the promise
library.  When the callback throws, the promise returned by `then` is rejected. -/
def thenCallback (k : Codec) (env : Env) (j : Join) (s : State) : State :=
  match removeSyncCookie k env j.cookies (s.emit (.thenCallback j.promises j.cookies)) with
  | .ok s1 => s1
  | .error (_, s1) => s1.emit .unhandledRejection

/-- Every promise of the join is resolved: `Promise.all` of them is resolved too. -/
def isReady (resolved : List Nat) (j : Join) : Bool :=
  j.promises.all (fun p => decide (p ∈ resolved))

/-- The moment the last promise of a join was resolved, counted in resolved promises
from the oldest (`resolved` lists the newest first). -/
def completedAt (resolved : List Nat) (j : Join) : Nat :=
  (j.promises.map (fun p => resolved.reverse.indexOf p)).foldl max 0

/-- The join whose callback the promise library runs next: among the joins whose
promises are all resolved, the one completed first; of two joins completed by the
same promise, the one registered first. -/
def nextReady (resolved : List Nat) : List Join → Option Join
  | [] => none
  | j :: js =>
    match nextReady resolved js with
    | none => if isReady resolved j = true then some j else none
    | some j2 =>
      if isReady resolved j = true ∧ completedAt resolved j ≤ completedAt resolved j2 then
        some j
      else some j2

/-- The loop of `settleJoins`: at most `fuel` callbacks are run. -/
def settleLoop (k : Codec) (env : Env) : Nat → State → State
  | 0, s => s
  | fuel + 1, s =>
    match nextReady s.resolved s.joins with
    | none => s
    | some j => settleLoop k env fuel (thenCallback k env j { s with joins := s.joins.erase j })

/-- The turn in which the promise library (`pinkie`) publishes the promises resolved
since its last turn.  `resolve ()` only queues the promise and the library arms a
timer of delay zero for the queue, so this is a task of its own, after the task that
resolved the promise.  In that turn every `Promise.all(...).then(...)` whose promises
are all resolved runs its callback once and is done with, in the order in which the
joins were completed.  One callback per pending join suffices, so the loop is given
as many rounds as there are joins. -/
def settleJoins (k : Codec) (env : Env) (s : State) : State :=
  settleLoop k env s.joins.length s

/-- The closure `resolveWrapper` of send `i`: `clearTimeout (timeoutId)`,
`_resolversMap.delete (id)`, `resolve ()`.  Resolving a promise a second time does
nothing; the callbacks that wait for the promise run in a later turn
(`settleJoins`). -/
def resolveWrapper (i : Nat) (s : State) : State :=
  match getClosure s.closures i with
  | none => s
  | some c =>
    let s1 : State := { s with timers := dropTimer s.timers c.timeoutId,
                               log := s.log ++ [.clearTimeout c.timeoutId] }
    let s2 : State := { s1 with resolversMap := mapDelete s1.resolversMap c.id }
    if i ∈ s2.resolved then s2
    else { s2 with resolved := i :: s2.resolved }

/-- The closure `sendMsg` of send `i`.  The closure does not read the codec. -/
def sendMsg (_ : Codec) (env : Env) (i : Nat) (s : State) : State :=
  match getClosure s.closures i with
  | none => s
  | some c =>
    -- `attempts++` is evaluated first, the comparison sees the old value
    let attempts := c.attempts + 1
    -- NOTE: The window was removed if the parent property is null.
    if c.attempts < SYNC_MESSAGE_ATTEMPT_COUNT ∨ env.hasParent c.win = false then
      let timeoutId := s.nextTimer
      { s with
        closures :=
          putClosure { c with attempts := attempts, timeoutId := some timeoutId } s.closures,
        timers := ⟨timeoutId, i, SYNC_MESSAGE_TIMEOUT * attempts⟩ :: s.timers,
        nextTimer := s.nextTimer + 1,
        log := s.log ++ [.sendServiceMsg ⟨some c.id, c.cmd, some c.cookies⟩ c.win,
          .setTimeout timeoutId i (SYNC_MESSAGE_TIMEOUT * attempts)] }
    else
      resolveWrapper i
        { s with closures := putClosure { c with attempts := attempts } s.closures }

/-- The method `_sendSyncMessage (win, cmd, cookies)`: returns the id that names the new promise.
Calling `increment` on a generator that is `null` throws. -/
def sendSyncMessage (k : Codec) (env : Env) (win : WinId) (cmd : String)
    (cookies : List ParsedCookie) (s : State) : Outcome (Nat × State) :=
  match s.messageIdGenerator with
  | none => .error (.typeError, s)
  | some counter =>
    let id := increment counter
    let s1 : State := { s with
      messageIdGenerator := some id,
      closures := putClosure ⟨id, win, cmd, cookies, 0, none⟩ s.closures }
    let s2 : State := { s1 with resolversMap := mapSet s1.resolversMap id id }
    .ok (id, sendMsg k env id s2)

/-- The method `_delegateSyncBetweenWindowsToTop (cookies)`. -/
def delegateSyncBetweenWindowsToTop (env : Env) (cookies : List ParsedCookie) (s : State) :
    State :=
  if getCookieSandbox env env.top.id = true then
    (s.emit (.syncWindowCookie env.top.id cookies)).emit
      (.syncBetweenWindows env.top.id cookies s.win)
  else
    s.emit (.sendServiceMsg ⟨none, SYNC_COOKIE_START_CMD, some cookies⟩ env.top.id)

/-- The loop `for (const win of windowsForSync)` of `syncBetweenWindows`;
`syncMessages` collects the promises. -/
def fanOut (k : Codec) (env : Env) (cookies : List ParsedCookie) :
    List WinId → List Nat → State → Outcome (List Nat × State)
  | [], syncMessages, s => .ok (syncMessages, s)
  | win :: rest, syncMessages, s =>
    if getCookieSandbox env win = true then
      fanOut k env cookies rest syncMessages (s.emit (.syncWindowCookie win cookies))
    else
      match sendSyncMessage k env win SYNC_COOKIE_START_CMD cookies s with
      | .error e => .error e
      | .ok (id, s1) => fanOut k env cookies rest (syncMessages ++ [id]) s1

/-- The method `syncBetweenWindows (cookies, initiator)`.  The promises collected by the loop have
just been created and are pending, so `Promise.all(...).then(...)` only registers
its callback. -/
def syncBetweenWindows (k : Codec) (env : Env) (cookies : List ParsedCookie)
    (initiator : Option WinId) (s : State) : Outcome State :=
  if s.win ≠ env.top.id then
    .ok (delegateSyncBetweenWindowsToTop env cookies s)
  else
    let windowsForSync := getWindowsForSync env.top.id initiator env.top []
    match fanOut k env cookies windowsForSync [] s with
    | .error e => .error e
    | .ok (syncMessages, s1) =>
      if syncMessages.length ≠ 0 then
        .ok { s1 with joins := s1.joins ++ [⟨syncMessages, cookies⟩] }
      else
        removeSyncCookie k env cookies s1

/-- The method `_onMsgReceived ({ message, source })`. -/
def onMsgReceived (k : Codec) (env : Env) (message : SyncCookieMsg) (source : WinId)
    (s : State) : Outcome State :=
  if message.cmd = SYNC_COOKIE_START_CMD then
    let s1 := s.emit (.syncWindowCookie s.win message.cookies)
    if s.win ≠ env.top.id then
      .ok (s1.emit (.sendServiceMsg ⟨message.id, SYNC_COOKIE_DONE_CMD, none⟩ source))
    else
      syncBetweenWindows k env message.cookies (some source) s1
  else if message.cmd = SYNC_COOKIE_DONE_CMD then
    match mapGet s.resolversMap message.id with
    | some resolver => .ok (resolveWrapper resolver s)
    | none => .ok s
  else .ok s

/-- The method `attach (win)`. -/
def attach (env : Env) (win : WinId) (s : State) : State :=
  let s1 : State := { s with win := win, log := s.log ++ [.on] }
  if win = env.top.id then
    { s1 with messageIdGenerator := some (s1.messageIdGenerator.getD 0) }
  else s1

/-- A new instance right after its first `attach (win)`. -/
def attached (env : Env) (win : WinId) : State :=
  attach env win ⟨win, none, [], [], [], [], [], 1, []⟩

/-- The timer with handle `h` elapses: it is no longer armed and its callback runs.
A handle that is not armed does nothing. -/
def fireTimeout (k : Codec) (env : Env) (h : Nat) (s : State) : State :=
  match getTimer s.timers h with
  | none => s
  | some t => sendMsg k env t.callback { s with timers := dropTimer s.timers (some h) }

/-- The retry timer of send `i` elapses once for every environment of the list, in
order, and nothing else happens in between (no DONE arrives). -/
def fireRetries (k : Codec) (i : Nat) : List Env → State → State
  | [], s => s
  | env :: envs, s =>
    match getClosure s.closures i with
    | none => s
    | some c =>
      match c.timeoutId with
      | none => s
      | some h => fireRetries k i envs (fireTimeout k env h s)

/-- The messages sent and the timers armed, in program order. -/
def sendsAndTimeouts (log : List Effect) : List Effect :=
  log.filter fun e =>
    match e with
    | .sendServiceMsg _ _ => true
    | .setTimeout _ _ _ => true
    | _ => false

end WindowSync

namespace WindowSync

/-- Send `i` to window `w` has issued its message `a` times and waits for the timer
with handle `h`. -/
def Awaiting (s : State) (i : Nat) (w : WinId) (cmd : String) (cookies : List ParsedCookie)
    (a h : Nat) : Prop :=
  getClosure s.closures i = some ⟨i, w, cmd, cookies, a, some h⟩ ∧
    getTimer s.timers h = some ⟨h, i, SYNC_MESSAGE_TIMEOUT * a⟩

/-- The START message of send `i`. -/
def startMsg (i : Nat) (w : WinId) (cmd : String) (cookies : List ParsedCookie) : Effect :=
  .sendServiceMsg ⟨some i, cmd, some cookies⟩ w

/-- A cookie used for concrete evaluations. -/
def sampleCookie : ParsedCookie := ⟨1, "k", "v", "a.example", "/", "", false, true⟩

/-- Codec functions used for concrete evaluations only. -/
def sampleCodec : Codec :=
  ⟨fun c f => { c with isWindowSync := f.window.getD c.isWindowSync,
                       isClientSync := f.client.getD c.isClientSync },
    fun c => "s|" ++ c.name ++ "=" ++ c.value,
    fun c => "s|" ++ c.name ++ "=;expires=0",
    fun c str => str == c.name⟩

/-- A frame tree: top window `0` with frames `1` (holding `2` and `3`) and `4`
(holding `5`). -/
def sampleTree : Win := .mk 0 [.mk 1 [.mk 2 [], .mk 3 []], .mk 4 [.mk 5 []]]

/-- Every window has a parent; reading the cookie sandbox of window `3` throws. -/
def sampleEnv : Env :=
  ⟨sampleTree, fun w => if w = 3 then .throws else .sandbox true, fun _ => true, ""⟩

/-- As `sampleEnv`, after window `3` has been removed: its `parent` is `null`. -/
def sampleEnvRemoved : Env :=
  ⟨sampleTree, fun w => if w = 3 then .throws else .sandbox true, fun w => w != 3, ""⟩

/-- The coordinator of the top window right after `attach`. -/
def sampleTop : State := attached sampleEnv 0

/-- The top coordinator after `_sendSyncMessage (3, START, [sampleCookie])`: send `1`
has issued its first message and armed timer `1`. -/
def sampleSent : State :=
  match sendSyncMessage sampleCodec sampleEnv 3 SYNC_COOKIE_START_CMD [sampleCookie]
    sampleTop with
  | .ok (_, s) => s
  | .error (_, s) => s

end WindowSync

namespace SameOriginPolicy

/-- The 32 bit pattern of the marker header; a missing header counts as `0`. -/
def markerBits (xhrHeader : Option Int) : Nat := toUint32 (xhrHeader.getD 0)

/-- A credentialed cross-origin `GET` answered with the wildcard. -/
def ctxCredentialedWildcard : Ctx :=
  ⟨some "https://a.example", some "https://b.example", some 17, "GET", .str "*", .str "true"⟩

end SameOriginPolicy

namespace WindowSync

/-- The state a call leaves behind, whether it returned or threw. -/
def reached (o : Outcome State) : State :=
  match o with
  | .ok s => s
  | .error (_, s) => s

/-- Whether a call threw. -/
def raises {α : Type} (o : Outcome α) : Bool :=
  match o with
  | .ok _ => false
  | .error _ => true

/-- The writes of one cleanup, stated from the cleanup rule: the deletion string of
every cookie of the batch, in batch order, followed, when the first cookie of the
batch is a client sync cookie and its marker exists in a cookie header that is not
empty, by the string of that cookie with the flags object `{ window: false }`
applied. -/
def cleanupWrites (k : Codec) (env : Env) : List ParsedCookie → List Effect
  | [] => []
  | c :: rest =>
    (c :: rest).map (fun d => Effect.documentCookieSetter (k.generateDeleteSyncCookieStr d)) ++
      (if c.isClientSync = true ∧ env.documentCookie ≠ "" ∧
          k.isSyncCookieExists c env.documentCookie = true then
        [Effect.documentCookieSetter
          (k.formatSyncCookie (k.changeSyncType c ⟨none, none, some false⟩))]
      else [])

/-- What a cleanup changes besides the log, stated from line 123: when the cleanup
writes the first cookie of the batch again, that cookie has been changed in place. -/
def cleanupChange (k : Codec) (env : Env) : List ParsedCookie → State → State
  | [], s => s
  | c :: _, s =>
    if c.isClientSync = true ∧ env.documentCookie ≠ "" ∧
        k.isSyncCookieExists c env.documentCookie = true then
      changeSyncTypeInPlace k c ⟨none, none, some false⟩ s
    else s

/-- What the callback of a `then` adds to the log: the writes of the cleanup, or the
rejection when the batch is empty and the cleanup throws. -/
def thenEffects (k : Codec) (env : Env) (cookies : List ParsedCookie) : List Effect :=
  match cookies with
  | [] => [Effect.unhandledRejection]
  | _ :: _ => cleanupWrites k env cookies

/-- The targets whose cookie sandbox is not reached. -/
def unreachableTargets (env : Env) (targets : List WinId) : List WinId :=
  targets.filter (fun w => !getCookieSandbox env w)

/-- The effects of a fan-out, stated from its two routes: in list order, a target that
is reached gets the cookies applied, a target that is not reached gets a START
message with the next id and a timer of `SYNC_MESSAGE_TIMEOUT`.  `counter` is the id
drawn last and `timer` the next timer handle. -/
def fanOutEffects (env : Env) (cookies : List ParsedCookie) :
    List WinId → Nat → Nat → List Effect
  | [], _, _ => []
  | w :: rest, counter, timer =>
    if getCookieSandbox env w = true then
      Effect.syncWindowCookie w cookies :: fanOutEffects env cookies rest counter timer
    else
      startMsg (counter + 1) w SYNC_COOKIE_START_CMD cookies ::
        Effect.setTimeout timer (counter + 1) SYNC_MESSAGE_TIMEOUT ::
          fanOutEffects env cookies rest (counter + 1) (timer + 1)

/-- The route an effect takes to a window: `true` for a direct apply, `false` for a
message. -/
def routeOf (e : Effect) : Option (WinId × Bool) :=
  match e with
  | .syncWindowCookie w _ => some (w, true)
  | .sendServiceMsg _ w => some (w, false)
  | _ => none

/-- The id of a START message. -/
def startId (e : Effect) : Option Nat :=
  match e with
  | .sendServiceMsg m _ => if m.cmd = SYNC_COOKIE_START_CMD then m.id else none
  | _ => none

/-- The window an effect is addressed to, if any. -/
def addressee (e : Effect) : Option WinId :=
  match e with
  | .sendServiceMsg _ w => some w
  | .syncWindowCookie w _ => some w
  | .syncBetweenWindows w _ _ => some w
  | _ => none

mutual
/-- The depth-first pre-order listing of a frame tree: a window, then the listings of
its frames in their order. -/
def depthFirstPreorder : Win → List WinId
  | .mk id frames => id :: depthFirstPreorderFrames frames
/-- The listings of a sequence of frames, one after the other. -/
def depthFirstPreorderFrames : List Win → List WinId
  | [] => []
  | frameWindow :: rest => depthFirstPreorder frameWindow ++ depthFirstPreorderFrames rest
end

/-- As `sampleEnv`, with every cookie sandbox reached. -/
def sampleEnvReachable : Env := ⟨sampleTree, fun _ => .sandbox true, fun _ => true, ""⟩

/-- As `sampleEnv`, with the cookie sandbox of the top window out of reach too. -/
def sampleEnvTopHidden : Env :=
  ⟨sampleTree, fun w => if w = 3 ∨ w = 0 then .throws else .sandbox true, fun _ => true, ""⟩

/-- The coordinator of frame `2` right after `attach`. -/
def sampleFrame : State := attached sampleEnv 2

/-- A client sync cookie. -/
def sampleClientCookie : ParsedCookie := ⟨2, "c", "1", "a.example", "/", "", true, true⟩

/-- As `sampleEnvReachable`, with the cookie header holding the marker of
`sampleClientCookie`. -/
def sampleEnvMarker : Env := ⟨sampleTree, fun _ => .sandbox true, fun _ => true, "c"⟩

/-- What can happen to an attached coordinator: the handler of service messages is
run on a message, a timer elapses, `syncBetweenWindows` is called, `attach` is called
again, the promise library takes its turn.  `attach` registers the handler once more,
so that afterwards a message runs the handler once per registration; this shows as
the same message event repeated. -/
inductive Event where
  | serviceMsgReceived (message : SyncCookieMsg) (source : WinId)
  | timeout (handle : Nat)
  | syncBetweenWindows (cookies : List ParsedCookie) (initiator : Option WinId)
  | attach (win : WinId)
  | reactions
  deriving DecidableEq

/-- One task: the state left behind by the handler of the event, whether it returned
or threw. -/
def step (k : Codec) (env : Env) (e : Event) (s : State) : State :=
  match e with
  | .serviceMsgReceived message source => reached (onMsgReceived k env message source s)
  | .timeout handle => fireTimeout k env handle s
  | .syncBetweenWindows cookies initiator => reached (syncBetweenWindows k env cookies initiator s)
  | .attach win => attach env win s
  | .reactions => settleJoins k env s

/-- A sequence of tasks, each with the environment it runs in. -/
def run (k : Codec) : List (Env × Event) → State → State
  | [], s => s
  | (env, e) :: rest, s => run k rest (step k env e s)

/-- The states a coordinator can be in: the state after its first `attach`, and the
states reached from there by tasks. -/
inductive Reachable (k : Codec) : State → Prop where
  | attached (env : Env) (win : WinId) : Reachable k (attached env win)
  | step (env : Env) (e : Event) (s : State) : Reachable k s → Reachable k (step k env e s)

/-- The START messages with id `i` in a log. -/
def startsOf (i : Nat) (log : List Effect) : List Effect :=
  log.filter (fun e => startId e == some i)

/-- The bookkeeping kept by every task.

* every send and every resolved promise has an id drawn from the generator;
* the keys of the resolvers map are the sends that are not resolved, and the value
  under a key is the resolver of that send;
* an armed timer belongs to a send that is not resolved and is the timer recorded in
  `timeoutId` of that send. -/
structure Inv (s : State) : Prop where
  closureIds : ∀ i c, getClosure s.closures i = some c →
    ∃ n, s.messageIdGenerator = some n ∧ i ≤ n
  resolvedIds : ∀ i ∈ s.resolved, ∃ n, s.messageIdGenerator = some n ∧ i ≤ n
  keys : ∀ i, i ∈ s.resolversMap.map Prod.fst ↔
    (∃ c, getClosure s.closures i = some c) ∧ i ∉ s.resolved
  values : ∀ e ∈ s.resolversMap, e.2 = e.1
  timers : ∀ t ∈ s.timers, t.callback ∉ s.resolved ∧
    ∃ c, getClosure s.closures t.callback = some c ∧ c.timeoutId = some t.handle

/-- From `s` to `t` the bookkeeping is kept, no promise becomes pending again and no
START is issued for a promise that was resolved. -/
def Keeps (s t : State) : Prop :=
  Inv t ∧ ∀ j ∈ s.resolved, j ∈ t.resolved ∧ startsOf j t.log = startsOf j s.log

end WindowSync

namespace WindowSync

/-- Whether an effect is the run of a `then` callback. -/
def isCallback (e : Effect) : Bool :=
  match e with
  | .thenCallback _ _ => true
  | _ => false

/-- Whether an effect is a write to the cookie setter of the document. -/
def isCookieWrite (e : Effect) : Bool :=
  match e with
  | .documentCookieSetter _ => true
  | _ => false

/-- How often the callback registered for the promises `P` has run, read from a log. -/
def callbackRuns (P : List Nat) (log : List Effect) : Nat :=
  log.countP (fun e =>
    match e with
    | .thenCallback Q _ => decide (Q = P)
    | _ => false)

/-- How many callbacks registered for the promises `P` have not run yet. -/
def pendingJoins (P : List Nat) (joins : List Join) : Nat :=
  joins.countP (fun j => decide (j.promises = P))

/-- The strings written to the cookie setter of the document, in order. -/
def cookieWrites (log : List Effect) : List Effect :=
  log.filter isCookieWrite

/-- What one run of the callback of join `j` adds to the log: the call of the
callback, then the writes of `_removeSyncCookie` on the cookies the join holds, or
the rejection when that call throws. -/
def callbackEffects (k : Codec) (env : Env) (j : Join) : List Effect :=
  Effect.thenCallback j.promises j.cookies :: thenEffects k env j.cookies

/-- The record `d` is what the object that read `c` reads after the cleanups run
since: `changeSyncType` with the flags `{ window: false }` has been applied to it a
number of times, possibly none. -/
def ChangedInPlace (k : Codec) (c d : ParsedCookie) : Prop :=
  ∃ n : Nat, d = (fun x => k.changeSyncType x ⟨none, none, some false⟩)^[n] c

/-- The array `cookies` as it reads later: the same cookies in the same order, each
of them up to the changes made in place since. -/
def SameBatch (k : Codec) (cookies later : List ParsedCookie) : Prop :=
  List.Forall₂ (ChangedInPlace k) cookies later

/-- The join `b` is the join `a` later on: the same promises, the same array. -/
def SameJoin (k : Codec) (a b : Join) : Prop :=
  b.promises = a.promises ∧ SameBatch k a.cookies b.cookies

/-- From `s` to `t` no `then` callback is registered and none runs: the generator and
the resolved promises only grow, the log grows by effects that satisfy `ok`, and the
pending joins are the same, each holding its batch. -/
def Grows (ok : Effect → Prop) (k : Codec) (s t : State) : Prop :=
  (∀ g, s.messageIdGenerator = some g → ∃ g2, t.messageIdGenerator = some g2 ∧ g ≤ g2) ∧
    (∀ p ∈ s.resolved, p ∈ t.resolved) ∧
    (∃ new, t.log = s.log ++ new ∧ ∀ e ∈ new, ok e) ∧
    List.Forall₂ (SameJoin k) s.joins t.joins

/-- An effect of the message protocol: neither a cookie write nor the run of a
callback. -/
def Protocol (e : Effect) : Prop := isCallback e = false ∧ isCookieWrite e = false

/-- An effect other than the run of a callback. -/
def NoCallback (e : Effect) : Prop := isCallback e = false

/-- What every task keeps about the joins: the promises of a pending join have ids
drawn from the generator, and a callback that ran had all its promises resolved. -/
structure JoinInv (s : State) : Prop where
  joinIds : ∀ j ∈ s.joins, ∀ p ∈ j.promises,
    ∃ g, s.messageIdGenerator = some g ∧ p ≤ g
  ranResolved : ∀ P c, Effect.thenCallback P c ∈ s.log → ∀ p ∈ P, p ∈ s.resolved

/-- The callback registered for the promises `P` with the array `cookies`, followed
through a run: it is pending or has run once, never both; the pending join and the
run of the callback have the array `cookies`, up to changes made in place. -/
structure Tracks (k : Codec) (P : List Nat) (cookies : List ParsedCookie) (t : State) :
    Prop where
  once : pendingJoins P t.joins + callbackRuns P t.log = 1
  bound : ∀ p ∈ P, ∃ g, t.messageIdGenerator = some g ∧ p ≤ g
  held : ∀ j ∈ t.joins, j.promises = P → SameBatch k cookies j.cookies
  ran : ∀ c, Effect.thenCallback P c ∈ t.log → SameBatch k cookies c

/-- As `sampleEnv`, with the cookie header holding the marker of `sampleClientCookie`. -/
def sampleEnvHidden3Marker : Env :=
  ⟨sampleTree, fun w => if w = 3 then .throws else .sandbox true, fun _ => true, "c"⟩

/-- Tasks that follow the sample fan-out: `attach` is called again, the first retry
timer elapses, the DONE for promise `1` arrives from window `3`. -/
def sampleTasks : List (Env × Event) :=
  [(sampleEnv, .attach 0), (sampleEnv, .timeout 1),
    (sampleEnv, .serviceMsgReceived ⟨some 1, SYNC_COOKIE_DONE_CMD, []⟩ 3)]

end WindowSync

/-! ## Properties of `check` -/

namespace SameOriginPolicy

theorem indexOf_ge (xs : List (Option String)) (v : Option String) : -1 ≤ indexOf xs v := by
  induction xs with
  | nil => simp [indexOf]
  | cons x rest ih =>
    unfold indexOf
    split_ifs <;> omega

theorem indexOf_gt_iff_mem (xs : List (Option String)) (v : Option String) :
    indexOf xs v > -1 ↔ v ∈ xs := by
  induction xs with
  | nil => simp [indexOf]
  | cons x rest ih =>
    have hge := indexOf_ge rest v
    unfold indexOf
    by_cases hx : x = v
    · simp [hx]
    · have hx' : ¬ v = x := fun h => hx h.symm
      simp only [hx, if_false, List.mem_cons, hx', false_or]
      rw [← ih]
      split_ifs <;> omega

theorem bitAnd_undefined (b : Int) : bitAnd none b = 0 := by
  simp [bitAnd, toUint32]

/-- Rule 2: a cross-origin request whose CORS-supported bit is clear is denied. -/
theorem check_flag_clear (k : Const) (ctx : Ctx)
    (hcross : ctx.domain ≠ ctx.reqOrigin)
    (h0 : bitAnd ctx.xhrHeader k.XHR_CORS_SUPPORTED_FLAG = 0) :
    check k ctx = false := by
  unfold check
  simp [hcross, h0]

/-- What `check` computes once the first three rules have not decided. -/
theorem check_cors_eq (k : Const) (ctx : Ctx)
    (hcross : ctx.domain ≠ ctx.reqOrigin)
    (hcors : bitAnd ctx.xhrHeader k.XHR_CORS_SUPPORTED_FLAG ≠ 0)
    (hmeth : ctx.method ≠ "OPTIONS") :
    check k ctx =
      (if bitAnd ctx.xhrHeader k.XHR_WITH_CREDENTIALS_FLAG ≠ 0 ∧
          (toLowerCase (jsString ctx.allowCredentialsHeader) ≠ "true" ∨
            some "*" ∈ normalizeOrigins ctx.allowOriginHeader) then false
       else decide (some "*" ∈ normalizeOrigins ctx.allowOriginHeader ∨
          ctx.reqOrigin ∈ normalizeOrigins ctx.allowOriginHeader)) := by
  unfold check
  simp only [hcross, if_false, hmeth]
  have h1 : (bitAnd ctx.xhrHeader k.XHR_CORS_SUPPORTED_FLAG != 0) = true := by
    simpa using hcors
  simp only [h1, Bool.not_true, Bool.false_eq_true, if_false]
  by_cases hw : some "*" ∈ normalizeOrigins ctx.allowOriginHeader <;>
  by_cases ho : ctx.reqOrigin ∈ normalizeOrigins ctx.allowOriginHeader <;>
  by_cases hc : bitAnd ctx.xhrHeader k.XHR_WITH_CREDENTIALS_FLAG = 0 <;>
  by_cases ha : toLowerCase (jsString ctx.allowCredentialsHeader) = "true" <;>
  simp [indexOf_gt_iff_mem, hw, ho, hc, ha]

theorem mem_normalizeOrigins_str (s : String) (v : Option String) :
    v ∈ normalizeOrigins (.str s) ↔ v = some s := by
  simp [normalizeOrigins]

theorem mem_normalizeOrigins_arr (xs : List String) (v : Option String) :
    v ∈ normalizeOrigins (.arr xs) ↔ ∃ o ∈ xs, v = some o := by
  simp only [normalizeOrigins, List.mem_map]
  constructor
  · rintro ⟨o, ho, rfl⟩
    exact ⟨o, ho, rfl⟩
  · rintro ⟨o, ho, rfl⟩
    exact ⟨o, ho, rfl⟩

/-- C1. A cross-origin, non-preflight request flagged as CORS-capable and asking for
credentialed access is allowed exactly when `access-control-allow-credentials` is
`true` up to letter case, the allowed origins (the array built from
`access-control-allow-origin`) hold no `*`, and they hold the request origin.  In
particular a wildcard answer is denied, and an answer naming the exact origin
together with `access-control-allow-credentials: true` is allowed. -/
theorem check_credentialed (k : Const) (ctx : Ctx)
    (hcross : ctx.domain ≠ ctx.reqOrigin)
    (hcors : bitAnd ctx.xhrHeader k.XHR_CORS_SUPPORTED_FLAG ≠ 0)
    (hmeth : ctx.method ≠ "OPTIONS")
    (hcred : bitAnd ctx.xhrHeader k.XHR_WITH_CREDENTIALS_FLAG ≠ 0) :
    (check k ctx = true ↔
      toLowerCase (jsString ctx.allowCredentialsHeader) = "true" ∧
        some "*" ∉ normalizeOrigins ctx.allowOriginHeader ∧
        ctx.reqOrigin ∈ normalizeOrigins ctx.allowOriginHeader) ∧
    (ctx.allowOriginHeader = .str "*" → check k ctx = false) ∧
    (∀ o : String, o ≠ "*" → ctx.allowOriginHeader = .str o → ctx.reqOrigin = some o →
      ctx.allowCredentialsHeader = .str "true" → check k ctx = true) := by
  have hmain : check k ctx = true ↔
      toLowerCase (jsString ctx.allowCredentialsHeader) = "true" ∧
        some "*" ∉ normalizeOrigins ctx.allowOriginHeader ∧
        ctx.reqOrigin ∈ normalizeOrigins ctx.allowOriginHeader := by
    rw [check_cors_eq k ctx hcross hcors hmeth]
    by_cases ha : toLowerCase (jsString ctx.allowCredentialsHeader) = "true" <;>
    by_cases hw : some "*" ∈ normalizeOrigins ctx.allowOriginHeader <;>
    simp [hcred, ha, hw]
  refine ⟨hmain, ?_, ?_⟩
  · intro hstar
    have hw : some "*" ∈ normalizeOrigins ctx.allowOriginHeader := by
      rw [hstar]; simp [normalizeOrigins]
    cases hc : check k ctx
    · rfl
    · exact absurd hw (hmain.mp hc).2.1
  · intro o ho hhdr horig hallow
    refine hmain.mpr ⟨?_, ?_, ?_⟩
    · rw [hallow]; decide
    · rw [hhdr, mem_normalizeOrigins_str]
      intro h
      exact ho (Option.some.inj h).symm
    · rw [hhdr, mem_normalizeOrigins_str, horig]

/-- Witness of `check_credentialed`: the spec's example with origin `https://a.example`. -/
theorem check_credentialed_witness :
    check sampleConst ctxCredentialedExact = true ∧
      (check sampleConst ctxCredentialedExact = true ↔
        toLowerCase (jsString ctxCredentialedExact.allowCredentialsHeader) = "true" ∧
          some "*" ∉ normalizeOrigins ctxCredentialedExact.allowOriginHeader ∧
          ctxCredentialedExact.reqOrigin ∈
            normalizeOrigins ctxCredentialedExact.allowOriginHeader) :=
  ⟨by decide,
    (check_credentialed sampleConst ctxCredentialedExact (by decide) (by decide) (by decide)
      (by decide)).1⟩

/-- C2. A cross-origin, non-preflight request flagged as CORS-capable and not asking
for credentialed access is allowed exactly when the allowed origins (the array built
from `access-control-allow-origin`, one value or a list of values) hold `*` or hold
the request origin; `access-control-allow-credentials` does not influence the result. -/
theorem check_not_credentialed (k : Const) (ctx : Ctx)
    (hcross : ctx.domain ≠ ctx.reqOrigin)
    (hcors : bitAnd ctx.xhrHeader k.XHR_CORS_SUPPORTED_FLAG ≠ 0)
    (hmeth : ctx.method ≠ "OPTIONS")
    (hcred : bitAnd ctx.xhrHeader k.XHR_WITH_CREDENTIALS_FLAG = 0) :
    (check k ctx = true ↔
      some "*" ∈ normalizeOrigins ctx.allowOriginHeader ∨
        ctx.reqOrigin ∈ normalizeOrigins ctx.allowOriginHeader) ∧
    (∀ s : String, ctx.allowOriginHeader = .str s →
      (check k ctx = true ↔ s = "*" ∨ ctx.reqOrigin = some s)) ∧
    (∀ xs : List String, ctx.allowOriginHeader = .arr xs →
      (check k ctx = true ↔ "*" ∈ xs ∨ ∃ o ∈ xs, ctx.reqOrigin = some o)) ∧
    (∀ h : HeaderValue, check k { ctx with allowCredentialsHeader := h } = check k ctx) := by
  have hmain : ∀ c : Ctx, c.domain ≠ c.reqOrigin →
      bitAnd c.xhrHeader k.XHR_CORS_SUPPORTED_FLAG ≠ 0 → c.method ≠ "OPTIONS" →
      bitAnd c.xhrHeader k.XHR_WITH_CREDENTIALS_FLAG = 0 →
      check k c = decide (some "*" ∈ normalizeOrigins c.allowOriginHeader ∨
        c.reqOrigin ∈ normalizeOrigins c.allowOriginHeader) := by
    intro c h1 h2 h3 h4
    rw [check_cors_eq k c h1 h2 h3]
    simp [h4]
  have hiff : check k ctx = true ↔
      some "*" ∈ normalizeOrigins ctx.allowOriginHeader ∨
        ctx.reqOrigin ∈ normalizeOrigins ctx.allowOriginHeader := by
    rw [hmain ctx hcross hcors hmeth hcred]
    simp
  refine ⟨hiff, ?_, ?_, ?_⟩
  · intro s hs
    rw [hiff, hs, mem_normalizeOrigins_str, mem_normalizeOrigins_str]
    constructor
    · rintro (h | h)
      · exact Or.inl (Option.some.inj h).symm
      · exact Or.inr h
    · rintro (h | h)
      · exact Or.inl (by rw [h])
      · exact Or.inr h
  · intro xs hxs
    rw [hiff, hxs, mem_normalizeOrigins_arr, mem_normalizeOrigins_arr]
    constructor
    · rintro (⟨o, ho, h⟩ | h)
      · exact Or.inl ((Option.some.inj h) ▸ ho)
      · exact Or.inr h
    · rintro (h | h)
      · exact Or.inl ⟨"*", h, rfl⟩
      · exact Or.inr h
  · intro h
    rw [hmain ctx hcross hcors hmeth hcred,
      hmain { ctx with allowCredentialsHeader := h } hcross hcors hmeth hcred]

/-- Witness of `check_not_credentialed`: the wildcard answer to a plain request. -/
theorem check_not_credentialed_witness :
    check sampleConst ctxPlainWildcard = true ∧
      ∀ h : HeaderValue,
        check sampleConst { ctxPlainWildcard with allowCredentialsHeader := h } =
          check sampleConst ctxPlainWildcard :=
  ⟨by decide,
    (check_not_credentialed sampleConst ctxPlainWildcard (by decide) (by decide) (by decide)
      (by decide)).2.2.2⟩

/-- C3. When the target domain equals the request origin, `check` allows, whatever
the method, the marker header and the response headers are. -/
theorem check_same_origin (k : Const) (ctx : Ctx) (hsame : ctx.domain = ctx.reqOrigin) :
    check k ctx = true := by
  unfold check
  simp [hsame]

/-- Witness of `check_same_origin`: a same-origin `POST` without marker header. -/
theorem check_same_origin_witness : check sampleConst ctxSameOrigin = true :=
  check_same_origin sampleConst ctxSameOrigin (by decide)

/-- C4. When the target domain differs from the request origin and the marker header
is missing or has the CORS-supported bit clear, `check` denies, whatever the method
and the response headers are. -/
theorem check_cors_unsupported (k : Const) (ctx : Ctx)
    (hcross : ctx.domain ≠ ctx.reqOrigin)
    (hflag : ctx.xhrHeader = none ∨ bitAnd ctx.xhrHeader k.XHR_CORS_SUPPORTED_FLAG = 0) :
    check k ctx = false := by
  have h0 : bitAnd ctx.xhrHeader k.XHR_CORS_SUPPORTED_FLAG = 0 := by
    rcases hflag with h | h
    · rw [h]; exact bitAnd_undefined _
    · exact h
  exact check_flag_clear k ctx hcross h0

/-- Witness of `check_cors_unsupported`: an `OPTIONS` request without marker header
answered with `access-control-allow-origin: *`. -/
theorem check_cors_unsupported_witness : check sampleConst ctxUnsupported = false :=
  check_cors_unsupported sampleConst ctxUnsupported (by decide) (Or.inl rfl)

/-- C5. A cross-origin request flagged as CORS-capable whose method is `OPTIONS` is
allowed, whatever the credentials bit and the response headers are. -/
theorem check_preflight (k : Const) (ctx : Ctx)
    (hcross : ctx.domain ≠ ctx.reqOrigin)
    (hcors : bitAnd ctx.xhrHeader k.XHR_CORS_SUPPORTED_FLAG ≠ 0)
    (hmeth : ctx.method = "OPTIONS") :
    check k ctx = true := by
  unfold check
  have h1 : (bitAnd ctx.xhrHeader k.XHR_CORS_SUPPORTED_FLAG != 0) = true := by
    simpa using hcors
  simp [hcross, h1, hmeth]

/-- Witness of `check_preflight`: a credentialed preflight without response headers. -/
theorem check_preflight_witness : check sampleConst ctxPreflight = true :=
  check_preflight sampleConst ctxPreflight (by decide) (by decide) (by decide)

/-- C6 (failing input). With no request origin and no `access-control-allow-origin`
header, a cross-origin `GET` flagged as CORS-capable is allowed: the missing header
is wrapped into the one-element array `[undefined]`, in which `indexOf` finds the
missing request origin. -/
theorem check_missing_headers_allows : check sampleConst ctxNoOriginNoHeaders = true := by
  decide

/-- Missing request origin and missing header, for arbitrary masks: whenever the marker header has the
CORS-supported bit set and the credentials bit clear, a cross-origin request that is
not a preflight, has no request origin and is answered without
`access-control-allow-origin` is allowed. -/
theorem check_no_origin_no_header (k : Const) (ctx : Ctx)
    (hcross : ctx.domain ≠ ctx.reqOrigin)
    (hcors : bitAnd ctx.xhrHeader k.XHR_CORS_SUPPORTED_FLAG ≠ 0)
    (hmeth : ctx.method ≠ "OPTIONS")
    (hcred : bitAnd ctx.xhrHeader k.XHR_WITH_CREDENTIALS_FLAG = 0)
    (horigin : ctx.reqOrigin = none) (hmissing : ctx.allowOriginHeader = .undefined) :
    check k ctx = true := by
  rw [check_cors_eq k ctx hcross hcors hmeth, hmissing, horigin]
  simp [hcred, normalizeOrigins]

/-- A missing `access-control-allow-credentials` header counts as credentials not
allowed: a credentialed cross-origin request that is not a preflight is denied. -/
theorem check_missing_allow_credentials_denies (k : Const) (ctx : Ctx)
    (hcross : ctx.domain ≠ ctx.reqOrigin) (hmeth : ctx.method ≠ "OPTIONS")
    (hcred : bitAnd ctx.xhrHeader k.XHR_WITH_CREDENTIALS_FLAG ≠ 0)
    (hmissing : ctx.allowCredentialsHeader = .undefined) :
    check k ctx = false := by
  by_cases hcors : bitAnd ctx.xhrHeader k.XHR_CORS_SUPPORTED_FLAG = 0
  · exact check_flag_clear k ctx hcross hcors
  · have hne : toLowerCase (jsString HeaderValue.undefined) ≠ "true" := by decide
    rw [check_cors_eq k ctx hcross hcors hmeth, hmissing]
    simp [hcred, hne]

/-- With a request origin that is present, a missing `access-control-allow-origin`
header denies every cross-origin request that is not a preflight. -/
theorem check_missing_allow_origin_denies (k : Const) (ctx : Ctx) (o : String)
    (hcross : ctx.domain ≠ ctx.reqOrigin) (hmeth : ctx.method ≠ "OPTIONS")
    (horigin : ctx.reqOrigin = some o) (hmissing : ctx.allowOriginHeader = .undefined) :
    check k ctx = false := by
  by_cases hcors : bitAnd ctx.xhrHeader k.XHR_CORS_SUPPORTED_FLAG = 0
  · exact check_flag_clear k ctx hcross hcors
  · rw [check_cors_eq k ctx hcross hcors hmeth, hmissing, horigin]
    simp [normalizeOrigins]

end SameOriginPolicy

/-! ## Properties of `WindowSync` -/

namespace WindowSync

mutual
theorem getWindowsForSync_all (top : WinId) (initiator : Option WinId) (P : WinId → Prop)
    (hP : ∀ id, some id ≠ initiator ∧ id ≠ top → P id) :
    ∀ (currentWindow : Win) (windows : List WinId), (∀ w ∈ windows, P w) →
      ∀ w ∈ getWindowsForSync top initiator currentWindow windows, P w
  | .mk id frames, windows, h => by
    rw [getWindowsForSync]
    apply getWindowsForSyncFrames_all top initiator P hP frames
    intro w hw
    split_ifs at hw with hc
    · rcases List.mem_append.mp hw with hw | hw
      · exact h w hw
      · rw [List.mem_singleton.mp hw]
        exact hP id hc
    · exact h w hw
theorem getWindowsForSyncFrames_all (top : WinId) (initiator : Option WinId)
    (P : WinId → Prop) (hP : ∀ id, some id ≠ initiator ∧ id ≠ top → P id) :
    ∀ (frames : List Win) (windows : List WinId), (∀ w ∈ windows, P w) →
      ∀ w ∈ getWindowsForSyncFrames top initiator frames windows, P w
  | [], windows, h => by
    rw [getWindowsForSyncFrames]
    exact h
  | frameWindow :: rest, windows, h => by
    rw [getWindowsForSyncFrames]
    exact getWindowsForSyncFrames_all top initiator P hP rest _
      (getWindowsForSync_all top initiator P hP frameWindow windows h)
end

/-- C7. For every frame tree and every initiator (a window, the top window or none),
the list returned by `_getWindowsForSync (initiator)` holds neither the initiator nor
the top window. -/
theorem getWindowsForSync_excludes (top : Win) (initiator : Option WinId) :
    initiator ∉ (getWindowsForSync top.id initiator top []).map some ∧
      top.id ∉ getWindowsForSync top.id initiator top [] := by
  have h := getWindowsForSync_all top.id initiator
    (fun w => some w ≠ initiator ∧ w ≠ top.id) (fun _ hid => hid) top []
    (fun w hw => absurd hw (List.not_mem_nil w))
  constructor
  · intro hmem
    rcases List.mem_map.mp hmem with ⟨w, hw, hwi⟩
    exact (h w hw).1 hwi
  · intro hmem
    exact (h top.id hmem).2 rfl

theorem getClosure_putClosure (c : SendClosure) (cs : List SendClosure) :
    getClosure (putClosure c cs) c.id = some c := by
  induction cs with
  | nil => simp [putClosure, getClosure]
  | cons d ds ih =>
    unfold putClosure
    split_ifs with h
    · simp [getClosure]
    · simp [getClosure, h, ih]

theorem getTimer_dropTimer (ts : List Timer) (h : Nat) :
    getTimer (dropTimer ts (some h)) h = none := by
  induction ts with
  | nil => simp [dropTimer, getTimer]
  | cons t rest ih =>
    unfold dropTimer at ih ⊢
    by_cases ht : t.handle = h
    · have hb : ¬ ((some t.handle != some h) = true) := by simp [ht]
      simp only [List.filter_cons, hb, if_false]
      exact ih
    · have hb : (some t.handle != some h) = true := by simp [ht]
      simp only [List.filter_cons, hb, if_true]
      simp [getTimer, ht, ih]

theorem getTimer_dropTimer_of_none (ts : List Timer) (h : Nat) (o : Option Nat)
    (hnone : getTimer ts h = none) : getTimer (dropTimer ts o) h = none := by
  induction ts with
  | nil => simp [dropTimer, getTimer]
  | cons t rest ih =>
    unfold getTimer at hnone
    split_ifs at hnone with ht
    unfold dropTimer at ih ⊢
    by_cases hd : (some t.handle != o) = true
    · simp only [List.filter_cons, hd, if_true]
      simp [getTimer, ht, ih hnone]
    · simp only [List.filter_cons, hd, if_false]
      exact ih hnone

theorem sendMsg_issue (k : Codec) (env : Env) (i : Nat) (s : State) (c : SendClosure)
    (hc : getClosure s.closures i = some c)
    (hbranch : c.attempts < SYNC_MESSAGE_ATTEMPT_COUNT ∨ env.hasParent c.win = false) :
    sendMsg k env i s =
      { s with
        closures :=
          putClosure { c with attempts := c.attempts + 1, timeoutId := some s.nextTimer }
            s.closures,
        timers := ⟨s.nextTimer, i, SYNC_MESSAGE_TIMEOUT * (c.attempts + 1)⟩ :: s.timers,
        nextTimer := s.nextTimer + 1,
        log := s.log ++ [.sendServiceMsg ⟨some c.id, c.cmd, some c.cookies⟩ c.win,
          .setTimeout s.nextTimer i (SYNC_MESSAGE_TIMEOUT * (c.attempts + 1))] } := by
  unfold sendMsg
  rw [hc]
  simp only [if_pos hbranch]

theorem sendMsg_giveUp (k : Codec) (env : Env) (i : Nat) (s : State) (c : SendClosure)
    (hc : getClosure s.closures i = some c)
    (hcap : ¬ c.attempts < SYNC_MESSAGE_ATTEMPT_COUNT) (hparent : env.hasParent c.win = true) :
    sendMsg k env i s =
      resolveWrapper i
        { s with closures := putClosure { c with attempts := c.attempts + 1 } s.closures } := by
  unfold sendMsg
  rw [hc]
  have hbranch : ¬ (c.attempts < SYNC_MESSAGE_ATTEMPT_COUNT ∨ env.hasParent c.win = false) := by
    simp [hcap, hparent]
  simp only [if_neg hbranch]

theorem sendsAndTimeouts_issue (log : List Effect) (m : ServiceMsg) (w : WinId)
    (h i d : Nat) :
    sendsAndTimeouts (log ++ [.sendServiceMsg m w, .setTimeout h i d]) =
      sendsAndTimeouts log ++ [.sendServiceMsg m w, .setTimeout h i d] := by
  simp [sendsAndTimeouts, List.filter_append]

theorem fireTimeout_retry (k : Codec) (env : Env) (s : State) (i : Nat) (w : WinId)
    (cmd : String) (cookies : List ParsedCookie) (a h : Nat)
    (haw : Awaiting s i w cmd cookies a h)
    (hbranch : a < SYNC_MESSAGE_ATTEMPT_COUNT ∨ env.hasParent w = false) :
    Awaiting (fireTimeout k env h s) i w cmd cookies (a + 1) s.nextTimer ∧
      (fireTimeout k env h s).nextTimer = s.nextTimer + 1 ∧
      (fireTimeout k env h s).log = s.log ++ [startMsg i w cmd cookies,
        .setTimeout s.nextTimer i (SYNC_MESSAGE_TIMEOUT * (a + 1))] ∧
      (fireTimeout k env h s).resolved = s.resolved := by
  obtain ⟨hc, ht⟩ := haw
  have hfire : fireTimeout k env h s =
      sendMsg k env i { s with timers := dropTimer s.timers (some h) } := by
    unfold fireTimeout
    rw [ht]
  rw [hfire, sendMsg_issue k env i { s with timers := dropTimer s.timers (some h) } _ hc
    hbranch]
  refine ⟨⟨?_, ?_⟩, rfl, rfl, rfl⟩
  · exact getClosure_putClosure
      ⟨i, w, cmd, cookies, a + 1, some s.nextTimer⟩ s.closures
  · simp [getTimer]

theorem fireTimeout_giveUp (k : Codec) (env : Env) (s : State) (i : Nat) (w : WinId)
    (cmd : String) (cookies : List ParsedCookie) (a h : Nat)
    (haw : Awaiting s i w cmd cookies a h) (ha : ¬ a < SYNC_MESSAGE_ATTEMPT_COUNT)
    (hparent : env.hasParent w = true) (hpending : i ∉ s.resolved) :
    i ∈ (fireTimeout k env h s).resolved ∧
      sendsAndTimeouts (fireTimeout k env h s).log = sendsAndTimeouts s.log ∧
      getTimer (fireTimeout k env h s).timers h = none ∧
      getClosure (fireTimeout k env h s).closures i =
        some ⟨i, w, cmd, cookies, a + 1, some h⟩ ∧
      (fireTimeout k env h s).resolversMap = mapDelete s.resolversMap i := by
  obtain ⟨hc, ht⟩ := haw
  have hfire : fireTimeout k env h s =
      sendMsg k env i { s with timers := dropTimer s.timers (some h) } := by
    unfold fireTimeout
    rw [ht]
  have hput : getClosure (putClosure ⟨i, w, cmd, cookies, a + 1, some h⟩ s.closures) i =
      some ⟨i, w, cmd, cookies, a + 1, some h⟩ :=
    getClosure_putClosure ⟨i, w, cmd, cookies, a + 1, some h⟩ s.closures
  rw [hfire, sendMsg_giveUp k env i { s with timers := dropTimer s.timers (some h) } _ hc
    ha hparent]
  unfold resolveWrapper
  simp only [hput, hpending, if_false]
  refine ⟨?_, ?_, getTimer_dropTimer _ h, trivial, trivial⟩
  · simp
  · simp [sendsAndTimeouts, List.filter_append]

theorem fireRetries_step (k : Codec) (env : Env) (envs : List Env) (s : State) (i : Nat)
    (w : WinId) (cmd : String) (cookies : List ParsedCookie) (a h : Nat)
    (hc : getClosure s.closures i = some ⟨i, w, cmd, cookies, a, some h⟩) :
    fireRetries k i (env :: envs) s = fireRetries k i envs (fireTimeout k env h s) := by
  simp [fireRetries, hc]

theorem sendSyncMessage_first_issue (k : Codec) (env : Env) (s : State) (n : Nat) (w : WinId)
    (cmd : String) (cookies : List ParsedCookie) (hgen : s.messageIdGenerator = some n) :
    ∃ s0, sendSyncMessage k env w cmd cookies s = .ok (n + 1, s0) ∧
      Awaiting s0 (n + 1) w cmd cookies 1 s.nextTimer ∧
      s0.nextTimer = s.nextTimer + 1 ∧
      s0.log = s.log ++ [startMsg (n + 1) w cmd cookies,
        .setTimeout s.nextTimer (n + 1) (SYNC_MESSAGE_TIMEOUT * 1)] ∧
      s0.resolved = s.resolved ∧
      s0.resolversMap = mapSet s.resolversMap (n + 1) (n + 1) ∧
      s0.messageIdGenerator = some (n + 1) := by
  have hput : getClosure (putClosure ⟨n + 1, w, cmd, cookies, 0, none⟩ s.closures) (n + 1) =
      some ⟨n + 1, w, cmd, cookies, 0, none⟩ :=
    getClosure_putClosure ⟨n + 1, w, cmd, cookies, 0, none⟩ s.closures
  have heq : sendSyncMessage k env w cmd cookies s = .ok (n + 1, sendMsg k env (n + 1)
      { s with
        messageIdGenerator := some (n + 1),
        closures := putClosure ⟨n + 1, w, cmd, cookies, 0, none⟩ s.closures,
        resolversMap := mapSet s.resolversMap (n + 1) (n + 1) }) := by
    unfold sendSyncMessage
    rw [hgen]
    rfl
  refine ⟨_, heq, ?_⟩
  rw [sendMsg_issue k env (n + 1) _ ⟨n + 1, w, cmd, cookies, 0, none⟩ hput
    (Or.inl (by simp [SYNC_MESSAGE_ATTEMPT_COUNT]))]
  refine ⟨⟨?_, ?_⟩, rfl, rfl, rfl, rfl, rfl⟩
  · exact getClosure_putClosure ⟨n + 1, w, cmd, cookies, 1, some s.nextTimer⟩ _
  · simp [getTimer]

/-- C8. A send to a window that keeps its parent, with no DONE arriving: the START
message is issued exactly five times, each issue is followed by the arming of a timer
whose delays are 500, 1000, 1500, 2000, 2500 in this order; the promise is pending
until the fifth timer elapses and resolved when it does, that timer is then no longer
armed, and a further expiry changes nothing. -/
theorem sendSyncMessage_retry_schedule (k : Codec) (env0 e1 e2 e3 e4 e5 : Env) (s : State)
    (n : Nat) (w : WinId) (cmd : String) (cookies : List ParsedCookie)
    (hgen : s.messageIdGenerator = some n)
    (hfresh : n + 1 ∉ s.resolved)
    (hparent : ∀ e ∈ [e1, e2, e3, e4, e5], e.hasParent w = true) :
    ∃ s0, sendSyncMessage k env0 w cmd cookies s = .ok (n + 1, s0) ∧
      sendsAndTimeouts (fireRetries k (n + 1) [e1, e2, e3, e4, e5] s0).log =
        sendsAndTimeouts s.log ++
          [startMsg (n + 1) w cmd cookies, .setTimeout s.nextTimer (n + 1) 500,
           startMsg (n + 1) w cmd cookies, .setTimeout (s.nextTimer + 1) (n + 1) 1000,
           startMsg (n + 1) w cmd cookies, .setTimeout (s.nextTimer + 2) (n + 1) 1500,
           startMsg (n + 1) w cmd cookies, .setTimeout (s.nextTimer + 3) (n + 1) 2000,
           startMsg (n + 1) w cmd cookies, .setTimeout (s.nextTimer + 4) (n + 1) 2500] ∧
      n + 1 ∉ (fireRetries k (n + 1) [e1, e2, e3, e4] s0).resolved ∧
      n + 1 ∈ (fireRetries k (n + 1) [e1, e2, e3, e4, e5] s0).resolved ∧
      getTimer (fireRetries k (n + 1) [e1, e2, e3, e4, e5] s0).timers (s.nextTimer + 4) = none ∧
      ∀ e6 : Env, fireRetries k (n + 1) [e1, e2, e3, e4, e5, e6] s0 =
        fireRetries k (n + 1) [e1, e2, e3, e4, e5] s0 := by
  obtain ⟨s0, hs0, haw0, hnt0, hlog0, hres0, -, -⟩ :=
    sendSyncMessage_first_issue k env0 s n w cmd cookies hgen
  refine ⟨s0, hs0, ?_⟩
  have hp5 : e5.hasParent w = true := hparent e5 (by simp)
  -- the four retries
  obtain ⟨haw1, hnt1, hlog1, hres1⟩ :=
    fireTimeout_retry k e1 s0 (n + 1) w cmd cookies 1 s.nextTimer haw0
      (Or.inl (by decide))
  set s1 := fireTimeout k e1 s.nextTimer s0 with hs1
  rw [hnt0] at haw1 hnt1 hlog1
  obtain ⟨haw2, hnt2, hlog2, hres2⟩ :=
    fireTimeout_retry k e2 s1 (n + 1) w cmd cookies 2 (s.nextTimer + 1) haw1
      (Or.inl (by decide))
  set s2 := fireTimeout k e2 (s.nextTimer + 1) s1 with hs2
  rw [hnt1] at haw2 hnt2 hlog2
  obtain ⟨haw3, hnt3, hlog3, hres3⟩ :=
    fireTimeout_retry k e3 s2 (n + 1) w cmd cookies 3 (s.nextTimer + 1 + 1) haw2
      (Or.inl (by decide))
  set s3 := fireTimeout k e3 (s.nextTimer + 1 + 1) s2 with hs3
  rw [hnt2] at haw3 hnt3 hlog3
  obtain ⟨haw4, hnt4, hlog4, hres4⟩ :=
    fireTimeout_retry k e4 s3 (n + 1) w cmd cookies 4 (s.nextTimer + 1 + 1 + 1) haw3
      (Or.inl (by decide))
  set s4 := fireTimeout k e4 (s.nextTimer + 1 + 1 + 1) s3 with hs4
  rw [hnt3] at haw4 hnt4 hlog4
  -- the fifth timer elapses
  have hpend4 : n + 1 ∉ s4.resolved := by
    rw [hres4, hres3, hres2, hres1, hres0]
    exact hfresh
  obtain ⟨hin5, hlog5, htimer5, hclosure5, -⟩ :=
    fireTimeout_giveUp k e5 s4 (n + 1) w cmd cookies 5 (s.nextTimer + 1 + 1 + 1 + 1) haw4
      (by decide) hp5 hpend4
  set s5 := fireTimeout k e5 (s.nextTimer + 1 + 1 + 1 + 1) s4 with hs5
  have hR4 : fireRetries k (n + 1) [e1, e2, e3, e4] s0 = s4 := by
    rw [fireRetries_step k e1 _ s0 (n + 1) w cmd cookies 1 s.nextTimer haw0.1,
      fireRetries_step k e2 _ s1 (n + 1) w cmd cookies 2 _ haw1.1,
      fireRetries_step k e3 _ s2 (n + 1) w cmd cookies 3 _ haw2.1,
      fireRetries_step k e4 _ s3 (n + 1) w cmd cookies 4 _ haw3.1]
    rfl
  have hR5 : fireRetries k (n + 1) [e1, e2, e3, e4, e5] s0 = s5 := by
    rw [fireRetries_step k e1 _ s0 (n + 1) w cmd cookies 1 s.nextTimer haw0.1,
      fireRetries_step k e2 _ s1 (n + 1) w cmd cookies 2 _ haw1.1,
      fireRetries_step k e3 _ s2 (n + 1) w cmd cookies 3 _ haw2.1,
      fireRetries_step k e4 _ s3 (n + 1) w cmd cookies 4 _ haw3.1,
      fireRetries_step k e5 _ s4 (n + 1) w cmd cookies 5 _ haw4.1]
    rfl
  have hR6 : ∀ e6 : Env, fireRetries k (n + 1) [e1, e2, e3, e4, e5, e6] s0 = s5 := by
    intro e6
    rw [fireRetries_step k e1 _ s0 (n + 1) w cmd cookies 1 s.nextTimer haw0.1,
      fireRetries_step k e2 _ s1 (n + 1) w cmd cookies 2 _ haw1.1,
      fireRetries_step k e3 _ s2 (n + 1) w cmd cookies 3 _ haw2.1,
      fireRetries_step k e4 _ s3 (n + 1) w cmd cookies 4 _ haw3.1,
      fireRetries_step k e5 _ s4 (n + 1) w cmd cookies 5 _ haw4.1,
      fireRetries_step k e6 _ s5 (n + 1) w cmd cookies 6 _ hclosure5]
    show fireTimeout k e6 (s.nextTimer + 1 + 1 + 1 + 1) s5 = s5
    unfold fireTimeout
    rw [htimer5]
  rw [hR4, hR5]
  refine ⟨?_, hpend4, hin5, htimer5, fun e6 => hR6 e6⟩
  rw [hlog5, hlog4, hlog3, hlog2, hlog1, hlog0]
  simp [sendsAndTimeouts, List.filter_append, startMsg, SYNC_MESSAGE_TIMEOUT]

/-- Witness of `sendSyncMessage_retry_schedule`: the top coordinator sends to window `3`. -/
theorem sendSyncMessage_retry_schedule_witness :
    ∃ s0, sendSyncMessage sampleCodec sampleEnv 3 SYNC_COOKIE_START_CMD [sampleCookie]
        sampleTop = .ok (1, s0) ∧
      1 ∈ (fireRetries sampleCodec 1 [sampleEnv, sampleEnv, sampleEnv, sampleEnv, sampleEnv]
        s0).resolved := by
  obtain ⟨s0, h0, -, -, hin, -, -⟩ :=
    sendSyncMessage_retry_schedule sampleCodec sampleEnv sampleEnv sampleEnv sampleEnv
      sampleEnv sampleEnv sampleTop 0 3 SYNC_COOKIE_START_CMD [sampleCookie] (by decide)
      (by decide) (by simp [sampleEnv])
  exact ⟨s0, h0, hin⟩

/-- Whatever the attempt count, when the target window has no parent the retry step
issues the message again and arms a further timer; the promise stays as it was. -/
theorem fireTimeout_removed_window (k : Codec) (env : Env) (s : State) (i : Nat) (w : WinId)
    (cmd : String) (cookies : List ParsedCookie) (a h : Nat)
    (haw : Awaiting s i w cmd cookies a h) (hremoved : env.hasParent w = false) :
    (fireTimeout k env h s).log = s.log ++ [startMsg i w cmd cookies,
        .setTimeout s.nextTimer i (SYNC_MESSAGE_TIMEOUT * (a + 1))] ∧
      (fireTimeout k env h s).resolved = s.resolved :=
  (fireTimeout_retry k env s i w cmd cookies a h haw (Or.inr hremoved)).2.2

/-- C9 (failing input). Window `3` is removed while send `1` is waiting.  When the
retry step runs after the first attempt it issues a second START to the removed
window and arms a timer of 1000; the promise is not resolved and its entry stays in
the table.  The same happens once the cap is reached: after five attempts a sixth
START is issued and a timer of 3000 is armed. -/
theorem sendMsg_removed_window_retries :
    ((fireRetries sampleCodec 1 [sampleEnvRemoved] sampleSent).log =
        sampleSent.log ++ [startMsg 1 3 SYNC_COOKIE_START_CMD [sampleCookie],
          .setTimeout 2 1 1000] ∧
      (fireRetries sampleCodec 1 [sampleEnvRemoved] sampleSent).resolved = [] ∧
      mapGet (fireRetries sampleCodec 1 [sampleEnvRemoved] sampleSent).resolversMap (some 1) =
        some 1) ∧
    ((fireRetries sampleCodec 1
          [sampleEnv, sampleEnv, sampleEnv, sampleEnv, sampleEnvRemoved] sampleSent).log =
        (fireRetries sampleCodec 1 [sampleEnv, sampleEnv, sampleEnv, sampleEnv] sampleSent).log ++
          [startMsg 1 3 SYNC_COOKIE_START_CMD [sampleCookie], .setTimeout 6 1 3000] ∧
      (fireRetries sampleCodec 1
          [sampleEnv, sampleEnv, sampleEnv, sampleEnv, sampleEnvRemoved] sampleSent).resolved =
        []) := by
  decide

theorem mapGet_of_not_key (m : List (Nat × Nat)) (key : Option Nat)
    (hkey : ∀ i, key = some i → i ∉ m.map Prod.fst) : mapGet m key = none := by
  cases key with
  | none => rfl
  | some i =>
    have hi := hkey i rfl
    unfold mapGet
    simp only [Option.map_eq_none']
    rw [List.find?_eq_none]
    intro e he hei
    apply hi
    have : e.1 = i := by simpa using hei
    rw [← this]
    exact List.mem_map_of_mem Prod.fst he

/-- C10. A DONE message whose id is not a key of the resolvers map (an unknown id, an
id already resolved, or no id) leaves the coordinator as it was: the map, the
promises, the timers and the log of effects (messages, timers, cookie writes) are
unchanged. -/
theorem onMsgReceived_done_unknown_id (k : Codec) (env : Env) (message : SyncCookieMsg)
    (source : WinId) (s : State) (hcmd : message.cmd = SYNC_COOKIE_DONE_CMD)
    (hkey : ∀ i, message.id = some i → i ∉ s.resolversMap.map Prod.fst) :
    onMsgReceived k env message source s = .ok s := by
  have hne : ¬ SYNC_COOKIE_DONE_CMD = SYNC_COOKIE_START_CMD := by decide
  unfold onMsgReceived
  rw [hcmd, if_neg hne, if_pos rfl, mapGet_of_not_key s.resolversMap message.id hkey]

/-- Witness of `onMsgReceived_done_unknown_id`: send `1` is pending and a DONE with
id `7` arrives from window `3`. -/
theorem onMsgReceived_done_unknown_id_witness :
    mapGet sampleSent.resolversMap (some 1) = some 1 ∧
      onMsgReceived sampleCodec sampleEnv ⟨some 7, SYNC_COOKIE_DONE_CMD, []⟩ 3 sampleSent =
        .ok sampleSent :=
  ⟨by decide,
    onMsgReceived_done_unknown_id sampleCodec sampleEnv ⟨some 7, SYNC_COOKIE_DONE_CMD, []⟩ 3
      sampleSent rfl (by decide)⟩

end WindowSync

namespace WindowSync

/-- C11. A coordinator attached to a window that is not the top window handles a START
message from window `source` by applying the carried cookies to its own cookie
sandbox and sending one message, a DONE with the id of the START, to `source`.
Nothing else happens: no START is sent, no other cookie sandbox is touched, and the
rest of the state is unchanged. -/
theorem onMsgReceived_start_frame (k : Codec) (env : Env) (message : SyncCookieMsg)
    (source : WinId) (s : State) (hframe : s.win ≠ env.top.id)
    (hcmd : message.cmd = SYNC_COOKIE_START_CMD) :
    onMsgReceived k env message source s =
      .ok { s with log := s.log ++ [.syncWindowCookie s.win message.cookies,
        .sendServiceMsg ⟨message.id, SYNC_COOKIE_DONE_CMD, none⟩ source] } := by
  unfold onMsgReceived
  simp [hcmd, hframe, State.emit]

/-- Witness of `onMsgReceived_start_frame`: frame `2` receives START `7` from the top
window. -/
theorem onMsgReceived_start_frame_witness :
    onMsgReceived sampleCodec sampleEnv ⟨some 7, SYNC_COOKIE_START_CMD, [sampleCookie]⟩ 0
        sampleFrame =
      .ok { sampleFrame with log := sampleFrame.log ++
        [.syncWindowCookie sampleFrame.win [sampleCookie],
          .sendServiceMsg ⟨some 7, SYNC_COOKIE_DONE_CMD, none⟩ 0] } :=
  onMsgReceived_start_frame sampleCodec sampleEnv
    ⟨some 7, SYNC_COOKIE_START_CMD, [sampleCookie]⟩ 0 sampleFrame (by decide) rfl

/-- C13. On a coordinator attached to a window that is not the top window,
`syncBetweenWindows` only delegates.  When the cookie sandbox of the top window is
reached it applies the cookies there and calls the `syncBetweenWindows` of the top
window with its own window as initiator; otherwise it sends one message to the top
window, a START without id carrying the cookies.  The id generator, the resolvers
map, the promises and the timers are left as they were, no cookie is written, and the
result does not depend on the frames of the tree. -/
theorem syncBetweenWindows_frame_delegates (k : Codec) (env : Env)
    (cookies : List ParsedCookie) (initiator : Option WinId) (s : State)
    (hframe : s.win ≠ env.top.id) :
    syncBetweenWindows k env cookies initiator s =
      .ok { s with log := s.log ++
        (if getCookieSandbox env env.top.id = true then
          [.syncWindowCookie env.top.id cookies,
            .syncBetweenWindows env.top.id cookies s.win]
        else [.sendServiceMsg ⟨none, SYNC_COOKIE_START_CMD, some cookies⟩ env.top.id]) } := by
  unfold syncBetweenWindows delegateSyncBetweenWindowsToTop
  by_cases hreach : getCookieSandbox env env.top.id = true
  · simp [hframe, hreach, State.emit]
  · simp [hframe, hreach, State.emit]

/-- Witness of `syncBetweenWindows_frame_delegates`: frame `2` while the cookie sandbox
of the top window is out of reach. -/
theorem syncBetweenWindows_frame_delegates_witness :
    syncBetweenWindows sampleCodec sampleEnvTopHidden [sampleCookie] none sampleFrame =
      .ok { sampleFrame with log := sampleFrame.log ++
        (if getCookieSandbox sampleEnvTopHidden sampleEnvTopHidden.top.id = true then
          [.syncWindowCookie sampleEnvTopHidden.top.id [sampleCookie],
            .syncBetweenWindows sampleEnvTopHidden.top.id [sampleCookie] sampleFrame.win]
        else [.sendServiceMsg ⟨none, SYNC_COOKIE_START_CMD, some [sampleCookie]⟩
          sampleEnvTopHidden.top.id]) } :=
  syncBetweenWindows_frame_delegates sampleCodec sampleEnvTopHidden [sampleCookie] none
    sampleFrame (by decide)

mutual
theorem getWindowsForSync_eq_filter (top : WinId) (initiator : Option WinId) :
    ∀ (currentWindow : Win) (windows : List WinId),
      getWindowsForSync top initiator currentWindow windows =
        windows ++ (depthFirstPreorder currentWindow).filter
          (fun w => decide (some w ≠ initiator ∧ w ≠ top))
  | .mk id frames, windows => by
    rw [getWindowsForSync, getWindowsForSyncFrames_eq_filter top initiator frames,
      depthFirstPreorder]
    by_cases hc : some id ≠ initiator ∧ id ≠ top
    · simp [hc, List.filter_cons]
    · simp [hc, List.filter_cons]
theorem getWindowsForSyncFrames_eq_filter (top : WinId) (initiator : Option WinId) :
    ∀ (frames : List Win) (windows : List WinId),
      getWindowsForSyncFrames top initiator frames windows =
        windows ++ (depthFirstPreorderFrames frames).filter
          (fun w => decide (some w ≠ initiator ∧ w ≠ top))
  | [], windows => by
    rw [getWindowsForSyncFrames, depthFirstPreorderFrames]
    simp
  | frameWindow :: rest, windows => by
    rw [getWindowsForSyncFrames, getWindowsForSyncFrames_eq_filter top initiator rest,
      getWindowsForSync_eq_filter top initiator frameWindow, depthFirstPreorderFrames]
    simp [List.filter_append]
end

/-- C17. For every frame tree and every initiator, `_getWindowsForSync (initiator)` is
the depth-first pre-order listing of the tree from the top window with the top window
and the initiator taken out.  When the windows of the tree are pairwise distinct,
every window other than these two is listed exactly once; the windows below the
initiator are among them. -/
theorem getWindowsForSync_preorder (top : Win) (initiator : Option WinId) :
    getWindowsForSync top.id initiator top [] =
        (depthFirstPreorder top).filter (fun w => decide (some w ≠ initiator ∧ w ≠ top.id)) ∧
      ((depthFirstPreorder top).Nodup →
        ∀ w ∈ depthFirstPreorder top, some w ≠ initiator → w ≠ top.id →
          (getWindowsForSync top.id initiator top []).count w = 1) := by
  have heq := getWindowsForSync_eq_filter top.id initiator top []
  rw [List.nil_append] at heq
  refine ⟨heq, ?_⟩
  intro hnodup w hw hi ht
  rw [heq]
  apply List.count_eq_one_of_mem (hnodup.filter _)
  rw [List.mem_filter]
  exact ⟨hw, by simp [hi, ht]⟩

/-- Witness of `getWindowsForSync_preorder`: in the sample tree with initiator `1`, the
frames `2` and `3` of the initiator are listed. -/
theorem getWindowsForSync_preorder_witness :
    getWindowsForSync sampleTree.id (some 1) sampleTree [] = [2, 3, 4, 5] ∧
      (getWindowsForSync sampleTree.id (some 1) sampleTree []).count 3 = 1 :=
  ⟨by decide,
    (getWindowsForSync_preorder sampleTree (some 1)).2 (by decide) 3 (by decide) (by decide)
      (by decide)⟩

theorem foldl_emit (f : ParsedCookie → Effect) (cookies : List ParsedCookie) (s : State) :
    cookies.foldl (fun st c => st.emit (f c)) s =
      { s with log := s.log ++ cookies.map f } := by
  induction cookies generalizing s with
  | nil => simp
  | cons c rest ih =>
    rw [List.foldl_cons, ih]
    simp [State.emit]

theorem removeSyncCookie_nil (k : Codec) (env : Env) (s : State) :
    removeSyncCookie k env [] s = .error (.typeError, s) := rfl

theorem removeSyncCookie_cons (k : Codec) (env : Env) (c : ParsedCookie)
    (rest : List ParsedCookie) (s : State) :
    removeSyncCookie k env (c :: rest) s =
      .ok { cleanupChange k env (c :: rest) s with
        log := s.log ++ cleanupWrites k env (c :: rest) } := by
  unfold removeSyncCookie cleanupWrites cleanupChange
  simp only [foldl_emit]
  by_cases hclient : c.isClientSync = true
  · by_cases hmarker : env.documentCookie ≠ "" ∧
        k.isSyncCookieExists c env.documentCookie = true
    · simp [hclient, hmarker, State.emit, changeSyncTypeInPlace]
    · simp only [hclient, if_true, hmarker, if_false, true_and, List.append_nil]
  · simp [hclient]

/-- C19. For a batch that is not empty, `_removeSyncCookie` writes the deletion string
of every cookie of the batch, once each and in batch order.  When the batch is a
client sync (read from its first cookie) and the marker of that cookie exists in the
cookie header, one more string is written after the deletions: `formatSyncCookie` of
that cookie after `changeSyncType` with the flags `{ window: false }`, which names no
other flag; being the last write, the cookie is in the store afterwards.  Otherwise
nothing but the deletions is written.  Besides the log the state changes in the
rewrite case only, and only in that the first cookie, changed in place by
`changeSyncType`, reads changed in the arrays of the sends and joins that hold it. -/
theorem removeSyncCookie_writes (k : Codec) (env : Env) (c : ParsedCookie)
    (rest : List ParsedCookie) (s : State) :
    removeSyncCookie k env (c :: rest) s =
      .ok { (if c.isClientSync = true ∧ env.documentCookie ≠ "" ∧
              k.isSyncCookieExists c env.documentCookie = true then
            changeSyncTypeInPlace k c ⟨none, none, some false⟩ s
          else s) with log := s.log ++
        (c :: rest).map (fun d => Effect.documentCookieSetter (k.generateDeleteSyncCookieStr d)) ++
        (if c.isClientSync = true ∧ env.documentCookie ≠ "" ∧
            k.isSyncCookieExists c env.documentCookie = true then
          [Effect.documentCookieSetter
            (k.formatSyncCookie (k.changeSyncType c ⟨none, none, some false⟩))]
        else []) } := by
  rw [removeSyncCookie_cons]
  simp [cleanupWrites, cleanupChange]

/-- Witness of `removeSyncCookie_writes`: a client sync cookie whose marker is in the
cookie header is deleted and then written again. -/
theorem removeSyncCookie_writes_witness :
    removeSyncCookie sampleCodec sampleEnvMarker [sampleClientCookie] sampleTop =
      .ok { sampleTop with log := sampleTop.log ++
        [.documentCookieSetter "s|c=;expires=0", .documentCookieSetter "s|c=1"] } :=
  (removeSyncCookie_writes sampleCodec sampleEnvMarker sampleClientCookie [] sampleTop).trans
    (congrArg Except.ok (by decide))

end WindowSync

namespace SameOriginPolicy

/-- Rule 1 as an equation on the fields. -/
theorem check_same_origin_eq (k : Const) (ctx : Ctx) (hsame : ctx.domain = ctx.reqOrigin) :
    check k ctx = true := by
  unfold check
  simp [hsame]

/-- The result depends on the marker header only through its two flag tests. -/
theorem check_eq_of_flags (k : Const) (ctx : Ctx) (x y : Option Int)
    (hcors : bitAnd x k.XHR_CORS_SUPPORTED_FLAG = 0 ↔ bitAnd y k.XHR_CORS_SUPPORTED_FLAG = 0)
    (hcred : bitAnd x k.XHR_WITH_CREDENTIALS_FLAG = 0 ↔
      bitAnd y k.XHR_WITH_CREDENTIALS_FLAG = 0) :
    check k { ctx with xhrHeader := x } = check k { ctx with xhrHeader := y } := by
  by_cases hx : bitAnd x k.XHR_CORS_SUPPORTED_FLAG = 0 <;>
  by_cases hc : bitAnd x k.XHR_WITH_CREDENTIALS_FLAG = 0
  all_goals
    have hy := hx
    have hd := hc
    rw [hcors] at hy
    rw [hcred] at hd
    unfold check
    simp [hx, hy, hc, hd]

/-- Two marker headers whose bit patterns differ exactly in the credentials mask agree
on a CORS-supported mask that shares no bit with it. -/
theorem bitAnd_cors_of_xor (k : Const) (x y : Option Int)
    (hmasks : toUint32 k.XHR_CORS_SUPPORTED_FLAG &&& toUint32 k.XHR_WITH_CREDENTIALS_FLAG = 0)
    (hdiff : markerBits x ^^^ markerBits y = toUint32 k.XHR_WITH_CREDENTIALS_FLAG) :
    bitAnd y k.XHR_CORS_SUPPORTED_FLAG = bitAnd x k.XHR_CORS_SUPPORTED_FLAG := by
  have hy : markerBits y = markerBits x ^^^ toUint32 k.XHR_WITH_CREDENTIALS_FLAG := by
    rw [← hdiff, Nat.xor_cancel_left]
  have hmasks2 : toUint32 k.XHR_WITH_CREDENTIALS_FLAG &&& toUint32 k.XHR_CORS_SUPPORTED_FLAG = 0 := by
    rw [Nat.and_comm]; exact hmasks
  show markerBits y &&& _ = markerBits x &&& _
  rw [hy, Nat.and_xor_distrib_right, hmasks2, Nat.xor_zero]

/-- C20. Take two contexts that agree on everything but the marker header, whose marker
headers differ exactly in the with-credentials bit, the first one having it set (the
CORS-supported mask shares no bit with the credentials mask).  If `check` allows the
first, credentialed, context then it allows the second one. -/
theorem check_credentials_never_widen (k : Const) (ctx : Ctx) (x y : Option Int)
    (hmasks : toUint32 k.XHR_CORS_SUPPORTED_FLAG &&& toUint32 k.XHR_WITH_CREDENTIALS_FLAG = 0)
    (hdiff : markerBits x ^^^ markerBits y = toUint32 k.XHR_WITH_CREDENTIALS_FLAG)
    (hcred : bitAnd x k.XHR_WITH_CREDENTIALS_FLAG ≠ 0)
    (hallow : check k { ctx with xhrHeader := x } = true) :
    check k { ctx with xhrHeader := y } = true := by
  have hcors := bitAnd_cors_of_xor k x y hmasks hdiff
  by_cases hy : bitAnd y k.XHR_WITH_CREDENTIALS_FLAG = 0
  · by_cases hsame : ctx.domain = ctx.reqOrigin
    · exact check_same_origin_eq k _ hsame
    · by_cases hflag : bitAnd x k.XHR_CORS_SUPPORTED_FLAG = 0
      · rw [check_flag_clear k { ctx with xhrHeader := x } hsame hflag] at hallow
        exact absurd hallow (by decide)
      · by_cases hmeth : ctx.method = "OPTIONS"
        · unfold check
          have hflag2 : ¬ bitAnd y k.XHR_CORS_SUPPORTED_FLAG = 0 := by rw [hcors]; exact hflag
          simp [hsame, hflag2, hmeth]
        · have hflag2 : bitAnd ({ ctx with xhrHeader := y } : Ctx).xhrHeader
              k.XHR_CORS_SUPPORTED_FLAG ≠ 0 := by
            show bitAnd y k.XHR_CORS_SUPPORTED_FLAG ≠ 0
            rw [hcors]; exact hflag
          rw [check_cors_eq k { ctx with xhrHeader := x } hsame hflag hmeth] at hallow
          rw [check_cors_eq k { ctx with xhrHeader := y } hsame hflag2 hmeth]
          by_cases hw : some "*" ∈ normalizeOrigins ctx.allowOriginHeader <;>
          by_cases ho : ctx.reqOrigin ∈ normalizeOrigins ctx.allowOriginHeader <;>
          simp_all
  · rw [← hallow]
    symm
    apply check_eq_of_flags
    · rw [hcors]
    · constructor
      · intro h; exact absurd h hcred
      · intro h; exact absurd h hy

/-- Witness of `check_credentials_never_widen`: headers `17` and `16` with an answer
naming the exact origin. -/
theorem check_credentials_never_widen_witness :
    check sampleConst { ctxCredentialedExact with xhrHeader := some 17 } = true ∧
      check sampleConst { ctxCredentialedExact with xhrHeader := some 16 } = true :=
  ⟨by decide,
    check_credentials_never_widen sampleConst ctxCredentialedExact (some 17) (some 16)
      (by decide) (by decide) (by decide) (by decide)⟩

end SameOriginPolicy

namespace WindowSync

/-- The state after `_sendSyncMessage` on a coordinator whose generator exists. -/
theorem sendSyncMessage_eq (k : Codec) (env : Env) (s : State) (n : Nat) (w : WinId)
    (cmd : String) (cookies : List ParsedCookie) (hgen : s.messageIdGenerator = some n) :
    sendSyncMessage k env w cmd cookies s = .ok (n + 1,
      { s with
        messageIdGenerator := some (n + 1),
        resolversMap := mapSet s.resolversMap (n + 1) (n + 1),
        closures := putClosure ⟨n + 1, w, cmd, cookies, 1, some s.nextTimer⟩
          (putClosure ⟨n + 1, w, cmd, cookies, 0, none⟩ s.closures),
        timers := ⟨s.nextTimer, n + 1, SYNC_MESSAGE_TIMEOUT * 1⟩ :: s.timers,
        nextTimer := s.nextTimer + 1,
        log := s.log ++ [startMsg (n + 1) w cmd cookies,
          .setTimeout s.nextTimer (n + 1) (SYNC_MESSAGE_TIMEOUT * 1)] }) := by
  have hput : getClosure (putClosure ⟨n + 1, w, cmd, cookies, 0, none⟩ s.closures) (n + 1) =
      some ⟨n + 1, w, cmd, cookies, 0, none⟩ :=
    getClosure_putClosure ⟨n + 1, w, cmd, cookies, 0, none⟩ s.closures
  have heq : sendSyncMessage k env w cmd cookies s = .ok (n + 1, sendMsg k env (n + 1)
      { s with
        messageIdGenerator := some (n + 1),
        closures := putClosure ⟨n + 1, w, cmd, cookies, 0, none⟩ s.closures,
        resolversMap := mapSet s.resolversMap (n + 1) (n + 1) }) := by
    unfold sendSyncMessage
    rw [hgen]
    rfl
  rw [heq, sendMsg_issue k env (n + 1) _ ⟨n + 1, w, cmd, cookies, 0, none⟩ hput
    (Or.inl (by simp [SYNC_MESSAGE_ATTEMPT_COUNT]))]
  rfl

theorem sendSyncMessage_facts (k : Codec) (env : Env) (s : State) (n : Nat) (w : WinId)
    (cmd : String) (cookies : List ParsedCookie) (hgen : s.messageIdGenerator = some n) :
    ∃ s0, sendSyncMessage k env w cmd cookies s = .ok (n + 1, s0) ∧
      s0.log = s.log ++ [startMsg (n + 1) w cmd cookies,
        .setTimeout s.nextTimer (n + 1) (SYNC_MESSAGE_TIMEOUT * 1)] ∧
      s0.messageIdGenerator = some (n + 1) ∧ s0.nextTimer = s.nextTimer + 1 ∧
      s0.joins = s.joins ∧ s0.resolved = s.resolved ∧ s0.win = s.win :=
  ⟨_, sendSyncMessage_eq k env s n w cmd cookies hgen, rfl, rfl, rfl, rfl, rfl, rfl⟩

theorem fanOut_spec (k : Codec) (env : Env) (cookies : List ParsedCookie) :
    ∀ (targets : List WinId) (syncMessages : List Nat) (s : State) (n : Nat),
      s.messageIdGenerator = some n →
      ∃ s1, fanOut k env cookies targets syncMessages s =
          .ok (syncMessages ++ List.range' (n + 1) (unreachableTargets env targets).length, s1) ∧
        s1.log = s.log ++ fanOutEffects env cookies targets n s.nextTimer ∧
        s1.messageIdGenerator = some (n + (unreachableTargets env targets).length) ∧
        s1.nextTimer = s.nextTimer + (unreachableTargets env targets).length ∧
        s1.joins = s.joins ∧ s1.resolved = s.resolved ∧ s1.win = s.win := by
  intro targets
  induction targets with
  | nil =>
    intro syncMessages s n hgen
    exact ⟨s, by simp [fanOut, unreachableTargets], by simp [fanOutEffects],
      by simp [unreachableTargets, hgen], by simp [unreachableTargets], rfl, rfl, rfl⟩
  | cons w rest ih =>
    intro syncMessages s n hgen
    by_cases hreach : getCookieSandbox env w = true
    · obtain ⟨s1, h1, h2, h3, h4, h5, h6, h7⟩ :=
        ih syncMessages (s.emit (.syncWindowCookie w cookies)) n hgen
      have hun : unreachableTargets env (w :: rest) = unreachableTargets env rest := by
        simp [unreachableTargets, List.filter_cons, hreach]
      refine ⟨s1, ?_, ?_, ?_, ?_, h5, h6, h7⟩
      · rw [hun, ← h1]
        simp [fanOut, hreach]
      · rw [h2]
        simp [fanOutEffects, hreach, State.emit]
      · rw [hun]; exact h3
      · rw [hun]; exact h4
    · obtain ⟨s0, hsend, g1, g2, g3, g4, g5, g6⟩ :=
        sendSyncMessage_facts k env s n w SYNC_COOKIE_START_CMD cookies hgen
      obtain ⟨s1, h1, h2, h3, h4, h5, h6, h7⟩ := ih (syncMessages ++ [n + 1]) s0 (n + 1) g2
      have hun : (unreachableTargets env (w :: rest)).length =
          (unreachableTargets env rest).length + 1 := by
        simp [unreachableTargets, List.filter_cons, hreach]
      refine ⟨s1, ?_, ?_, ?_, ?_, ?_, ?_, ?_⟩
      · have hids : syncMessages ++ (n + 1) :: List.range' (n + 1 + 1)
            (unreachableTargets env rest).length =
            syncMessages ++ [n + 1] ++ List.range' (n + 1 + 1)
              (unreachableTargets env rest).length := by simp
        rw [hun, List.range'_succ, hids, ← h1]
        simp only [fanOut, hreach, hsend]
        rfl
      · rw [h2, g1, g3]
        simp [fanOutEffects, hreach, SYNC_MESSAGE_TIMEOUT]
      · rw [h3, hun]; congr 1; omega
      · rw [h4, g3, hun]; omega
      · rw [h5, g4]
      · rw [h6, g5]
      · rw [h7, g6]

end WindowSync

namespace WindowSync

theorem fanOutEffects_routes (env : Env) (cookies : List ParsedCookie) :
    ∀ (targets : List WinId) (n t : Nat),
      (fanOutEffects env cookies targets n t).filterMap routeOf =
        targets.map (fun w => (w, getCookieSandbox env w))
  | [], _, _ => by simp [fanOutEffects]
  | w :: rest, n, t => by
    by_cases hreach : getCookieSandbox env w = true
    · simp [fanOutEffects, hreach, routeOf, fanOutEffects_routes env cookies rest n t]
    · have hfalse : getCookieSandbox env w = false := by simpa using hreach
      simp [fanOutEffects, hfalse, routeOf, startMsg,
        fanOutEffects_routes env cookies rest (n + 1) (t + 1)]

theorem fanOutEffects_startIds (env : Env) (cookies : List ParsedCookie) :
    ∀ (targets : List WinId) (n t : Nat),
      (fanOutEffects env cookies targets n t).filterMap startId =
        List.range' (n + 1) (unreachableTargets env targets).length
  | [], _, _ => by simp [fanOutEffects, unreachableTargets]
  | w :: rest, n, t => by
    by_cases hreach : getCookieSandbox env w = true
    · have ih := fanOutEffects_startIds env cookies rest n t
      simp only [unreachableTargets] at ih
      simp [fanOutEffects, hreach, startId, unreachableTargets, List.filter_cons, ih]
    · have hfalse : getCookieSandbox env w = false := by simpa using hreach
      have ih := fanOutEffects_startIds env cookies rest (n + 1) (t + 1)
      simp only [unreachableTargets] at ih
      simp [fanOutEffects, hfalse, startId, startMsg, unreachableTargets, List.filter_cons,
        List.range'_succ, ih]

theorem fanOutEffects_mem (env : Env) (cookies : List ParsedCookie) :
    ∀ (targets : List WinId) (n t : Nat) (e : Effect),
      e ∈ fanOutEffects env cookies targets n t →
        (∃ w ∈ targets, getCookieSandbox env w = true ∧ e = .syncWindowCookie w cookies) ∨
        (∃ w ∈ targets, ∃ i, getCookieSandbox env w = false ∧
          e = startMsg i w SYNC_COOKIE_START_CMD cookies) ∨
        (∃ h i, e = .setTimeout h i SYNC_MESSAGE_TIMEOUT)
  | [], _, _, e => by simp [fanOutEffects]
  | w :: rest, n, t, e => by
    intro he
    by_cases hreach : getCookieSandbox env w = true
    · simp only [fanOutEffects, hreach, if_true, List.mem_cons] at he
      rcases he with rfl | he
      · exact Or.inl ⟨w, List.mem_cons_self _ _, hreach, rfl⟩
      · rcases fanOutEffects_mem env cookies rest n t e he with ⟨v, hv, h1, h2⟩ |
          ⟨v, hv, i, h1, h2⟩ | h
        · exact Or.inl ⟨v, List.mem_cons_of_mem _ hv, h1, h2⟩
        · exact Or.inr (Or.inl ⟨v, List.mem_cons_of_mem _ hv, i, h1, h2⟩)
        · exact Or.inr (Or.inr h)
    · have hfalse : getCookieSandbox env w = false := by simpa using hreach
      simp only [fanOutEffects, hreach, if_false, List.mem_cons, Bool.false_eq_true] at he
      rcases he with rfl | rfl | he
      · exact Or.inr (Or.inl ⟨w, List.mem_cons_self _ _, n + 1, hfalse, rfl⟩)
      · exact Or.inr (Or.inr ⟨t, n + 1, rfl⟩)
      · rcases fanOutEffects_mem env cookies rest (n + 1) (t + 1) e he with ⟨v, hv, h1, h2⟩ |
          ⟨v, hv, i, h1, h2⟩ | h
        · exact Or.inl ⟨v, List.mem_cons_of_mem _ hv, h1, h2⟩
        · exact Or.inr (Or.inl ⟨v, List.mem_cons_of_mem _ hv, i, h1, h2⟩)
        · exact Or.inr (Or.inr h)

/-- What `syncBetweenWindows` does on the top coordinator, in terms of its loop. -/
theorem syncBetweenWindows_top_eq (k : Codec) (env : Env) (cookies : List ParsedCookie)
    (initiator : Option WinId) (s : State) (n : Nat) (htop : s.win = env.top.id)
    (hgen : s.messageIdGenerator = some n) :
    ∃ s1, fanOut k env cookies (getWindowsForSync env.top.id initiator env.top []) [] s =
        .ok (List.range' (n + 1) (unreachableTargets env
          (getWindowsForSync env.top.id initiator env.top [])).length, s1) ∧
      s1.log = s.log ++ fanOutEffects env cookies
        (getWindowsForSync env.top.id initiator env.top []) n s.nextTimer ∧
      s1.joins = s.joins ∧
      syncBetweenWindows k env cookies initiator s =
        (if unreachableTargets env (getWindowsForSync env.top.id initiator env.top []) ≠ [] then
          .ok { s1 with joins := s1.joins ++ [⟨List.range' (n + 1) (unreachableTargets env
            (getWindowsForSync env.top.id initiator env.top [])).length, cookies⟩] }
        else removeSyncCookie k env cookies s1) := by
  obtain ⟨s1, h1, h2, -, -, h5, -, -⟩ :=
    fanOut_spec k env cookies (getWindowsForSync env.top.id initiator env.top []) [] s n hgen
  rw [List.nil_append] at h1
  refine ⟨s1, h1, h2, h5, ?_⟩
  unfold syncBetweenWindows
  simp only [htop, ne_eq, not_true_eq_false, if_false, h1, List.length_range']
  by_cases hun : unreachableTargets env (getWindowsForSync env.top.id initiator env.top []) = []
  · simp [hun]
  · have hlen : ¬ (unreachableTargets env
        (getWindowsForSync env.top.id initiator env.top [])).length = 0 := by
      rw [List.length_eq_zero]; exact hun
    simp [hun, hlen]

/-- C14. On the top coordinator, `syncBetweenWindows (cookies, initiator)` treats the
windows of the target list once each and in list order: a window whose cookie sandbox
is reached gets `syncWindowCookie (cookies)` and no message, a window whose cookie
sandbox is not reached gets a START message carrying the cookies, with the next id of
the generator, and a retry timer.  The promises collected are named by these ids, and
there are as many of them as targets that are not reached. -/
theorem syncBetweenWindows_routes (k : Codec) (env : Env) (cookies : List ParsedCookie)
    (initiator : Option WinId) (s : State) (n : Nat) (htop : s.win = env.top.id)
    (hgen : s.messageIdGenerator = some n) :
    ∃ (syncMessages : List Nat) (s1 : State),
      fanOut k env cookies (getWindowsForSync env.top.id initiator env.top []) [] s =
        .ok (syncMessages, s1) ∧
      s1.log = s.log ++ fanOutEffects env cookies
        (getWindowsForSync env.top.id initiator env.top []) n s.nextTimer ∧
      (fanOutEffects env cookies (getWindowsForSync env.top.id initiator env.top []) n
          s.nextTimer).filterMap routeOf =
        (getWindowsForSync env.top.id initiator env.top []).map
          (fun w => (w, getCookieSandbox env w)) ∧
      (fanOutEffects env cookies (getWindowsForSync env.top.id initiator env.top []) n
          s.nextTimer).filterMap startId = syncMessages ∧
      (∀ e ∈ fanOutEffects env cookies (getWindowsForSync env.top.id initiator env.top []) n
          s.nextTimer,
        (∃ w, getCookieSandbox env w = true ∧ e = .syncWindowCookie w cookies) ∨
        (∃ w i, getCookieSandbox env w = false ∧
          e = .sendServiceMsg ⟨some i, SYNC_COOKIE_START_CMD, some cookies⟩ w) ∨
        (∃ h i, e = .setTimeout h i SYNC_MESSAGE_TIMEOUT)) ∧
      syncMessages = List.range' (n + 1) syncMessages.length ∧
      syncMessages.length =
        (unreachableTargets env (getWindowsForSync env.top.id initiator env.top [])).length ∧
      syncBetweenWindows k env cookies initiator s =
        (if syncMessages.length ≠ 0 then
          .ok { s1 with joins := s1.joins ++ [⟨syncMessages, cookies⟩] }
        else removeSyncCookie k env cookies s1) := by
  obtain ⟨s1, h1, h2, -, -⟩ := syncBetweenWindows_top_eq k env cookies initiator s n htop hgen
  refine ⟨_, s1, h1, h2, fanOutEffects_routes env cookies _ n s.nextTimer,
    fanOutEffects_startIds env cookies _ n s.nextTimer, ?_, ?_, ?_, ?_⟩
  · intro e he
    rcases fanOutEffects_mem env cookies _ n s.nextTimer e he with ⟨w, -, hw, h⟩ |
      ⟨w, -, i, hw, h⟩ | h
    · exact Or.inl ⟨w, hw, h⟩
    · exact Or.inr (Or.inl ⟨w, i, hw, h⟩)
    · exact Or.inr (Or.inr h)
  · simp
  · simp
  · unfold syncBetweenWindows
    simp only [htop, ne_eq, not_true_eq_false, if_false, h1]

/-- Witness of `syncBetweenWindows_routes`: in the sample tree with initiator `1`, the
windows `2`, `4` and `5` are reached and window `3` is not. -/
theorem syncBetweenWindows_routes_witness :
    (fanOutEffects sampleEnv [sampleCookie]
        (getWindowsForSync sampleEnv.top.id (some 1) sampleEnv.top []) 0
        sampleTop.nextTimer).filterMap routeOf =
      [(2, true), (3, false), (4, true), (5, true)] ∧
    ∃ (syncMessages : List Nat) (s1 : State),
      fanOut sampleCodec sampleEnv [sampleCookie]
        (getWindowsForSync sampleEnv.top.id (some 1) sampleEnv.top []) [] sampleTop =
        .ok (syncMessages, s1) ∧ syncMessages.length = 1 := by
  refine ⟨by decide, ?_⟩
  obtain ⟨ids, s1, h1, -, -, -, -, -, h7, -⟩ :=
    syncBetweenWindows_routes sampleCodec sampleEnv [sampleCookie] (some 1) sampleTop 0
      (by decide) (by decide)
  exact ⟨ids, s1, h1, h7.trans (by decide)⟩

end WindowSync

namespace WindowSync

theorem cleanupWrites_mem (k : Codec) (env : Env) (cookies : List ParsedCookie) (e : Effect)
    (he : e ∈ cleanupWrites k env cookies) : ∃ v, e = .documentCookieSetter v := by
  cases cookies with
  | nil => simp [cleanupWrites] at he
  | cons c rest =>
    unfold cleanupWrites at he
    rcases List.mem_append.mp he with h | h
    · obtain ⟨d, -, hd⟩ := List.mem_map.mp h
      exact ⟨_, hd.symm⟩
    · split_ifs at h
      · exact ⟨_, List.mem_singleton.mp h⟩
      · simp at h

theorem removeSyncCookie_reached (k : Codec) (env : Env) (cookies : List ParsedCookie)
    (s : State) :
    reached (removeSyncCookie k env cookies s) =
      { cleanupChange k env cookies s with log := s.log ++ cleanupWrites k env cookies } := by
  cases cookies with
  | nil => simp [removeSyncCookie_nil, reached, cleanupWrites, cleanupChange]
  | cons c rest => rw [removeSyncCookie_cons]; rfl

/-- The log after `syncBetweenWindows` on the top coordinator, whether it returned or
threw: the effects of the loop, then the writes of the cleanup when no promise was
collected. -/
theorem syncBetweenWindows_top_log (k : Codec) (env : Env) (cookies : List ParsedCookie)
    (initiator : Option WinId) (s : State) (n : Nat) (htop : s.win = env.top.id)
    (hgen : s.messageIdGenerator = some n) :
    (reached (syncBetweenWindows k env cookies initiator s)).log =
      s.log ++ (fanOutEffects env cookies (getWindowsForSync env.top.id initiator env.top []) n
          s.nextTimer ++
        (if unreachableTargets env (getWindowsForSync env.top.id initiator env.top []) ≠ [] then []
          else cleanupWrites k env cookies)) := by
  obtain ⟨s1, -, h2, -, h4⟩ := syncBetweenWindows_top_eq k env cookies initiator s n htop hgen
  rw [h4]
  by_cases hun : unreachableTargets env (getWindowsForSync env.top.id initiator env.top []) = []
  · simp only [hun, ne_eq, not_true_eq_false, if_false]
    rw [removeSyncCookie_reached]
    simp [h2]
  · simp only [hun, ne_eq, not_false_eq_true, if_true, List.append_nil]
    simp [reached, h2]

/-- C12. The top coordinator handles a START message from window `source` by applying
the carried cookies to its own cookie sandbox and then running
`syncBetweenWindows (cookies, source)`.  None of the effects of that fan-out is
addressed to `source` (no direct apply, no message), and every message it sends is a
START, so no DONE is sent. -/
theorem onMsgReceived_start_top (k : Codec) (env : Env) (message : SyncCookieMsg)
    (source : WinId) (s : State) (n : Nat) (htop : s.win = env.top.id)
    (hgen : s.messageIdGenerator = some n) (hcmd : message.cmd = SYNC_COOKIE_START_CMD) :
    onMsgReceived k env message source s =
        syncBetweenWindows k env message.cookies (some source)
          (s.emit (.syncWindowCookie s.win message.cookies)) ∧
      ∃ fanOutLog, (reached (onMsgReceived k env message source s)).log =
          s.log ++ Effect.syncWindowCookie s.win message.cookies :: fanOutLog ∧
        (∀ e ∈ fanOutLog, addressee e ≠ some source) ∧
        (∀ m w, Effect.sendServiceMsg m w ∈ fanOutLog → m.cmd = SYNC_COOKIE_START_CMD) := by
  have hrun : onMsgReceived k env message source s =
      syncBetweenWindows k env message.cookies (some source)
        (s.emit (.syncWindowCookie s.win message.cookies)) := by
    unfold onMsgReceived
    simp [hcmd, htop]
  have hlog := syncBetweenWindows_top_log k env message.cookies (some source)
    (s.emit (.syncWindowCookie s.win message.cookies)) n htop hgen
  have htargets : ∀ w ∈ getWindowsForSync env.top.id (some source) env.top [], w ≠ source := by
    intro w hw
    have := getWindowsForSync_all env.top.id (some source) (fun w => w ≠ source)
      (fun id hid h => hid.1 (by rw [h])) env.top [] (fun w hw => absurd hw (List.not_mem_nil w))
      w hw
    exact this
  refine ⟨hrun, fanOutEffects env message.cookies
      (getWindowsForSync env.top.id (some source) env.top []) n s.nextTimer ++
      (if unreachableTargets env (getWindowsForSync env.top.id (some source) env.top []) ≠ []
        then [] else cleanupWrites k env message.cookies), ?_, ?_, ?_⟩
  · rw [hrun, hlog]
    simp only [State.emit, List.append_assoc, List.singleton_append]
  · intro e he
    rcases List.mem_append.mp he with h | h
    · rcases fanOutEffects_mem env message.cookies _ n _ e h with ⟨w, hw, -, rfl⟩ |
        ⟨w, hw, i, -, rfl⟩ | ⟨t, i, rfl⟩
      · simp only [addressee, ne_eq, Option.some.injEq]
        exact htargets w hw
      · simp only [addressee, startMsg, ne_eq, Option.some.injEq]
        exact htargets w hw
      · simp [addressee]
    · split_ifs at h
      · simp at h
      · obtain ⟨v, rfl⟩ := cleanupWrites_mem k env message.cookies e h
        simp [addressee]
  · intro m w he
    rcases List.mem_append.mp he with h | h
    · rcases fanOutEffects_mem env message.cookies _ n _ _ h with ⟨v, -, -, h2⟩ |
        ⟨v, -, i, -, h2⟩ | ⟨t, i, h2⟩
      · cases h2
      · simp only [startMsg, Effect.sendServiceMsg.injEq] at h2
        rw [h2.1]
      · cases h2
    · split_ifs at h
      · simp at h
      · obtain ⟨v, h2⟩ := cleanupWrites_mem k env message.cookies _ h
        cases h2

/-- Witness of `onMsgReceived_start_top`: the top window receives a START from frame
`1`; frames `2`, `4`, `5` get the cookies applied and frame `3` a START. -/
theorem onMsgReceived_start_top_witness :
    (reached (onMsgReceived sampleCodec sampleEnv ⟨none, SYNC_COOKIE_START_CMD, [sampleCookie]⟩
        1 sampleTop)).log.filterMap addressee = [0, 2, 3, 4, 5] ∧
      onMsgReceived sampleCodec sampleEnv ⟨none, SYNC_COOKIE_START_CMD, [sampleCookie]⟩ 1
          sampleTop =
        syncBetweenWindows sampleCodec sampleEnv [sampleCookie] (some 1)
          (sampleTop.emit (.syncWindowCookie sampleTop.win [sampleCookie])) :=
  ⟨by decide,
    (onMsgReceived_start_top sampleCodec sampleEnv ⟨none, SYNC_COOKIE_START_CMD, [sampleCookie]⟩
      1 sampleTop 0 (by decide) (by decide) rfl).1⟩

end WindowSync

namespace WindowSync

theorem fanOut_reachable (k : Codec) (env : Env) (cookies : List ParsedCookie) :
    ∀ (targets : List WinId) (syncMessages : List Nat) (s : State),
      (∀ w ∈ targets, getCookieSandbox env w = true) →
      fanOut k env cookies targets syncMessages s =
        .ok (syncMessages,
          { s with log := s.log ++ targets.map (fun w => Effect.syncWindowCookie w cookies) })
  | [], syncMessages, s, _ => by simp [fanOut]
  | w :: rest, syncMessages, s, h => by
    have hw : getCookieSandbox env w = true := h w (List.mem_cons_self _ _)
    have hrest : ∀ v ∈ rest, getCookieSandbox env v = true :=
      fun v hv => h v (List.mem_cons_of_mem _ hv)
    rw [fanOut, if_pos hw, fanOut_reachable k env cookies rest syncMessages _ hrest]
    simp [State.emit]

theorem unreachableTargets_eq_nil (env : Env) (targets : List WinId) :
    unreachableTargets env targets = [] ↔ ∀ w ∈ targets, getCookieSandbox env w = true := by
  simp [unreachableTargets, List.filter_eq_nil_iff]

/-- C16 (counterexample). With the empty batch and every target reached, the call to
`syncBetweenWindows` on the top coordinator throws: `_removeSyncCookie` reads
`cookies[0].isClientSync`. -/
theorem syncBetweenWindows_empty_batch_throws :
    raises (syncBetweenWindows sampleCodec sampleEnvReachable [] none sampleTop) = true := by
  decide

/-- C16 (amended). For every batch that is not empty, every frame tree and every
initiator, `syncBetweenWindows` on the top coordinator (whose id generator exists)
returns without throwing, and the cleanup of that batch does not throw either,
whenever it runs. -/
theorem syncBetweenWindows_nonempty_returns (k : Codec) (env : Env) (c : ParsedCookie)
    (rest : List ParsedCookie) (initiator : Option WinId) (s : State) (n : Nat)
    (htop : s.win = env.top.id) (hgen : s.messageIdGenerator = some n) :
    raises (syncBetweenWindows k env (c :: rest) initiator s) = false ∧
      ∀ (e : Env) (t : State), raises (removeSyncCookie k e (c :: rest) t) = false := by
  obtain ⟨s1, -, -, -, h4⟩ :=
    syncBetweenWindows_top_eq k env (c :: rest) initiator s n htop hgen
  constructor
  · rw [h4]
    split_ifs
    · rfl
    · rw [removeSyncCookie_cons]; rfl
  · intro e t
    rw [removeSyncCookie_cons]; rfl

/-- Witness of `syncBetweenWindows_nonempty_returns`: the sample fan-out. -/
theorem syncBetweenWindows_nonempty_returns_witness :
    raises (syncBetweenWindows sampleCodec sampleEnv [sampleCookie] none sampleTop) = false :=
  (syncBetweenWindows_nonempty_returns sampleCodec sampleEnv sampleCookie [] none sampleTop 0
    (by decide) (by decide)).1

end WindowSync

namespace WindowSync

theorem getClosure_id (cs : List SendClosure) (i : Nat) (c : SendClosure)
    (h : getClosure cs i = some c) : c.id = i := by
  induction cs with
  | nil => simp [getClosure] at h
  | cons d ds ih =>
    unfold getClosure at h
    split_ifs at h with hd
    · cases h; exact hd
    · exact ih h

theorem getClosure_putClosure_ne (c : SendClosure) (cs : List SendClosure) (j : Nat)
    (hj : j ≠ c.id) : getClosure (putClosure c cs) j = getClosure cs j := by
  induction cs with
  | nil =>
    have : ¬ c.id = j := fun h => hj h.symm
    simp [putClosure, getClosure, this]
  | cons d ds ih =>
    unfold putClosure
    split_ifs with hd
    · have h1 : ¬ c.id = j := fun h => hj h.symm
      have h2 : ¬ d.id = j := fun h => hj (by rw [← h, hd])
      simp [getClosure, h1, h2]
    · by_cases hdj : d.id = j
      · simp [getClosure, hdj]
      · simp [getClosure, hdj, ih]

theorem getClosure_putClosure_isSome (c d : SendClosure) (cs : List SendClosure) (j : Nat)
    (hd : getClosure cs c.id = some d) :
    (∃ x, getClosure (putClosure c cs) j = some x) ↔ ∃ x, getClosure cs j = some x := by
  by_cases hj : j = c.id
  · subst hj
    rw [getClosure_putClosure]
    exact ⟨fun _ => ⟨d, hd⟩, fun _ => ⟨c, rfl⟩⟩
  · rw [getClosure_putClosure_ne c cs j hj]

theorem mem_keys_mapDelete (m : List (Nat × Nat)) (k j : Nat) :
    j ∈ (mapDelete m k).map Prod.fst ↔ j ∈ m.map Prod.fst ∧ j ≠ k := by
  simp only [mapDelete, List.mem_map, List.mem_filter]
  constructor
  · rintro ⟨e, ⟨he, hne⟩, rfl⟩
    exact ⟨⟨e, he, rfl⟩, by simpa using hne⟩
  · rintro ⟨⟨e, he, rfl⟩, hne⟩
    exact ⟨e, ⟨he, by simpa using hne⟩, rfl⟩

theorem mem_keys_mapSet (m : List (Nat × Nat)) (k v j : Nat) :
    j ∈ (mapSet m k v).map Prod.fst ↔ j = k ∨ j ∈ m.map Prod.fst := by
  unfold mapSet
  rw [List.map_append, List.mem_append, mem_keys_mapDelete]
  by_cases hj : j = k
  · simp [hj]
  · simp [hj]

theorem mem_mapDelete (m : List (Nat × Nat)) (k : Nat) (e : Nat × Nat)
    (he : e ∈ mapDelete m k) : e ∈ m :=
  (List.mem_filter.mp he).1

theorem mem_dropTimer (ts : List Timer) (h : Option Nat) (t : Timer) :
    t ∈ dropTimer ts h ↔ t ∈ ts ∧ some t.handle ≠ h := by
  simp [dropTimer, List.mem_filter]

theorem getTimer_mem (ts : List Timer) (h : Nat) (t : Timer) (ht : getTimer ts h = some t) :
    t ∈ ts ∧ t.handle = h := by
  induction ts with
  | nil => simp [getTimer] at ht
  | cons u us ih =>
    unfold getTimer at ht
    split_ifs at ht with hu
    · cases ht
      exact ⟨List.mem_cons_self _ _, hu⟩
    · exact ⟨List.mem_cons_of_mem _ (ih ht).1, (ih ht).2⟩

theorem mapGet_mem (m : List (Nat × Nat)) (i v : Nat) (h : mapGet m (some i) = some v) :
    (i, v) ∈ m := by
  unfold mapGet at h
  simp only [Option.map_eq_some'] at h
  obtain ⟨e, he, hv⟩ := h
  have hmem := List.mem_of_find?_eq_some he
  have hkey : e.1 = i := by
    have := List.find?_some he
    simpa using this
  have : e = (i, v) := by
    cases e
    simp_all
  rw [← this]
  exact hmem

theorem mapGet_of_key (m : List (Nat × Nat)) (i : Nat) (h : i ∈ m.map Prod.fst) :
    ∃ v, mapGet m (some i) = some v := by
  cases hg : mapGet m (some i) with
  | some v => exact ⟨v, rfl⟩
  | none =>
    exfalso
    unfold mapGet at hg
    simp only [Option.map_eq_none'] at hg
    rw [List.find?_eq_none] at hg
    obtain ⟨e, he, hei⟩ := List.mem_map.mp h
    exact hg e he (by simp [hei])

theorem startsOf_append (j : Nat) (l1 l2 : List Effect) :
    startsOf j (l1 ++ l2) = startsOf j l1 ++ startsOf j l2 := by
  simp [startsOf, List.filter_append]

theorem startsOf_sendsAndTimeouts (j : Nat) (log : List Effect) :
    startsOf j (sendsAndTimeouts log) = startsOf j log := by
  induction log with
  | nil => rfl
  | cons e rest ih =>
    cases e <;> simp_all [startsOf, sendsAndTimeouts, List.filter_cons, startId]

end WindowSync
namespace WindowSync

theorem inv_of_fields {s t : State} (h : Inv s)
    (h1 : t.messageIdGenerator = s.messageIdGenerator) (h2 : t.resolversMap = s.resolversMap)
    (h3 : t.closures = s.closures) (h4 : t.resolved = s.resolved)
    (h5 : ∀ u ∈ t.timers, u ∈ s.timers) : Inv t := by
  constructor
  · intro i c hc
    rw [h3] at hc
    rw [h1]
    exact h.closureIds i c hc
  · intro i hi
    rw [h4] at hi
    rw [h1]
    exact h.resolvedIds i hi
  · intro i
    rw [h2, h3, h4]
    exact h.keys i
  · intro e he
    rw [h2] at he
    exact h.values e he
  · intro u hu
    rw [h3, h4]
    exact h.timers u (h5 u hu)

theorem inv_issue {s t : State} (hinv : Inv s) (c d : SendClosure) (i h delay : Nat)
    (hc : getClosure s.closures i = some c) (hid : d.id = i) (hto : d.timeoutId = some h)
    (hres : i ∉ s.resolved) (hnot : ∀ u ∈ s.timers, u.callback ≠ i)
    (h1 : t.messageIdGenerator = s.messageIdGenerator) (h2 : t.resolversMap = s.resolversMap)
    (h3 : t.closures = putClosure d s.closures) (h4 : t.resolved = s.resolved)
    (h5 : t.timers = ⟨h, i, delay⟩ :: s.timers) : Inv t := by
  have hput : getClosure (putClosure d s.closures) i = some d := by
    rw [← hid]; exact getClosure_putClosure d s.closures
  have hne : ∀ j, j ≠ i → getClosure (putClosure d s.closures) j = getClosure s.closures j :=
    fun j hj => getClosure_putClosure_ne d s.closures j (by rw [hid]; exact hj)
  constructor
  · intro j x hx
    rw [h1]
    rw [h3] at hx
    by_cases hj : j = i
    · rw [hj]; exact hinv.closureIds i c hc
    · rw [hne j hj] at hx
      exact hinv.closureIds j x hx
  · intro j hj
    rw [h4] at hj
    rw [h1]
    exact hinv.resolvedIds j hj
  · intro j
    rw [h2, h3, h4, getClosure_putClosure_isSome d c s.closures j (by rw [hid]; exact hc)]
    exact hinv.keys j
  · intro e he
    rw [h2] at he
    exact hinv.values e he
  · intro u hu
    rw [h5] at hu
    rw [h3, h4]
    rcases List.mem_cons.mp hu with rfl | hu
    · exact ⟨hres, d, hput, hto⟩
    · have hcb := hnot u hu
      rw [hne u.callback hcb]
      exact hinv.timers u hu

theorem inv_bump {s t : State} (hinv : Inv s) (c d : SendClosure) (i : Nat)
    (hc : getClosure s.closures i = some c) (hid : d.id = i)
    (hto : d.timeoutId = c.timeoutId)
    (h1 : t.messageIdGenerator = s.messageIdGenerator) (h2 : t.resolversMap = s.resolversMap)
    (h3 : t.closures = putClosure d s.closures) (h4 : t.resolved = s.resolved)
    (h5 : t.timers = s.timers) : Inv t := by
  have hput : getClosure (putClosure d s.closures) i = some d := by
    rw [← hid]; exact getClosure_putClosure d s.closures
  have hne : ∀ j, j ≠ i → getClosure (putClosure d s.closures) j = getClosure s.closures j :=
    fun j hj => getClosure_putClosure_ne d s.closures j (by rw [hid]; exact hj)
  constructor
  · intro j x hx
    rw [h1]
    rw [h3] at hx
    by_cases hj : j = i
    · rw [hj]; exact hinv.closureIds i c hc
    · rw [hne j hj] at hx
      exact hinv.closureIds j x hx
  · intro j hj
    rw [h4] at hj
    rw [h1]
    exact hinv.resolvedIds j hj
  · intro j
    rw [h2, h3, h4, getClosure_putClosure_isSome d c s.closures j (by rw [hid]; exact hc)]
    exact hinv.keys j
  · intro e he
    rw [h2] at he
    exact hinv.values e he
  · intro u hu
    rw [h5] at hu
    rw [h3, h4]
    obtain ⟨hr, x, hx, hxt⟩ := hinv.timers u hu
    refine ⟨hr, ?_⟩
    by_cases hcb : u.callback = i
    · rw [hcb, hput]
      rw [hcb, hc] at hx
      cases hx
      exact ⟨d, rfl, hto.trans hxt⟩
    · rw [hne u.callback hcb]
      exact ⟨x, hx, hxt⟩

theorem inv_resolve {s t : State} (hinv : Inv s) (c : SendClosure) (i : Nat)
    (hc : getClosure s.closures i = some c)
    (h1 : t.messageIdGenerator = s.messageIdGenerator)
    (h2 : t.resolversMap = mapDelete s.resolversMap i)
    (h3 : t.closures = s.closures) (h4 : t.resolved = i :: s.resolved)
    (h5 : t.timers = dropTimer s.timers c.timeoutId) : Inv t := by
  constructor
  · intro j x hx
    rw [h3] at hx
    rw [h1]
    exact hinv.closureIds j x hx
  · intro j hj
    rw [h4] at hj
    rw [h1]
    rcases List.mem_cons.mp hj with rfl | hj
    · exact hinv.closureIds j c hc
    · exact hinv.resolvedIds j hj
  · intro j
    rw [h2, h3, h4, mem_keys_mapDelete, hinv.keys j, List.mem_cons]
    constructor
    · rintro ⟨⟨hx, hr⟩, hne⟩
      exact ⟨hx, fun h => h.elim hne hr⟩
    · rintro ⟨hx, hr⟩
      exact ⟨⟨hx, fun h => hr (Or.inr h)⟩, fun h => hr (Or.inl h)⟩
  · intro e he
    rw [h2] at he
    exact hinv.values e (mem_mapDelete _ _ e he)
  · intro u hu
    rw [h5, mem_dropTimer] at hu
    rw [h3, h4]
    obtain ⟨hr, x, hx, hxt⟩ := hinv.timers u hu.1
    refine ⟨?_, x, hx, hxt⟩
    intro hmem
    rcases List.mem_cons.mp hmem with hcb | hmem
    · rw [hcb, hc] at hx
      cases hx
      exact hu.2 hxt.symm
    · exact hr hmem

theorem inv_resolved_again {s t : State} (hinv : Inv s) (i : Nat) (o : Option Nat)
    (hres : i ∈ s.resolved)
    (h1 : t.messageIdGenerator = s.messageIdGenerator)
    (h2 : t.resolversMap = mapDelete s.resolversMap i)
    (h3 : t.closures = s.closures) (h4 : t.resolved = s.resolved)
    (h5 : t.timers = dropTimer s.timers o) : Inv t := by
  constructor
  · intro j x hx
    rw [h3] at hx
    rw [h1]
    exact hinv.closureIds j x hx
  · intro j hj
    rw [h4] at hj
    rw [h1]
    exact hinv.resolvedIds j hj
  · intro j
    rw [h2, h3, h4, mem_keys_mapDelete, hinv.keys j]
    constructor
    · rintro ⟨h, -⟩
      exact h
    · rintro ⟨hx, hr⟩
      exact ⟨⟨hx, hr⟩, fun h => hr (h ▸ hres)⟩
  · intro e he
    rw [h2] at he
    exact hinv.values e (mem_mapDelete _ _ e he)
  · intro u hu
    rw [h5, mem_dropTimer] at hu
    rw [h3, h4]
    exact hinv.timers u hu.1

theorem inv_new_send {s t : State} (hinv : Inv s) (n : Nat) (d : SendClosure)
    (hgen : s.messageIdGenerator = some n) (hid : d.id = n + 1)
    (h1 : t.messageIdGenerator = some (n + 1))
    (h2 : t.resolversMap = mapSet s.resolversMap (n + 1) (n + 1))
    (h3 : t.closures = putClosure d s.closures) (h4 : t.resolved = s.resolved)
    (h5 : t.timers = s.timers) :
    Inv t ∧ n + 1 ∉ t.resolved ∧ ∀ u ∈ t.timers, u.callback ≠ n + 1 := by
  have hput : getClosure (putClosure d s.closures) (n + 1) = some d := by
    rw [← hid]; exact getClosure_putClosure d s.closures
  have hne : ∀ j, j ≠ n + 1 →
      getClosure (putClosure d s.closures) j = getClosure s.closures j :=
    fun j hj => getClosure_putClosure_ne d s.closures j (by rw [hid]; exact hj)
  have hbound : ∀ j x, getClosure s.closures j = some x → j ≤ n := by
    intro j x hx
    obtain ⟨m, hm, hle⟩ := hinv.closureIds j x hx
    rw [hgen] at hm
    cases hm
    exact hle
  have hrbound : ∀ j ∈ s.resolved, j ≤ n := by
    intro j hj
    obtain ⟨m, hm, hle⟩ := hinv.resolvedIds j hj
    rw [hgen] at hm
    cases hm
    exact hle
  have hfresh : n + 1 ∉ s.resolved := fun h => by
    have := hrbound _ h
    omega
  have hcb : ∀ u ∈ s.timers, u.callback ≠ n + 1 := by
    intro u hu hcb
    obtain ⟨-, x, hx, -⟩ := hinv.timers u hu
    have := hbound _ x hx
    omega
  refine ⟨?_, by rw [h4]; exact hfresh, by rw [h5]; exact hcb⟩
  constructor
  · intro j x hx
    rw [h3] at hx
    refine ⟨n + 1, h1, ?_⟩
    by_cases hj : j = n + 1
    · omega
    · rw [hne j hj] at hx
      have := hbound j x hx
      omega
  · intro j hj
    rw [h4] at hj
    refine ⟨n + 1, h1, ?_⟩
    have := hrbound j hj
    omega
  · intro j
    rw [h2, h3, h4, mem_keys_mapSet]
    by_cases hj : j = n + 1
    · rw [hj, hput]
      exact ⟨fun _ => ⟨⟨d, rfl⟩, hfresh⟩, fun _ => Or.inl rfl⟩
    · rw [hne j hj, hinv.keys j]
      exact ⟨fun h => h.elim (fun h => absurd h hj) id, fun h => Or.inr h⟩
  · intro e he
    rw [h2] at he
    unfold mapSet at he
    rcases List.mem_append.mp he with he | he
    · exact hinv.values e (mem_mapDelete _ _ e he)
    · rw [List.mem_singleton.mp he]
  · intro u hu
    rw [h5] at hu
    rw [h3, h4]
    rw [hne u.callback (hcb u hu)]
    exact hinv.timers u hu

end WindowSync
namespace WindowSync

theorem keeps_refl {s : State} (h : Inv s) : Keeps s s :=
  ⟨h, fun _ hj => ⟨hj, rfl⟩⟩

theorem keeps_trans {s t u : State} (h1 : Keeps s t) (h2 : Keeps t u) : Keeps s u :=
  ⟨h2.1, fun j hj =>
    ⟨(h2.2 j (h1.2 j hj).1).1, ((h2.2 j (h1.2 j hj).1).2).trans (h1.2 j hj).2⟩⟩

theorem keeps_mk {s t : State} (hinv : Inv t) (hres : ∀ j ∈ s.resolved, j ∈ t.resolved)
    (new : List Effect) (hlog : t.log = s.log ++ new)
    (hnew : ∀ e ∈ new, ∀ j ∈ s.resolved, startId e ≠ some j) : Keeps s t := by
  refine ⟨hinv, fun j hj => ⟨hres j hj, ?_⟩⟩
  rw [hlog, startsOf_append]
  have : startsOf j new = [] := by
    unfold startsOf
    rw [List.filter_eq_nil_iff]
    intro e he
    simpa using hnew e he j hj
  rw [this, List.append_nil]

theorem keeps_emit {s : State} (h : Inv s) (e : Effect) (he : startId e = none) :
    Keeps s (s.emit e) :=
  keeps_mk (inv_of_fields h rfl rfl rfl rfl (fun _ hu => hu)) (fun _ hj => hj) [e] rfl
    (fun x hx j _ => by rw [List.mem_singleton.mp hx, he]; simp)

theorem resolveWrapper_keeps (i : Nat) (s : State) (hinv : Inv s) :
    Keeps s (resolveWrapper i s) := by
  unfold resolveWrapper
  cases hc : getClosure s.closures i with
  | none => exact keeps_refl hinv
  | some c =>
    have hid := getClosure_id s.closures i c hc
    simp only
    by_cases hres : i ∈ s.resolved
    · rw [if_pos hres]
      exact keeps_mk
        (inv_resolved_again hinv i c.timeoutId hres rfl (by rw [hid]) rfl rfl rfl)
        (fun _ hj => hj) [.clearTimeout c.timeoutId] rfl
        (fun x hx j _ => by rw [List.mem_singleton.mp hx]; simp [startId])
    · rw [if_neg hres]
      exact keeps_mk (inv_resolve hinv c i hc rfl (by rw [hid]) rfl rfl rfl)
        (fun _ hj => List.mem_cons_of_mem _ hj) [.clearTimeout c.timeoutId] rfl
        (fun x hx j _ => by rw [List.mem_singleton.mp hx]; simp [startId])

theorem sendMsg_keeps (k : Codec) (env : Env) (i : Nat) (s : State) (hinv : Inv s)
    (hres : i ∉ s.resolved) (hnot : ∀ u ∈ s.timers, u.callback ≠ i) :
    Keeps s (sendMsg k env i s) := by
  unfold sendMsg
  cases hc : getClosure s.closures i with
  | none => exact keeps_refl hinv
  | some c =>
    have hid := getClosure_id s.closures i c hc
    simp only
    by_cases hbranch : c.attempts < SYNC_MESSAGE_ATTEMPT_COUNT ∨ env.hasParent c.win = false
    · rw [if_pos hbranch]
      refine keeps_mk
        (inv_issue hinv c { c with attempts := c.attempts + 1, timeoutId := some s.nextTimer }
          i s.nextTimer (SYNC_MESSAGE_TIMEOUT * (c.attempts + 1)) hc hid rfl hres hnot
          rfl rfl rfl rfl rfl)
        (fun _ hj => hj) _ rfl ?_
      intro x hx j hj
      rcases List.mem_cons.mp hx with rfl | hx
      · simp only [startId, hid]
        split_ifs
        · intro h
          exact hres ((Option.some.inj h) ▸ hj)
        · simp
      · rw [List.mem_singleton.mp hx]
        simp [startId]
    · rw [if_neg hbranch]
      have hbump : Keeps s
          { s with closures := putClosure { c with attempts := c.attempts + 1 } s.closures } :=
        keeps_mk (inv_bump hinv c { c with attempts := c.attempts + 1 } i hc hid rfl
          rfl rfl rfl rfl rfl) (fun _ hj => hj) [] (by simp) (by simp)
      exact keeps_trans hbump (resolveWrapper_keeps i _ hbump.1)

theorem fireTimeout_keeps (k : Codec) (env : Env) (h : Nat) (s : State) (hinv : Inv s) :
    Keeps s (fireTimeout k env h s) := by
  unfold fireTimeout
  cases ht : getTimer s.timers h with
  | none => exact keeps_refl hinv
  | some t =>
    obtain ⟨htmem, hth⟩ := getTimer_mem s.timers h t ht
    obtain ⟨hres, c, hc, hct⟩ := hinv.timers t htmem
    simp only
    have hdrop : Keeps s { s with timers := dropTimer s.timers (some h) } :=
      keeps_mk (inv_of_fields hinv rfl rfl rfl rfl
        (fun u hu => ((mem_dropTimer s.timers (some h) u).mp hu).1))
        (fun _ hj => hj) [] (by simp) (by simp)
    refine keeps_trans hdrop (sendMsg_keeps k env t.callback _ hdrop.1 hres ?_)
    intro u hu hcb
    obtain ⟨humem, hune⟩ := (mem_dropTimer s.timers (some h) u).mp hu
    obtain ⟨-, d, hd, hdt⟩ := hinv.timers u humem
    rw [hcb, hc] at hd
    cases hd
    rw [hct, hth] at hdt
    exact hune hdt.symm

theorem sendSyncMessage_keeps (k : Codec) (env : Env) (w : WinId) (cmd : String)
    (cookies : List ParsedCookie) (s : State) (hinv : Inv s) :
    (∀ id t, sendSyncMessage k env w cmd cookies s = .ok (id, t) → Keeps s t) ∧
      ∀ e t, sendSyncMessage k env w cmd cookies s = .error (e, t) → t = s := by
  unfold sendSyncMessage
  cases hgen : s.messageIdGenerator with
  | none =>
    constructor
    · intro id t h
      cases h
    · intro e t h
      simp only [Except.error.injEq, Prod.mk.injEq] at h
      exact h.2.symm
  | some n =>
    constructor
    · intro id t h
      simp only [Except.ok.injEq, Prod.mk.injEq, increment] at h
      obtain ⟨-, rfl⟩ := h
      obtain ⟨hinv2, hfresh, hcb⟩ := inv_new_send (t :=
        { s with
          messageIdGenerator := some (n + 1),
          closures := putClosure ⟨n + 1, w, cmd, cookies, 0, none⟩ s.closures,
          resolversMap := mapSet s.resolversMap (n + 1) (n + 1) })
        hinv n ⟨n + 1, w, cmd, cookies, 0, none⟩ hgen rfl rfl rfl rfl rfl rfl
      have hnew : Keeps s
          { s with
            messageIdGenerator := some (n + 1),
            closures := putClosure ⟨n + 1, w, cmd, cookies, 0, none⟩ s.closures,
            resolversMap := mapSet s.resolversMap (n + 1) (n + 1) } :=
        keeps_mk hinv2 (fun _ hj => hj) [] (by simp) (by simp)
      exact keeps_trans hnew (sendMsg_keeps k env (n + 1) _ hinv2 hfresh hcb)
    · intro e t h
      cases h

theorem fanOut_keeps (k : Codec) (env : Env) (cookies : List ParsedCookie) :
    ∀ (targets : List WinId) (syncMessages : List Nat) (s : State), Inv s →
      (∀ ids t, fanOut k env cookies targets syncMessages s = .ok (ids, t) → Keeps s t) ∧
        ∀ e t, fanOut k env cookies targets syncMessages s = .error (e, t) → Keeps s t
  | [], syncMessages, s, hinv => by
    constructor
    · intro ids t h
      simp only [fanOut, Except.ok.injEq, Prod.mk.injEq] at h
      rw [← h.2]
      exact keeps_refl hinv
    · intro e t h
      simp [fanOut] at h
  | w :: rest, syncMessages, s, hinv => by
    by_cases hreach : getCookieSandbox env w = true
    · have hemit : Keeps s (s.emit (.syncWindowCookie w cookies)) := keeps_emit hinv _ rfl
      obtain ⟨ih1, ih2⟩ := fanOut_keeps k env cookies rest syncMessages _ hemit.1
      constructor
      · intro ids t h
        rw [fanOut, if_pos hreach] at h
        exact keeps_trans hemit (ih1 ids t h)
      · intro e t h
        rw [fanOut, if_pos hreach] at h
        exact keeps_trans hemit (ih2 e t h)
    · obtain ⟨hs1, hs2⟩ := sendSyncMessage_keeps k env w SYNC_COOKIE_START_CMD cookies s hinv
      cases hsend : sendSyncMessage k env w SYNC_COOKIE_START_CMD cookies s with
      | error x =>
        obtain ⟨x1, x2⟩ := x
        have hx := hs2 x1 x2 hsend
        constructor
        · intro ids t h
          rw [fanOut, if_neg hreach, hsend] at h
          cases h
        · intro e t h
          rw [fanOut, if_neg hreach, hsend] at h
          simp only [Except.error.injEq, Prod.mk.injEq] at h
          rw [← h.2, hx]
          exact keeps_refl hinv
      | ok x =>
        obtain ⟨id, s1⟩ := x
        have hk := hs1 id s1 hsend
        obtain ⟨ih1, ih2⟩ := fanOut_keeps k env cookies rest (syncMessages ++ [id]) s1 hk.1
        constructor
        · intro ids t h
          rw [fanOut, if_neg hreach, hsend] at h
          exact keeps_trans hk (ih1 ids t h)
        · intro e t h
          rw [fanOut, if_neg hreach, hsend] at h
          exact keeps_trans hk (ih2 e t h)

end WindowSync
namespace WindowSync

theorem getClosure_map (f : SendClosure → SendClosure) (hid : ∀ c, (f c).id = c.id)
    (cs : List SendClosure) (i : Nat) :
    getClosure (cs.map f) i = (getClosure cs i).map f := by
  induction cs with
  | nil => rfl
  | cons d ds ih =>
    by_cases hd : d.id = i
    · simp [getClosure, hid, hd]
    · simp [getClosure, hid, hd, ih]

/-- The bookkeeping does not read the cookies held by the sends. -/
theorem inv_of_closures_map {s t : State} (h : Inv s) (f : SendClosure → SendClosure)
    (hid : ∀ c, (f c).id = c.id) (hto : ∀ c, (f c).timeoutId = c.timeoutId)
    (h1 : t.messageIdGenerator = s.messageIdGenerator) (h2 : t.resolversMap = s.resolversMap)
    (h3 : t.closures = s.closures.map f) (h4 : t.resolved = s.resolved)
    (h5 : t.timers = s.timers) : Inv t := by
  have hsome : ∀ i, (∃ c, getClosure t.closures i = some c) ↔
      ∃ c, getClosure s.closures i = some c := by
    intro i
    rw [h3, getClosure_map f hid]
    cases getClosure s.closures i <;> simp
  constructor
  · intro i c hc
    rw [h1]
    obtain ⟨d, hd⟩ := (hsome i).mp ⟨c, hc⟩
    exact h.closureIds i d hd
  · intro i hi
    rw [h4] at hi
    rw [h1]
    exact h.resolvedIds i hi
  · intro i
    rw [h2, h4, hsome i]
    exact h.keys i
  · intro e he
    rw [h2] at he
    exact h.values e he
  · intro u hu
    rw [h5] at hu
    rw [h4]
    obtain ⟨hr, c, hc, hct⟩ := h.timers u hu
    refine ⟨hr, f c, ?_, ?_⟩
    · rw [h3, getClosure_map f hid, hc]
      rfl
    · rw [hto, hct]

/-- What the in-place change of a cleanup leaves as it was. -/
theorem cleanupChange_fields (k : Codec) (env : Env) (cookies : List ParsedCookie)
    (s : State) :
    ∃ f : ParsedCookie → ParsedCookie,
      (∀ d, f d = d ∨ f d = k.changeSyncType d ⟨none, none, some false⟩) ∧
      cleanupChange k env cookies s =
        { s with
          closures := (s.closures.map
            (fun (c : SendClosure) => { c with cookies := c.cookies.map f })),
          joins := (s.joins.map (fun (j : Join) => { j with cookies := j.cookies.map f })) } := by
  have hid : cleanupChange k env cookies s = s → ∃ f : ParsedCookie → ParsedCookie,
      (∀ d, f d = d ∨ f d = k.changeSyncType d ⟨none, none, some false⟩) ∧
      cleanupChange k env cookies s =
        { s with
          closures := (s.closures.map
            (fun (c : SendClosure) => { c with cookies := c.cookies.map f })),
          joins := (s.joins.map (fun (j : Join) => { j with cookies := j.cookies.map f })) } := by
    intro h
    refine ⟨id, fun d => Or.inl rfl, ?_⟩
    rw [h]
    simp
  cases cookies with
  | nil => exact hid rfl
  | cons c rest =>
    by_cases hcond : c.isClientSync = true ∧ env.documentCookie ≠ "" ∧
        k.isSyncCookieExists c env.documentCookie = true
    · refine ⟨fun d => if d.ref = c.ref then k.changeSyncType d ⟨none, none, some false⟩ else d,
        ?_, ?_⟩
      · intro d
        by_cases hd : d.ref = c.ref
        · exact Or.inr (if_pos hd)
        · exact Or.inl (if_neg hd)
      · simp only [cleanupChange, if_pos hcond]
        rfl
    · exact hid (by simp only [cleanupChange, if_neg hcond])

theorem removeSyncCookie_keeps (k : Codec) (env : Env) (cookies : List ParsedCookie)
    (s : State) (hinv : Inv s) : Keeps s (reached (removeSyncCookie k env cookies s)) := by
  rw [removeSyncCookie_reached]
  obtain ⟨f, -, hf⟩ := cleanupChange_fields k env cookies s
  rw [hf]
  refine keeps_mk (inv_of_closures_map hinv
      (fun (c : SendClosure) => { c with cookies := c.cookies.map f })
      (fun _ => rfl) (fun _ => rfl) rfl rfl rfl rfl rfl) (fun _ hj => hj)
    (cleanupWrites k env cookies) rfl ?_
  intro e he j _
  obtain ⟨v, rfl⟩ := cleanupWrites_mem k env cookies e he
  simp [startId]

theorem syncBetweenWindows_keeps (k : Codec) (env : Env) (cookies : List ParsedCookie)
    (initiator : Option WinId) (s : State) (hinv : Inv s) :
    Keeps s (reached (syncBetweenWindows k env cookies initiator s)) := by
  unfold syncBetweenWindows
  by_cases hframe : s.win ≠ env.top.id
  · rw [if_pos hframe]
    unfold delegateSyncBetweenWindowsToTop
    by_cases hreach : getCookieSandbox env env.top.id = true
    · rw [if_pos hreach]
      have h1 : Keeps s (s.emit (.syncWindowCookie env.top.id cookies)) :=
        keeps_emit hinv _ rfl
      exact keeps_trans h1 (keeps_emit h1.1 _ rfl)
    · rw [if_neg hreach]
      exact keeps_emit hinv _ (by simp [startId])
  · rw [if_neg hframe]
    simp only
    obtain ⟨h1, h2⟩ :=
      fanOut_keeps k env cookies (getWindowsForSync env.top.id initiator env.top []) [] s hinv
    cases hf : fanOut k env cookies (getWindowsForSync env.top.id initiator env.top []) [] s with
    | error x =>
      obtain ⟨x1, x2⟩ := x
      exact h2 x1 x2 hf
    | ok x =>
      obtain ⟨ids, s1⟩ := x
      have hk := h1 ids s1 hf
      simp only
      by_cases hlen : ids.length ≠ 0
      · rw [if_pos hlen]
        exact keeps_trans hk (keeps_mk (inv_of_fields hk.1 rfl rfl rfl rfl (fun _ hu => hu))
          (fun _ hj => hj) [] (by simp [reached]) (by simp))
      · rw [if_neg hlen]
        exact keeps_trans hk (removeSyncCookie_keeps k env cookies s1 hk.1)

theorem onMsgReceived_done_of_none (k : Codec) (env : Env) (message : SyncCookieMsg)
    (source : WinId) (s : State) (hcmd : message.cmd = SYNC_COOKIE_DONE_CMD)
    (hget : mapGet s.resolversMap message.id = none) :
    onMsgReceived k env message source s = .ok s := by
  have hne : ¬ SYNC_COOKIE_DONE_CMD = SYNC_COOKIE_START_CMD := by decide
  unfold onMsgReceived
  rw [hcmd, if_neg hne, if_pos rfl, hget]

theorem onMsgReceived_keeps (k : Codec) (env : Env) (message : SyncCookieMsg)
    (source : WinId) (s : State) (hinv : Inv s) :
    Keeps s (reached (onMsgReceived k env message source s)) := by
  unfold onMsgReceived
  by_cases hstart : message.cmd = SYNC_COOKIE_START_CMD
  · rw [if_pos hstart]
    have h1 : Keeps s (s.emit (.syncWindowCookie s.win message.cookies)) :=
      keeps_emit hinv _ rfl
    by_cases hframe : s.win ≠ env.top.id
    · simp only [if_pos hframe]
      have hne : ¬ SYNC_COOKIE_DONE_CMD = SYNC_COOKIE_START_CMD := by decide
      exact keeps_trans h1 (keeps_emit h1.1 _ (by simp [startId, hne]))
    · simp only [if_neg hframe]
      exact keeps_trans h1 (syncBetweenWindows_keeps k env message.cookies (some source) _ h1.1)
  · rw [if_neg hstart]
    by_cases hdone : message.cmd = SYNC_COOKIE_DONE_CMD
    · rw [if_pos hdone]
      cases hget : mapGet s.resolversMap message.id with
      | none => exact keeps_refl hinv
      | some resolver => exact resolveWrapper_keeps resolver s hinv
    · rw [if_neg hdone]
      exact keeps_refl hinv

theorem attach_keeps (env : Env) (win : WinId) (s : State) (hinv : Inv s) :
    Keeps s (attach env win s) := by
  have hgen : ∀ n, s.messageIdGenerator = some n →
      (attach env win s).messageIdGenerator = some n := by
    intro n hn
    unfold attach
    simp only
    split_ifs
    · simp [hn]
    · exact hn
  have hfields : (attach env win s).resolversMap = s.resolversMap ∧
      (attach env win s).closures = s.closures ∧ (attach env win s).resolved = s.resolved ∧
      (attach env win s).timers = s.timers ∧ (attach env win s).log = s.log ++ [.on] := by
    unfold attach
    simp only
    split_ifs <;> exact ⟨rfl, rfl, rfl, rfl, rfl⟩
  obtain ⟨f1, f2, f3, f4, f5⟩ := hfields
  refine keeps_mk ?_ (fun j hj => f3 ▸ hj) [.on] f5
    (fun x hx j _ => by rw [List.mem_singleton.mp hx]; simp [startId])
  constructor
  · intro i c hc
    rw [f2] at hc
    obtain ⟨n, hn, hle⟩ := hinv.closureIds i c hc
    exact ⟨n, hgen n hn, hle⟩
  · intro i hi
    rw [f3] at hi
    obtain ⟨n, hn, hle⟩ := hinv.resolvedIds i hi
    exact ⟨n, hgen n hn, hle⟩
  · intro i
    rw [f1, f2, f3]
    exact hinv.keys i
  · intro e he
    rw [f1] at he
    exact hinv.values e he
  · intro u hu
    rw [f4] at hu
    rw [f2, f3]
    exact hinv.timers u hu

theorem inv_attached (env : Env) (win : WinId) : Inv (attached env win) := by
  have h0 : Inv ⟨win, none, [], [], [], [], [], 1, []⟩ := by
    constructor
    · intro i c hc
      simp [getClosure] at hc
    · intro i hi
      simp at hi
    · intro i
      simp [getClosure]
    · intro e he
      simp at he
    · intro u hu
      simp at hu
  exact (attach_keeps env win _ h0).1

theorem thenCallback_keeps (k : Codec) (env : Env) (j : Join) (s : State) (hinv : Inv s) :
    Keeps s (thenCallback k env j s) := by
  unfold thenCallback
  have h1 : Keeps s (s.emit (.thenCallback j.promises j.cookies)) := keeps_emit hinv _ rfl
  have h2 := removeSyncCookie_keeps k env j.cookies _ h1.1
  cases hr : removeSyncCookie k env j.cookies (s.emit (.thenCallback j.promises j.cookies)) with
  | ok s1 =>
    rw [hr] at h2
    exact keeps_trans h1 h2
  | error x =>
    obtain ⟨x1, x2⟩ := x
    rw [hr] at h2
    exact keeps_trans (keeps_trans h1 h2) (keeps_emit h2.1 _ rfl)

theorem settleLoop_keeps (k : Codec) (env : Env) :
    ∀ (fuel : Nat) (s : State), Inv s → Keeps s (settleLoop k env fuel s)
  | 0, s, hinv => keeps_refl hinv
  | fuel + 1, s, hinv => by
    unfold settleLoop
    cases hn : nextReady s.resolved s.joins with
    | none => exact keeps_refl hinv
    | some j =>
      have h1 : Keeps s { s with joins := s.joins.erase j } :=
        keeps_mk (inv_of_fields hinv rfl rfl rfl rfl (fun _ hu => hu)) (fun _ hj => hj) []
          (by simp) (by simp)
      have h2 := thenCallback_keeps k env j _ h1.1
      exact keeps_trans h1 (keeps_trans h2 (settleLoop_keeps k env fuel _ h2.1))

theorem step_keeps (k : Codec) (env : Env) (e : Event) (s : State) (hinv : Inv s) :
    Keeps s (step k env e s) := by
  cases e with
  | reactions => exact settleLoop_keeps k env _ s hinv
  | serviceMsgReceived message source => exact onMsgReceived_keeps k env message source s hinv
  | timeout handle => exact fireTimeout_keeps k env handle s hinv
  | syncBetweenWindows cookies initiator =>
    exact syncBetweenWindows_keeps k env cookies initiator s hinv
  | attach win => exact attach_keeps env win s hinv

theorem run_keeps (k : Codec) :
    ∀ (tasks : List (Env × Event)) (s : State), Inv s → Keeps s (run k tasks s)
  | [], s, hinv => keeps_refl hinv
  | (env, e) :: rest, s, hinv => by
    have h1 := step_keeps k env e s hinv
    exact keeps_trans h1 (run_keeps k rest _ h1.1)

theorem inv_of_reachable (k : Codec) (s : State) (h : Reachable k s) : Inv s := by
  induction h with
  | attached env win => exact inv_attached env win
  | step env e s _ ih => exact (step_keeps k env e s ih).1

theorem mapGet_mapSet (m : List (Nat × Nat)) (i v : Nat) :
    mapGet (mapSet m i v) (some i) = some v := by
  unfold mapGet mapSet mapDelete
  have hnone : List.find? (fun e => e.1 == i) (List.filter (fun e => e.1 != i) m) = none := by
    rw [List.find?_eq_none]
    intro e he
    have := (List.mem_filter.mp he).2
    simpa using this
  simp [List.find?_append, hnone]

end WindowSync
namespace WindowSync

/-- A DONE whose id is a key of the resolvers map, in a state that keeps the
bookkeeping: the resolver of that send runs. -/
theorem onMsgReceived_done_of_key (k : Codec) (env : Env) (message : SyncCookieMsg)
    (source : WinId) (s : State) (i : Nat) (hinv : Inv s)
    (hcmd : message.cmd = SYNC_COOKIE_DONE_CMD) (hid : message.id = some i)
    (hkey : i ∈ s.resolversMap.map Prod.fst) :
    ∃ c, getClosure s.closures i = some c ∧ i ∉ s.resolved ∧
      onMsgReceived k env message source s = .ok (resolveWrapper i s) ∧
      resolveWrapper i s =
        { s with
          timers := dropTimer s.timers c.timeoutId,
          log := s.log ++ [.clearTimeout c.timeoutId],
          resolversMap := mapDelete s.resolversMap i,
          resolved := i :: s.resolved } := by
  obtain ⟨⟨c, hc⟩, hres⟩ := (hinv.keys i).mp hkey
  have hcid := getClosure_id s.closures i c hc
  obtain ⟨v, hv⟩ := mapGet_of_key s.resolversMap i hkey
  have hvi : v = i := hinv.values (i, v) (mapGet_mem s.resolversMap i v hv)
  rw [hvi] at hv
  have hne : ¬ SYNC_COOKIE_DONE_CMD = SYNC_COOKIE_START_CMD := by decide
  refine ⟨c, hc, hres, ?_, ?_⟩
  · unfold onMsgReceived
    rw [hcmd, if_neg hne, if_pos rfl, hid, hv]
  · unfold resolveWrapper
    simp [hc, hres, hcid]

/-- C18. Life of an entry of the resolvers map.  `_sendSyncMessage` puts the entry of
its id into the map before `sendMsg` runs for the first time.  In every reachable
state the keys of the map are the sends that are not resolved.  A DONE whose id is
a key resolves the promise, removes the entry and disarms the retry timer of that
send without sending or arming anything, and the same DONE handled again changes
nothing.  The last retry removes the entry in the same way.  Once a promise is
resolved, no sequence of tasks brings its entry back or issues a START with its id. -/
theorem resolversMap_lifecycle (k : Codec) :
    (∀ (env : Env) (s : State) (n : Nat) (w : WinId) (cmd : String)
        (cookies : List ParsedCookie), s.messageIdGenerator = some n →
      ∃ s2, sendSyncMessage k env w cmd cookies s = .ok (n + 1, sendMsg k env (n + 1) s2) ∧
        s2.log = s.log ∧ mapGet s2.resolversMap (some (n + 1)) = some (n + 1)) ∧
    (∀ s, Reachable k s → ∀ i, i ∈ s.resolversMap.map Prod.fst ↔
      (∃ c, getClosure s.closures i = some c) ∧ i ∉ s.resolved) ∧
    (∀ s, Reachable k s → ∀ (env : Env) (message : SyncCookieMsg) (source : WinId) (i : Nat),
      message.cmd = SYNC_COOKIE_DONE_CMD → message.id = some i →
      i ∈ s.resolversMap.map Prod.fst →
      ∃ t, onMsgReceived k env message source s = .ok t ∧
        t.resolved = i :: s.resolved ∧ i ∉ s.resolved ∧
        i ∉ t.resolversMap.map Prod.fst ∧
        (∀ u ∈ t.timers, u.callback ≠ i) ∧
        sendsAndTimeouts t.log = sendsAndTimeouts s.log ∧
        ∀ (env2 : Env) (source2 : WinId), onMsgReceived k env2 message source2 t = .ok t) ∧
    (∀ (env : Env) (s : State) (i : Nat) (w : WinId) (cmd : String)
        (cookies : List ParsedCookie) (a h : Nat), Awaiting s i w cmd cookies a h →
      ¬ a < SYNC_MESSAGE_ATTEMPT_COUNT → env.hasParent w = true → i ∉ s.resolved →
      i ∈ (fireTimeout k env h s).resolved ∧
        i ∉ (fireTimeout k env h s).resolversMap.map Prod.fst) ∧
    (∀ s, Reachable k s → ∀ i ∈ s.resolved, ∀ tasks : List (Env × Event),
      i ∈ (run k tasks s).resolved ∧ i ∉ (run k tasks s).resolversMap.map Prod.fst ∧
        startsOf i (run k tasks s).log = startsOf i s.log) := by
  refine ⟨?_, ?_, ?_, ?_, ?_⟩
  · intro env s n w cmd cookies hgen
    refine ⟨{ s with
        messageIdGenerator := some (n + 1),
        closures := putClosure ⟨n + 1, w, cmd, cookies, 0, none⟩ s.closures,
        resolversMap := mapSet s.resolversMap (n + 1) (n + 1) }, ?_, rfl,
      mapGet_mapSet s.resolversMap (n + 1) (n + 1)⟩
    unfold sendSyncMessage
    rw [hgen]
    rfl
  · intro s hs i
    exact (inv_of_reachable k s hs).keys i
  · intro s hs env message source i hcmd hid hkey
    have hinv := inv_of_reachable k s hs
    obtain ⟨c, hc, hres, hrun, hsettle⟩ :=
      onMsgReceived_done_of_key k env message source s i hinv hcmd hid hkey
    have hkeeps := resolveWrapper_keeps i s hinv
    have p3 : (resolveWrapper i s).resolversMap = mapDelete s.resolversMap i := by
      rw [hsettle]
    have p5 : (resolveWrapper i s).resolved = i :: s.resolved := by
      rw [hsettle]
    have p8 : (resolveWrapper i s).log = s.log ++ [.clearTimeout c.timeoutId] := by
      rw [hsettle]
    have hin : i ∈ (resolveWrapper i s).resolved := by
      rw [p5]; exact List.mem_cons_self _ _
    have hnokey : i ∉ (resolveWrapper i s).resolversMap.map Prod.fst := by
      rw [p3, mem_keys_mapDelete]
      exact fun h => h.2 rfl
    refine ⟨resolveWrapper i s, hrun, p5, hres, hnokey, ?_, ?_, ?_⟩
    · intro u hu hcb
      exact (hkeeps.1.timers u hu).1 (hcb ▸ hin)
    · rw [p8]
      simp [sendsAndTimeouts, List.filter_append]
    · intro env2 source2
      apply onMsgReceived_done_of_none k env2 message source2 _ hcmd
      rw [hid]
      cases hget : mapGet (resolveWrapper i s).resolversMap (some i) with
      | none => rfl
      | some v =>
        exfalso
        apply hnokey
        exact List.mem_map.mpr ⟨(i, v), mapGet_mem _ i v hget, rfl⟩
  · intro env s i w cmd cookies a h haw ha hparent hres
    obtain ⟨hin, -, -, -, hmap⟩ := fireTimeout_giveUp k env s i w cmd cookies a h haw ha hparent hres
    refine ⟨hin, ?_⟩
    rw [hmap, mem_keys_mapDelete]
    exact fun h => h.2 rfl
  · intro s hs i hi tasks
    have hkeeps := run_keeps k tasks s (inv_of_reachable k s hs)
    obtain ⟨hin, hstarts⟩ := hkeeps.2 i hi
    refine ⟨hin, ?_, hstarts⟩
    intro hkey
    exact ((hkeeps.1.keys i).mp hkey).2 hin

/-- Witness of `resolversMap_lifecycle`: after the sample fan-out the only key is `1`,
the id of the send to window `3`; after its DONE the map is empty. -/
theorem resolversMap_lifecycle_witness :
    (1 ∈ (step sampleCodec sampleEnv (.syncBetweenWindows [sampleCookie] none)
        sampleTop).resolversMap.map Prod.fst ↔
      (∃ c, getClosure (step sampleCodec sampleEnv (.syncBetweenWindows [sampleCookie] none)
        sampleTop).closures 1 = some c) ∧
      1 ∉ (step sampleCodec sampleEnv (.syncBetweenWindows [sampleCookie] none)
        sampleTop).resolved) ∧
    (run sampleCodec
      [(sampleEnv, .syncBetweenWindows [sampleCookie] none),
        (sampleEnv, .serviceMsgReceived ⟨some 1, SYNC_COOKIE_DONE_CMD, []⟩ 3)]
      sampleTop).resolversMap = [] :=
  ⟨(resolversMap_lifecycle sampleCodec).2.1 _
      (Reachable.step sampleEnv (.syncBetweenWindows [sampleCookie] none) sampleTop
        (Reachable.attached sampleEnv 0)) 1,
    by decide⟩

end WindowSync
namespace WindowSync

theorem changedInPlace_refl (k : Codec) (c : ParsedCookie) : ChangedInPlace k c c :=
  ⟨0, rfl⟩

theorem changedInPlace_trans {k : Codec} {a b c : ParsedCookie} (h1 : ChangedInPlace k a b)
    (h2 : ChangedInPlace k b c) : ChangedInPlace k a c := by
  obtain ⟨n, hn⟩ := h1
  obtain ⟨m, hm⟩ := h2
  refine ⟨m + n, ?_⟩
  rw [hm, hn, Function.iterate_add_apply]

theorem sameBatch_refl (k : Codec) (l : List ParsedCookie) : SameBatch k l l := by
  induction l with
  | nil => exact List.Forall₂.nil
  | cons c rest ih => exact List.Forall₂.cons (changedInPlace_refl k c) ih

theorem sameBatch_trans {k : Codec} {a b c : List ParsedCookie} (h1 : SameBatch k a b)
    (h2 : SameBatch k b c) : SameBatch k a c := by
  unfold SameBatch at *
  induction h1 generalizing c with
  | nil => cases h2; exact List.Forall₂.nil
  | cons hx _ ih =>
    cases h2 with
    | cons hy hrest => exact List.Forall₂.cons (changedInPlace_trans hx hy) (ih hrest)

theorem sameBatch_map (k : Codec) (f : ParsedCookie → ParsedCookie)
    (hf : ∀ d, f d = d ∨ f d = k.changeSyncType d ⟨none, none, some false⟩)
    (l : List ParsedCookie) : SameBatch k l (l.map f) := by
  induction l with
  | nil => exact List.Forall₂.nil
  | cons c rest ih =>
    refine List.Forall₂.cons ?_ ih
    rcases hf c with h | h
    · rw [h]; exact changedInPlace_refl k c
    · rw [h]; exact ⟨1, rfl⟩

theorem sameJoin_refl (k : Codec) (j : Join) : SameJoin k j j :=
  ⟨rfl, sameBatch_refl k j.cookies⟩

theorem sameJoin_trans {k : Codec} {a b c : Join} (h1 : SameJoin k a b) (h2 : SameJoin k b c) :
    SameJoin k a c :=
  ⟨h2.1.trans h1.1, sameBatch_trans h1.2 h2.2⟩

theorem sameJoins_refl (k : Codec) (js : List Join) : List.Forall₂ (SameJoin k) js js := by
  induction js with
  | nil => exact List.Forall₂.nil
  | cons j rest ih => exact List.Forall₂.cons (sameJoin_refl k j) ih

theorem sameJoins_trans {k : Codec} {a b c : List Join} (h1 : List.Forall₂ (SameJoin k) a b)
    (h2 : List.Forall₂ (SameJoin k) b c) : List.Forall₂ (SameJoin k) a c := by
  induction h1 generalizing c with
  | nil => cases h2; exact List.Forall₂.nil
  | cons hx _ ih =>
    cases h2 with
    | cons hy hrest => exact List.Forall₂.cons (sameJoin_trans hx hy) (ih hrest)

theorem sameJoins_map (k : Codec) (f : ParsedCookie → ParsedCookie)
    (hf : ∀ d, f d = d ∨ f d = k.changeSyncType d ⟨none, none, some false⟩)
    (js : List Join) :
    List.Forall₂ (SameJoin k) js
      (js.map (fun (j : Join) => { j with cookies := j.cookies.map f })) := by
  induction js with
  | nil => exact List.Forall₂.nil
  | cons j rest ih => exact List.Forall₂.cons ⟨rfl, sameBatch_map k f hf j.cookies⟩ ih

/-- Related lists of joins have the same joins for every list of promises. -/
theorem sameJoins_pending {k : Codec} {a b : List Join} (h : List.Forall₂ (SameJoin k) a b)
    (P : List Nat) : pendingJoins P b = pendingJoins P a := by
  unfold pendingJoins
  induction h with
  | nil => rfl
  | cons hx _ ih =>
    rw [List.countP_cons, List.countP_cons, ih, hx.1]

theorem sameJoins_mem_right {k : Codec} {a b : List Join} (h : List.Forall₂ (SameJoin k) a b)
    (j : Join) (hj : j ∈ b) : ∃ i ∈ a, SameJoin k i j := by
  induction h with
  | nil => simp at hj
  | cons hx _ ih =>
    rcases List.mem_cons.mp hj with rfl | hj
    · exact ⟨_, List.mem_cons_self _ _, hx⟩
    · obtain ⟨i, hi, hij⟩ := ih hj
      exact ⟨i, List.mem_cons_of_mem _ hi, hij⟩

theorem grows_refl (ok : Effect → Prop) (k : Codec) (s : State) : Grows ok k s s :=
  ⟨fun g hg => ⟨g, hg, le_refl g⟩, fun _ hp => hp, ⟨[], by simp, by simp⟩, sameJoins_refl k _⟩

theorem grows_trans {ok : Effect → Prop} {k : Codec} {s t u : State} (h1 : Grows ok k s t)
    (h2 : Grows ok k t u) : Grows ok k s u := by
  obtain ⟨a1, a2, ⟨n1, a3, a4⟩, a5⟩ := h1
  obtain ⟨b1, b2, ⟨n2, b3, b4⟩, b5⟩ := h2
  refine ⟨?_, fun p hp => b2 p (a2 p hp), ⟨n1 ++ n2, ?_, ?_⟩, sameJoins_trans a5 b5⟩
  · intro g hg
    obtain ⟨g2, hg2, hle⟩ := a1 g hg
    obtain ⟨g3, hg3, hle2⟩ := b1 g2 hg2
    exact ⟨g3, hg3, le_trans hle hle2⟩
  · rw [b3, a3, List.append_assoc]
  · intro e he
    rcases List.mem_append.mp he with h | h
    · exact a4 e h
    · exact b4 e h

theorem grows_mono {ok ok2 : Effect → Prop} {k : Codec} {s t : State} (h : Grows ok k s t)
    (himp : ∀ e, ok e → ok2 e) : Grows ok2 k s t := by
  obtain ⟨a1, a2, ⟨n1, a3, a4⟩, a5⟩ := h
  exact ⟨a1, a2, ⟨n1, a3, fun e he => himp e (a4 e he)⟩, a5⟩

theorem grows_mk {ok : Effect → Prop} {k : Codec} {s t : State}
    (hgen : t.messageIdGenerator = s.messageIdGenerator)
    (hres : ∀ p ∈ s.resolved, p ∈ t.resolved) (new : List Effect) (hlog : t.log = s.log ++ new)
    (hnew : ∀ e ∈ new, ok e) (hjoins : t.joins = s.joins) : Grows ok k s t := by
  refine ⟨fun g hg => ⟨g, by rw [hgen, hg], le_refl g⟩, hres, ⟨new, hlog, hnew⟩, ?_⟩
  rw [hjoins]
  exact sameJoins_refl k _

theorem grows_emit {ok : Effect → Prop} (k : Codec) (s : State) (e : Effect) (he : ok e) :
    Grows ok k s (s.emit e) :=
  grows_mk rfl (fun _ hp => hp) [e] rfl (fun x hx => by rw [List.mem_singleton.mp hx]; exact he)
    rfl

theorem resolveWrapper_grows (k : Codec) (i : Nat) (s : State) :
    Grows Protocol k s (resolveWrapper i s) := by
  unfold resolveWrapper
  cases hc : getClosure s.closures i with
  | none => exact grows_refl _ k s
  | some c =>
    simp only
    have hok : ∀ e ∈ [Effect.clearTimeout c.timeoutId], Protocol e := by
      intro e he
      rw [List.mem_singleton.mp he]
      exact ⟨rfl, rfl⟩
    by_cases hres : i ∈ s.resolved
    · rw [if_pos hres]
      exact grows_mk rfl (fun _ hp => hp) [.clearTimeout c.timeoutId] rfl hok rfl
    · rw [if_neg hres]
      exact grows_mk rfl (fun _ hp => List.mem_cons_of_mem _ hp) [.clearTimeout c.timeoutId] rfl
        hok rfl

theorem sendMsg_grows (k : Codec) (env : Env) (i : Nat) (s : State) :
    Grows Protocol k s (sendMsg k env i s) := by
  unfold sendMsg
  cases hc : getClosure s.closures i with
  | none => exact grows_refl _ k s
  | some c =>
    simp only
    by_cases hbranch : c.attempts < SYNC_MESSAGE_ATTEMPT_COUNT ∨ env.hasParent c.win = false
    · rw [if_pos hbranch]
      refine grows_mk rfl (fun _ hp => hp) _ rfl ?_ rfl
      intro e he
      rcases List.mem_cons.mp he with rfl | he
      · exact ⟨rfl, rfl⟩
      · rw [List.mem_singleton.mp he]
        exact ⟨rfl, rfl⟩
    · rw [if_neg hbranch]
      have h1 : Grows Protocol k s
          { s with closures := putClosure { c with attempts := c.attempts + 1 } s.closures } :=
        grows_mk rfl (fun _ hp => hp) [] (by simp) (by simp) rfl
      exact grows_trans h1 (resolveWrapper_grows k i _)

theorem fireTimeout_grows (k : Codec) (env : Env) (h : Nat) (s : State) :
    Grows Protocol k s (fireTimeout k env h s) := by
  unfold fireTimeout
  cases ht : getTimer s.timers h with
  | none => exact grows_refl _ k s
  | some t =>
    simp only
    have h1 : Grows Protocol k s { s with timers := dropTimer s.timers (some h) } :=
      grows_mk rfl (fun _ hp => hp) [] (by simp) (by simp) rfl
    exact grows_trans h1 (sendMsg_grows k env t.callback _)

theorem sendSyncMessage_grows (k : Codec) (env : Env) (w : WinId) (cmd : String)
    (cookies : List ParsedCookie) (s : State) :
    (∀ id t, sendSyncMessage k env w cmd cookies s = .ok (id, t) → Grows Protocol k s t) ∧
      ∀ e t, sendSyncMessage k env w cmd cookies s = .error (e, t) → t = s := by
  unfold sendSyncMessage
  cases hgen : s.messageIdGenerator with
  | none =>
    constructor
    · intro id t h
      cases h
    · intro e t h
      simp only [Except.error.injEq, Prod.mk.injEq] at h
      exact h.2.symm
  | some n =>
    constructor
    · intro id t h
      simp only [Except.ok.injEq, Prod.mk.injEq, increment] at h
      obtain ⟨-, rfl⟩ := h
      have h1 : Grows Protocol k s
          { s with
            messageIdGenerator := some (n + 1),
            closures := putClosure ⟨n + 1, w, cmd, cookies, 0, none⟩ s.closures,
            resolversMap := mapSet s.resolversMap (n + 1) (n + 1) } := by
        refine ⟨?_, fun _ hp => hp, ⟨[], by simp, by simp⟩, sameJoins_refl k _⟩
        intro g hg
        rw [hgen] at hg
        cases hg
        exact ⟨n + 1, rfl, Nat.le_succ _⟩
      exact grows_trans h1 (sendMsg_grows k env (n + 1) _)
    · intro e t h
      cases h

theorem fanOut_grows (k : Codec) (env : Env) (cookies : List ParsedCookie) :
    ∀ (targets : List WinId) (syncMessages : List Nat) (s : State),
      (∀ ids t, fanOut k env cookies targets syncMessages s = .ok (ids, t) →
        Grows Protocol k s t) ∧
        ∀ e t, fanOut k env cookies targets syncMessages s = .error (e, t) →
          Grows Protocol k s t
  | [], syncMessages, s => by
    constructor
    · intro ids t h
      simp only [fanOut, Except.ok.injEq, Prod.mk.injEq] at h
      rw [← h.2]
      exact grows_refl _ k s
    · intro e t h
      simp [fanOut] at h
  | w :: rest, syncMessages, s => by
    by_cases hreach : getCookieSandbox env w = true
    · have hemit : Grows Protocol k s (s.emit (.syncWindowCookie w cookies)) :=
        grows_emit k s _ ⟨rfl, rfl⟩
      obtain ⟨ih1, ih2⟩ := fanOut_grows k env cookies rest syncMessages
        (s.emit (.syncWindowCookie w cookies))
      constructor
      · intro ids t h
        rw [fanOut, if_pos hreach] at h
        exact grows_trans hemit (ih1 ids t h)
      · intro e t h
        rw [fanOut, if_pos hreach] at h
        exact grows_trans hemit (ih2 e t h)
    · obtain ⟨hs1, hs2⟩ := sendSyncMessage_grows k env w SYNC_COOKIE_START_CMD cookies s
      cases hsend : sendSyncMessage k env w SYNC_COOKIE_START_CMD cookies s with
      | error x =>
        obtain ⟨x1, x2⟩ := x
        have hx := hs2 x1 x2 hsend
        constructor
        · intro ids t h
          rw [fanOut, if_neg hreach, hsend] at h
          cases h
        · intro e t h
          rw [fanOut, if_neg hreach, hsend] at h
          simp only [Except.error.injEq, Prod.mk.injEq] at h
          rw [← h.2, hx]
          exact grows_refl _ k s
      | ok x =>
        obtain ⟨id, s1⟩ := x
        have hk := hs1 id s1 hsend
        obtain ⟨ih1, ih2⟩ := fanOut_grows k env cookies rest (syncMessages ++ [id]) s1
        constructor
        · intro ids t h
          rw [fanOut, if_neg hreach, hsend] at h
          exact grows_trans hk (ih1 ids t h)
        · intro e t h
          rw [fanOut, if_neg hreach, hsend] at h
          exact grows_trans hk (ih2 e t h)

theorem removeSyncCookie_grows (k : Codec) (env : Env) (cookies : List ParsedCookie)
    (s : State) : Grows NoCallback k s (reached (removeSyncCookie k env cookies s)) := by
  rw [removeSyncCookie_reached]
  obtain ⟨f, hf, hc⟩ := cleanupChange_fields k env cookies s
  rw [hc]
  refine ⟨fun g hg => ⟨g, hg, le_refl g⟩, fun _ hp => hp,
    ⟨cleanupWrites k env cookies, rfl, ?_⟩, sameJoins_map k f hf s.joins⟩
  intro e he
  obtain ⟨v, rfl⟩ := cleanupWrites_mem k env cookies e he
  rfl

theorem attach_grows (k : Codec) (env : Env) (win : WinId) (s : State) :
    Grows Protocol k s (attach env win s) := by
  unfold attach
  simp only
  have hok : ∀ e ∈ [Effect.on], Protocol e := by
    intro e he
    rw [List.mem_singleton.mp he]
    exact ⟨rfl, rfl⟩
  split_ifs with h
  · refine ⟨?_, fun _ hp => hp, ⟨[.on], rfl, hok⟩, sameJoins_refl k _⟩
    intro g hg
    refine ⟨g, ?_, le_refl g⟩
    show some (s.messageIdGenerator.getD 0) = some g
    rw [hg]
    rfl
  · exact grows_mk rfl (fun _ hp => hp) [.on] rfl hok rfl

end WindowSync

namespace WindowSync

theorem fanOut_no_generator (k : Codec) (env : Env) (cookies : List ParsedCookie) :
    ∀ (targets : List WinId) (syncMessages : List Nat) (s : State) (ids : List Nat) (t : State),
      s.messageIdGenerator = none →
      fanOut k env cookies targets syncMessages s = .ok (ids, t) → ids = syncMessages
  | [], syncMessages, s, ids, t, _, h => by
    simp only [fanOut, Except.ok.injEq, Prod.mk.injEq] at h
    exact h.1.symm
  | w :: rest, syncMessages, s, ids, t, hgen, h => by
    by_cases hreach : getCookieSandbox env w = true
    · rw [fanOut, if_pos hreach] at h
      exact fanOut_no_generator k env cookies rest syncMessages
        (s.emit (.syncWindowCookie w cookies)) ids t hgen h
    · rw [fanOut, if_neg hreach] at h
      have hsend : sendSyncMessage k env w SYNC_COOKIE_START_CMD cookies s =
          .error (.typeError, s) := by
        unfold sendSyncMessage
        rw [hgen]
      rw [hsend] at h
      cases h

/-- What `syncBetweenWindows` does to the joins: it registers nothing, or it registers
one join for promises with new ids. -/
theorem syncBetweenWindows_shape (k : Codec) (env : Env) (cookies : List ParsedCookie)
    (initiator : Option WinId) (s : State) :
    Grows NoCallback k s (reached (syncBetweenWindows k env cookies initiator s)) ∨
      ∃ s1 n m, s.messageIdGenerator = some n ∧ 0 < m ∧
        s1.messageIdGenerator = some (n + m) ∧ Grows Protocol k s s1 ∧
        reached (syncBetweenWindows k env cookies initiator s) =
          { s1 with joins := s1.joins ++ [⟨List.range' (n + 1) m, cookies⟩] } := by
  have hweak : ∀ e, Protocol e → NoCallback e := fun e he => he.1
  unfold syncBetweenWindows
  by_cases hframe : s.win ≠ env.top.id
  · left
    rw [if_pos hframe]
    unfold delegateSyncBetweenWindowsToTop
    by_cases hreach : getCookieSandbox env env.top.id = true
    · rw [if_pos hreach]
      exact grows_trans (grows_emit k s (.syncWindowCookie env.top.id cookies) rfl)
        (grows_emit k _ (.syncBetweenWindows env.top.id cookies s.win) rfl)
    · rw [if_neg hreach]
      exact grows_emit k s
        (.sendServiceMsg ⟨none, SYNC_COOKIE_START_CMD, some cookies⟩ env.top.id) rfl
  · rw [if_neg hframe]
    simp only
    obtain ⟨g1, g2⟩ :=
      fanOut_grows k env cookies (getWindowsForSync env.top.id initiator env.top []) [] s
    cases hgen : s.messageIdGenerator with
    | none =>
      left
      cases hf : fanOut k env cookies (getWindowsForSync env.top.id initiator env.top []) [] s with
      | error x =>
        obtain ⟨x1, x2⟩ := x
        exact grows_mono (g2 x1 x2 hf) hweak
      | ok x =>
        obtain ⟨ids, s1⟩ := x
        have hids := fanOut_no_generator k env cookies _ [] s ids s1 hgen hf
        subst hids
        simp only [List.length_nil, ne_eq, not_true_eq_false, if_false]
        exact grows_trans (grows_mono (g1 [] s1 hf) hweak)
          (removeSyncCookie_grows k env cookies s1)
    | some n =>
      obtain ⟨s1, h1, -, h3, -, -, -, -⟩ :=
        fanOut_spec k env cookies (getWindowsForSync env.top.id initiator env.top []) [] s n hgen
      rw [List.nil_append] at h1
      rw [h1]
      simp only [List.length_range']
      by_cases hlen : (unreachableTargets env
          (getWindowsForSync env.top.id initiator env.top [])).length ≠ 0
      · right
        rw [if_pos hlen]
        exact ⟨s1, n, _, rfl, Nat.pos_of_ne_zero hlen, h3, g1 _ s1 h1, rfl⟩
      · left
        rw [if_neg hlen]
        exact grows_trans (grows_mono (g1 _ s1 h1) hweak)
          (removeSyncCookie_grows k env cookies s1)

theorem onMsgReceived_shape (k : Codec) (env : Env) (message : SyncCookieMsg)
    (source : WinId) (s : State) :
    Grows NoCallback k s (reached (onMsgReceived k env message source s)) ∨
      ∃ s1 n m, s.messageIdGenerator = some n ∧ 0 < m ∧
        s1.messageIdGenerator = some (n + m) ∧ Grows NoCallback k s s1 ∧
        reached (onMsgReceived k env message source s) =
          { s1 with joins := s1.joins ++ [⟨List.range' (n + 1) m, message.cookies⟩] } := by
  have hweak : ∀ e, Protocol e → NoCallback e := fun e he => he.1
  unfold onMsgReceived
  by_cases hstart : message.cmd = SYNC_COOKIE_START_CMD
  · rw [if_pos hstart]
    have h1 : Grows NoCallback k s (s.emit (.syncWindowCookie s.win message.cookies)) :=
      grows_emit k s (.syncWindowCookie s.win message.cookies) rfl
    by_cases hframe : s.win ≠ env.top.id
    · left
      simp only [if_pos hframe]
      exact grows_trans h1
        (grows_emit k _ (.sendServiceMsg ⟨message.id, SYNC_COOKIE_DONE_CMD, none⟩ source) rfl)
    · simp only [if_neg hframe]
      rcases syncBetweenWindows_shape k env message.cookies (some source)
          (s.emit (.syncWindowCookie s.win message.cookies)) with h | ⟨s1, n, m, a1, a2, a3, a4, a5⟩
      · exact Or.inl (grows_trans h1 h)
      · exact Or.inr ⟨s1, n, m, a1, a2, a3, grows_trans h1 (grows_mono a4 hweak), a5⟩
  · left
    rw [if_neg hstart]
    by_cases hdone : message.cmd = SYNC_COOKIE_DONE_CMD
    · rw [if_pos hdone]
      cases hget : mapGet s.resolversMap message.id with
      | none => exact grows_refl _ k s
      | some resolver => exact grows_mono (resolveWrapper_grows k resolver s) hweak
    · rw [if_neg hdone]
      exact grows_refl _ k s

/-- A message that is not a START runs no cleanup: nothing is written to the cookies. -/
theorem onMsgReceived_protocol (k : Codec) (env : Env) (message : SyncCookieMsg)
    (source : WinId) (s : State) (hcmd : message.cmd ≠ SYNC_COOKIE_START_CMD) :
    Grows Protocol k s (reached (onMsgReceived k env message source s)) := by
  unfold onMsgReceived
  rw [if_neg hcmd]
  by_cases hdone : message.cmd = SYNC_COOKIE_DONE_CMD
  · rw [if_pos hdone]
    cases hget : mapGet s.resolversMap message.id with
    | none => exact grows_refl _ k s
    | some resolver => exact resolveWrapper_grows k resolver s
  · rw [if_neg hdone]
    exact grows_refl _ k s

/-- Every task but the turn of the promise library registers nothing, or one join for
promises with new ids, and runs no callback. -/
theorem step_shape (k : Codec) (env : Env) (e : Event) (s : State) (he : e ≠ .reactions) :
    Grows NoCallback k s (step k env e s) ∨
      ∃ s1 n m c, s.messageIdGenerator = some n ∧ 0 < m ∧
        s1.messageIdGenerator = some (n + m) ∧ Grows NoCallback k s s1 ∧
        step k env e s = { s1 with joins := s1.joins ++ [⟨List.range' (n + 1) m, c⟩] } := by
  have hweak : ∀ e, Protocol e → NoCallback e := fun e he => he.1
  cases e with
  | reactions => exact absurd rfl he
  | serviceMsgReceived message source =>
    rcases onMsgReceived_shape k env message source s with h | ⟨s1, n, m, a1, a2, a3, a4, a5⟩
    · exact Or.inl h
    · exact Or.inr ⟨s1, n, m, _, a1, a2, a3, a4, a5⟩
  | timeout handle => exact Or.inl (grows_mono (fireTimeout_grows k env handle s) hweak)
  | syncBetweenWindows cookies initiator =>
    rcases syncBetweenWindows_shape k env cookies initiator s with
      h | ⟨s1, n, m, a1, a2, a3, a4, a5⟩
    · exact Or.inl h
    · exact Or.inr ⟨s1, n, m, _, a1, a2, a3, grows_mono a4 hweak, a5⟩
  | attach win => exact Or.inl (grows_mono (attach_grows k env win s) hweak)

theorem thenCallback_eq (k : Codec) (env : Env) (j : Join) (s : State) :
    thenCallback k env j s =
      { cleanupChange k env j.cookies s with log := s.log ++ callbackEffects k env j } := by
  unfold thenCallback callbackEffects
  cases hc : j.cookies with
  | nil => simp [removeSyncCookie_nil, thenEffects, cleanupChange, State.emit]
  | cons c rest =>
    rw [removeSyncCookie_cons]
    simp only [thenEffects, cleanupChange, State.emit]
    split_ifs <;> simp [changeSyncTypeInPlace]

theorem thenCallback_grows (k : Codec) (env : Env) (j : Join) (s : State) :
    Grows NoCallback k (s.emit (.thenCallback j.promises j.cookies)) (thenCallback k env j s) := by
  unfold thenCallback
  have h2 := removeSyncCookie_grows k env j.cookies (s.emit (.thenCallback j.promises j.cookies))
  cases hr : removeSyncCookie k env j.cookies (s.emit (.thenCallback j.promises j.cookies)) with
  | ok s1 =>
    rw [hr] at h2
    exact h2
  | error x =>
    obtain ⟨x1, x2⟩ := x
    rw [hr] at h2
    exact grows_trans h2 (grows_emit k _ .unhandledRejection rfl)

theorem nextReady_mem (resolved : List Nat) :
    ∀ (js : List Join) (j : Join), nextReady resolved js = some j →
      j ∈ js ∧ isReady resolved j = true
  | [], j, h => by simp [nextReady] at h
  | x :: xs, j, h => by
    unfold nextReady at h
    cases hn : nextReady resolved xs with
    | none =>
      rw [hn] at h
      simp only at h
      split_ifs at h with hx
      cases h
      exact ⟨List.mem_cons_self _ _, hx⟩
    | some j2 =>
      rw [hn] at h
      simp only at h
      obtain ⟨m2, r2⟩ := nextReady_mem resolved xs j2 hn
      split_ifs at h with hx
      · cases h
        exact ⟨List.mem_cons_self _ _, hx.1⟩
      · cases h
        exact ⟨List.mem_cons_of_mem _ m2, r2⟩

theorem nextReady_none (resolved : List Nat) :
    ∀ (js : List Join), nextReady resolved js = none → ∀ j ∈ js, isReady resolved j = false
  | [], _, j, hj => by simp at hj
  | x :: xs, h, j, hj => by
    unfold nextReady at h
    cases hn : nextReady resolved xs with
    | none =>
      rw [hn] at h
      simp only at h
      split_ifs at h with hx
      rcases List.mem_cons.mp hj with rfl | hj
      · simpa using hx
      · exact nextReady_none resolved xs hn j hj
    | some j2 =>
      rw [hn] at h
      simp only at h
      split_ifs at h

theorem countP_erase_of_mem (p : Join → Bool) (j : Join) :
    ∀ (l : List Join), j ∈ l →
      (l.erase j).countP p + (if p j = true then 1 else 0) = l.countP p
  | [], h => by simp at h
  | x :: xs, h => by
    by_cases hx : x = j
    · subst hx
      simp [List.countP_cons]
    · have hmem : j ∈ xs := by
        rcases List.mem_cons.mp h with h | h
        · exact absurd h.symm hx
        · exact h
      have ih := countP_erase_of_mem p j xs hmem
      have hne : (x == j) = false := by simpa using hx
      rw [List.erase_cons, hne]
      simp only [Bool.false_eq_true, if_false, List.countP_cons]
      omega

end WindowSync

namespace WindowSync

theorem callbackRuns_append (P : List Nat) (l1 l2 : List Effect) :
    callbackRuns P (l1 ++ l2) = callbackRuns P l1 + callbackRuns P l2 := by
  simp [callbackRuns, List.countP_append]

theorem callbackRuns_of_noCallback (P : List Nat) (new : List Effect)
    (h : ∀ e ∈ new, NoCallback e) : callbackRuns P new = 0 := by
  unfold callbackRuns
  rw [List.countP_eq_zero]
  intro e he
  have := h e he
  cases e <;> simp_all [NoCallback, isCallback]

theorem cookieWrites_of_protocol (log new : List Effect) (h : ∀ e ∈ new, Protocol e) :
    cookieWrites (log ++ new) = cookieWrites log := by
  unfold cookieWrites
  rw [List.filter_append]
  have : new.filter isCookieWrite = [] := by
    rw [List.filter_eq_nil_iff]
    intro e he
    have := (h e he).2
    simp [this]
  rw [this, List.append_nil]

theorem joinInv_grows {k : Codec} {s t : State} (h : JoinInv s) (hg : Grows NoCallback k s t) :
    JoinInv t := by
  obtain ⟨g1, g2, ⟨new, g3, g4⟩, g5⟩ := hg
  constructor
  · intro j hj p hp
    obtain ⟨i, hi, hij⟩ := sameJoins_mem_right g5 j hj
    rw [hij.1] at hp
    obtain ⟨g, hg, hle⟩ := h.joinIds i hi p hp
    obtain ⟨g', hg', hle'⟩ := g1 g hg
    exact ⟨g', hg', le_trans hle hle'⟩
  · intro P c hm p hp
    rw [g3] at hm
    rcases List.mem_append.mp hm with hm | hm
    · exact g2 p (h.ranResolved P c hm p hp)
    · have hno := g4 _ hm
      simp [NoCallback, isCallback] at hno

theorem joinInv_register {s1 : State} {n m : Nat} (c : List ParsedCookie) (h : JoinInv s1)
    (hgen : s1.messageIdGenerator = some (n + m)) :
    JoinInv { s1 with joins := s1.joins ++ [⟨List.range' (n + 1) m, c⟩] } := by
  constructor
  · intro j hj p hp
    rcases List.mem_append.mp hj with hj | hj
    · exact h.joinIds j hj p hp
    · rw [List.mem_singleton.mp hj] at hp
      refine ⟨n + m, hgen, ?_⟩
      have := (List.mem_range'_1.mp hp).2
      omega
  · intro P c2 hm p hp
    exact h.ranResolved P c2 hm p hp

theorem joinInv_pick {s : State} {j : Join} (h : JoinInv s) (hr : isReady s.resolved j = true) :
    JoinInv (State.emit { s with joins := s.joins.erase j }
      (.thenCallback j.promises j.cookies)) := by
  constructor
  · intro i hi p hp
    exact h.joinIds i (List.mem_of_mem_erase hi) p hp
  · intro P c hm p hp
    simp only [State.emit] at hm
    rcases List.mem_append.mp hm with hm | hm
    · exact h.ranResolved P c hm p hp
    · have heq := List.mem_singleton.mp hm
      simp only [Effect.thenCallback.injEq] at heq
      rw [heq.1] at hp
      unfold isReady at hr
      rw [List.all_eq_true] at hr
      simpa using hr p hp

theorem joinInv_settleLoop (k : Codec) (env : Env) :
    ∀ (fuel : Nat) (s : State), JoinInv s → JoinInv (settleLoop k env fuel s)
  | 0, _, h => h
  | fuel + 1, s, h => by
    unfold settleLoop
    cases hn : nextReady s.resolved s.joins with
    | none => exact h
    | some j =>
      obtain ⟨-, hr⟩ := nextReady_mem s.resolved s.joins j hn
      have h1 := joinInv_pick (j := j) h hr
      have h2 := joinInv_grows h1 (thenCallback_grows k env j { s with joins := s.joins.erase j })
      exact joinInv_settleLoop k env fuel _ h2

theorem joinInv_step (k : Codec) (env : Env) (e : Event) (s : State) (h : JoinInv s) :
    JoinInv (step k env e s) := by
  by_cases he : e = .reactions
  · subst he
    exact joinInv_settleLoop k env _ s h
  · rcases step_shape k env e s he with hg | ⟨s1, n, m, c, -, -, a3, a4, a5⟩
    · exact joinInv_grows h hg
    · rw [a5]
      exact joinInv_register c (joinInv_grows h a4) a3

theorem joinInv_attached (k : Codec) (env : Env) (win : WinId) : JoinInv (attached env win) := by
  have h0 : JoinInv ⟨win, none, [], [], [], [], [], 1, []⟩ := by
    constructor
    · intro j hj
      simp at hj
    · intro P c hm
      simp at hm
  exact joinInv_grows h0 (grows_mono (attach_grows k env win _) (fun _ he => he.1))

theorem joinInv_of_reachable (k : Codec) (s : State) (h : Reachable k s) : JoinInv s := by
  induction h with
  | attached env win => exact joinInv_attached k env win
  | step env e s _ ih => exact joinInv_step k env e s ih

theorem reachable_run (k : Codec) :
    ∀ (tasks : List (Env × Event)) (s : State), Reachable k s → Reachable k (run k tasks s)
  | [], _, h => h
  | (env, e) :: rest, s, h => reachable_run k rest _ (Reachable.step env e s h)

theorem tracks_grows {k : Codec} {P : List Nat} {c : List ParsedCookie} {s t : State}
    (h : Tracks k P c s) (hg : Grows NoCallback k s t) : Tracks k P c t := by
  obtain ⟨g1, g2, ⟨new, g3, g4⟩, g5⟩ := hg
  constructor
  · rw [sameJoins_pending g5 P, g3, callbackRuns_append, callbackRuns_of_noCallback P new g4]
    exact h.once
  · intro p hp
    obtain ⟨g, hg, hle⟩ := h.bound p hp
    obtain ⟨g', hg', hle'⟩ := g1 g hg
    exact ⟨g', hg', le_trans hle hle'⟩
  · intro j hj hjP
    obtain ⟨i, hi, hij⟩ := sameJoins_mem_right g5 j hj
    exact sameBatch_trans (h.held i hi (hij.1 ▸ hjP)) hij.2
  · intro c2 hm
    rw [g3] at hm
    rcases List.mem_append.mp hm with hm | hm
    · exact h.ran c2 hm
    · have hno := g4 _ hm
      simp [NoCallback, isCallback] at hno

theorem tracks_register {k : Codec} {P Q : List Nat} {c : List ParsedCookie} {s1 : State}
    (c2 : List ParsedCookie) (h : Tracks k P c s1) (hne : Q ≠ P) :
    Tracks k P c { s1 with joins := s1.joins ++ [⟨Q, c2⟩] } := by
  constructor
  · have : pendingJoins P (s1.joins ++ [⟨Q, c2⟩]) = pendingJoins P s1.joins := by
      simp [pendingJoins, List.countP_append, List.countP_cons, hne]
    show pendingJoins P (s1.joins ++ [⟨Q, c2⟩]) + callbackRuns P s1.log = 1
    rw [this]
    exact h.once
  · exact h.bound
  · intro j hj hjP
    rcases List.mem_append.mp hj with hj | hj
    · exact h.held j hj hjP
    · rw [List.mem_singleton.mp hj] at hjP
      exact absurd hjP hne
  · exact h.ran

theorem tracks_pick {k : Codec} {P : List Nat} {c : List ParsedCookie} {s : State} {j : Join}
    (h : Tracks k P c s) (hj : j ∈ s.joins) :
    Tracks k P c (State.emit { s with joins := s.joins.erase j }
      (.thenCallback j.promises j.cookies)) := by
  constructor
  · have h1 := countP_erase_of_mem (fun i => decide (i.promises = P)) j s.joins hj
    have h2 : callbackRuns P (s.log ++ [.thenCallback j.promises j.cookies]) =
        callbackRuns P s.log + (if decide (j.promises = P) = true then 1 else 0) := by
      rw [callbackRuns_append]
      simp [callbackRuns, List.countP_cons]
    have h3 := h.once
    beta_reduce at h1
    show pendingJoins P (s.joins.erase j) +
      callbackRuns P (s.log ++ [.thenCallback j.promises j.cookies]) = 1
    rw [h2]
    unfold pendingJoins at h3 ⊢
    omega
  · exact h.bound
  · intro i hi hiP
    exact h.held i (List.mem_of_mem_erase hi) hiP
  · intro c2 hm
    simp only [State.emit] at hm
    rcases List.mem_append.mp hm with hm | hm
    · exact h.ran c2 hm
    · have heq := List.mem_singleton.mp hm
      simp only [Effect.thenCallback.injEq] at heq
      rw [heq.2]
      exact h.held j hj heq.1.symm

theorem tracks_settleLoop (k : Codec) (env : Env) (P : List Nat) (c : List ParsedCookie) :
    ∀ (fuel : Nat) (s : State), Tracks k P c s → Tracks k P c (settleLoop k env fuel s)
  | 0, _, h => h
  | fuel + 1, s, h => by
    unfold settleLoop
    cases hn : nextReady s.resolved s.joins with
    | none => exact h
    | some j =>
      obtain ⟨hj, -⟩ := nextReady_mem s.resolved s.joins j hn
      have h1 := tracks_pick (j := j) h hj
      have h2 := tracks_grows h1 (thenCallback_grows k env j { s with joins := s.joins.erase j })
      exact tracks_settleLoop k env P c fuel _ h2

theorem tracks_step (k : Codec) (env : Env) (e : Event) (P : List Nat) (c : List ParsedCookie)
    (s : State) (h : Tracks k P c s) : Tracks k P c (step k env e s) := by
  by_cases he : e = .reactions
  · subst he
    exact tracks_settleLoop k env P c _ s h
  · rcases step_shape k env e s he with hg | ⟨s1, n, m, c2, a1, a2, a3, a4, a5⟩
    · exact tracks_grows h hg
    · rw [a5]
      refine tracks_register c2 (tracks_grows h a4) ?_
      intro hQ
      have hmem : n + 1 ∈ List.range' (n + 1) m := by
        rw [List.mem_range'_1]
        omega
      rw [hQ] at hmem
      obtain ⟨g, hg, hle⟩ := h.bound (n + 1) hmem
      rw [a1] at hg
      cases hg
      omega

theorem tracks_run (k : Codec) (P : List Nat) (c : List ParsedCookie) :
    ∀ (tasks : List (Env × Event)) (s : State), Tracks k P c s → Tracks k P c (run k tasks s)
  | [], _, h => h
  | (env, e) :: rest, s, h => tracks_run k P c rest _ (tracks_step k env e P c s h)

theorem thenCallback_fields (k : Codec) (env : Env) (j : Join) (s : State) :
    (thenCallback k env j s).joins.length = s.joins.length ∧
      (thenCallback k env j s).resolved = s.resolved := by
  rw [thenCallback_eq]
  obtain ⟨f, -, hf⟩ := cleanupChange_fields k env j.cookies s
  rw [hf]
  exact ⟨by simp, rfl⟩

theorem settleLoop_resolved (k : Codec) (env : Env) :
    ∀ (fuel : Nat) (s : State), (settleLoop k env fuel s).resolved = s.resolved
  | 0, _ => rfl
  | fuel + 1, s => by
    unfold settleLoop
    cases hn : nextReady s.resolved s.joins with
    | none => rfl
    | some j =>
      simp only
      rw [settleLoop_resolved k env fuel, (thenCallback_fields k env j _).2]

/-- The loop of `settleJoins` has rounds enough: when it ends, no join whose promises
are all resolved is left. -/
theorem settleLoop_done (k : Codec) (env : Env) :
    ∀ (fuel : Nat) (s : State), s.joins.length ≤ fuel →
      ∀ j ∈ (settleLoop k env fuel s).joins, isReady s.resolved j = false
  | 0, s, hlen, j, hj => by
    have : s.joins = [] := List.length_eq_zero.mp (Nat.le_zero.mp hlen)
    simp [settleLoop, this] at hj
  | fuel + 1, s, hlen, j, hj => by
    unfold settleLoop at hj
    cases hn : nextReady s.resolved s.joins with
    | none =>
      rw [hn] at hj
      exact nextReady_none s.resolved s.joins hn j hj
    | some i =>
      rw [hn] at hj
      simp only at hj
      obtain ⟨hi, -⟩ := nextReady_mem s.resolved s.joins i hn
      obtain ⟨f1, f2⟩ := thenCallback_fields k env i { s with joins := s.joins.erase i }
      have hlen2 : (thenCallback k env i { s with joins := s.joins.erase i }).joins.length ≤
          fuel := by
        rw [f1]
        show (s.joins.erase i).length ≤ fuel
        rw [List.length_erase_of_mem hi]
        omega
      have := settleLoop_done k env fuel _ hlen2 j hj
      rw [f2] at this
      exact this

/-- The log of a turn of the promise library is made of runs of callbacks only. -/
theorem settleLoop_log (k : Codec) (env : Env) :
    ∀ (fuel : Nat) (s : State), ∃ js : List Join,
      (settleLoop k env fuel s).log = s.log ++ js.flatMap (callbackEffects k env)
  | 0, s => ⟨[], by simp [settleLoop]⟩
  | fuel + 1, s => by
    unfold settleLoop
    cases hn : nextReady s.resolved s.joins with
    | none => exact ⟨[], by simp⟩
    | some j =>
      obtain ⟨js, hjs⟩ := settleLoop_log k env fuel
        (thenCallback k env j { s with joins := s.joins.erase j })
      refine ⟨j :: js, ?_⟩
      simp only
      rw [hjs, thenCallback_eq]
      simp

end WindowSync

namespace WindowSync

theorem fanOutEffects_protocol (env : Env) (cookies : List ParsedCookie) (targets : List WinId)
    (n t : Nat) : ∀ e ∈ fanOutEffects env cookies targets n t, Protocol e := by
  intro e he
  rcases fanOutEffects_mem env cookies targets n t e he with ⟨w, -, -, rfl⟩ |
    ⟨w, -, i, -, rfl⟩ | ⟨h, i, rfl⟩
  · exact ⟨rfl, rfl⟩
  · exact ⟨rfl, rfl⟩
  · exact ⟨rfl, rfl⟩

theorem callbackRuns_pos (P : List Nat) (log : List Effect) (h : 0 < callbackRuns P log) :
    ∃ c, Effect.thenCallback P c ∈ log := by
  unfold callbackRuns at h
  rw [List.countP_pos_iff] at h
  obtain ⟨e, he, hp⟩ := h
  cases e with
  | thenCallback Q c =>
    simp only [decide_eq_true_eq] at hp
    exact ⟨c, hp ▸ he⟩
  | _ => simp at hp

theorem callbackRuns_eq_zero (P : List Nat) (log : List Effect)
    (h : ∀ c, Effect.thenCallback P c ∉ log) : callbackRuns P log = 0 := by
  by_contra hne
  obtain ⟨c, hc⟩ := callbackRuns_pos P log (Nat.pos_of_ne_zero hne)
  exact h c hc

theorem pendingJoins_pos (P : List Nat) (joins : List Join) (h : 0 < pendingJoins P joins) :
    ∃ j ∈ joins, j.promises = P := by
  unfold pendingJoins at h
  rw [List.countP_pos_iff] at h
  obtain ⟨j, hj, hp⟩ := h
  exact ⟨j, hj, by simpa using hp⟩

/-- The join registered by a fan-out is followed from its registration on. -/
theorem tracks_registered (k : Codec) (s s1 : State) (n m : Nat) (cookies : List ParsedCookie)
    (new : List Effect) (hinv : Inv s) (hjoin : JoinInv s)
    (hgen : s.messageIdGenerator = some n) (hm : 0 < m)
    (hgen1 : s1.messageIdGenerator = some (n + m)) (hjoins : s1.joins = s.joins)
    (hlog : s1.log = s.log ++ new) (hnew : ∀ e ∈ new, NoCallback e) :
    Tracks k (List.range' (n + 1) m) cookies
      { s1 with joins := s1.joins ++ [⟨List.range' (n + 1) m, cookies⟩] } := by
  have hmem : n + 1 ∈ List.range' (n + 1) m := by
    rw [List.mem_range'_1]
    omega
  have hnoJoin : ∀ j ∈ s.joins, j.promises ≠ List.range' (n + 1) m := by
    intro j hj hP
    rw [← hP] at hmem
    obtain ⟨g, hg, hle⟩ := hjoin.joinIds j hj (n + 1) hmem
    rw [hgen] at hg
    cases hg
    omega
  have hnoRun : ∀ c, Effect.thenCallback (List.range' (n + 1) m) c ∉ s.log := by
    intro c hc
    have hres := hjoin.ranResolved _ c hc (n + 1) hmem
    obtain ⟨g, hg, hle⟩ := hinv.resolvedIds (n + 1) hres
    rw [hgen] at hg
    cases hg
    omega
  have hnoRun1 : ∀ c, Effect.thenCallback (List.range' (n + 1) m) c ∉ s1.log := by
    intro c hc
    rw [hlog] at hc
    rcases List.mem_append.mp hc with hc | hc
    · exact hnoRun c hc
    · have hno := hnew _ hc
      simp [NoCallback, isCallback] at hno
  constructor
  · have h1 : pendingJoins (List.range' (n + 1) m) s.joins = 0 := by
      unfold pendingJoins
      rw [List.countP_eq_zero]
      intro j hj
      simpa using hnoJoin j hj
    show pendingJoins (List.range' (n + 1) m)
      (s1.joins ++ [⟨List.range' (n + 1) m, cookies⟩]) +
        callbackRuns (List.range' (n + 1) m) s1.log = 1
    rw [callbackRuns_eq_zero _ _ hnoRun1, hjoins]
    have : pendingJoins (List.range' (n + 1) m)
        (s.joins ++ [⟨List.range' (n + 1) m, cookies⟩]) =
        pendingJoins (List.range' (n + 1) m) s.joins + 1 := by
      simp [pendingJoins, List.countP_append, List.countP_cons]
    rw [this, h1]
  · intro p hp
    refine ⟨n + m, hgen1, ?_⟩
    have := (List.mem_range'_1.mp hp).2
    omega
  · intro j hj hP
    rcases List.mem_append.mp hj with hj | hj
    · rw [hjoins] at hj
      exact absurd hP (hnoJoin j hj)
    · rw [List.mem_singleton.mp hj]
      exact sameBatch_refl k cookies
  · intro c hc
    exact absurd hc (hnoRun1 c)

/-- What follows for a callback that is followed through a run. -/
theorem tracks_facts (k : Codec) (P : List Nat) (cookies : List ParsedCookie) (t : State)
    (hT : Tracks k P cookies t) (hR : Reachable k t) :
    pendingJoins P t.joins + callbackRuns P t.log = 1 ∧
      (0 < callbackRuns P t.log → ∀ p ∈ P, p ∈ t.resolved) ∧
      ((∀ p ∈ P, p ∈ t.resolved) →
        ∀ env2, callbackRuns P (step k env2 .reactions t).log = 1) ∧
      (∀ env2 e, e ≠ Event.reactions →
        callbackRuns P (step k env2 e t).log = callbackRuns P t.log) ∧
      (∀ c, Effect.thenCallback P c ∈ t.log → SameBatch k cookies c) ∧
      (∀ j ∈ t.joins, j.promises = P → SameBatch k cookies j.cookies) := by
  have hJ := joinInv_of_reachable k t hR
  refine ⟨hT.once, ?_, ?_, ?_, hT.ran, hT.held⟩
  · intro hpos p hp
    obtain ⟨c, hc⟩ := callbackRuns_pos _ _ hpos
    exact hJ.ranResolved _ c hc p hp
  · intro hall env2
    have hT2 := tracks_step k env2 .reactions P cookies t hT
    have hdone := settleLoop_done k env2 t.joins.length t (le_refl _)
    have hzero : pendingJoins P (step k env2 .reactions t).joins = 0 := by
      by_contra hne
      obtain ⟨j, hj, hjP⟩ := pendingJoins_pos _ _ (Nat.pos_of_ne_zero hne)
      have hnot := hdone j hj
      have hready : isReady t.resolved j = true := by
        unfold isReady
        rw [List.all_eq_true, hjP]
        intro p hp
        simpa using hall p hp
      rw [hready] at hnot
      cases hnot
    have honce := hT2.once
    omega
  · intro env2 e he
    rcases step_shape k env2 e t he with hg | ⟨s3, n3, m3, c3, -, -, -, a4, a5⟩
    · obtain ⟨-, -, ⟨new, g3, g4⟩, -⟩ := hg
      rw [g3, callbackRuns_append, callbackRuns_of_noCallback _ new g4, Nat.add_zero]
    · obtain ⟨-, -, ⟨new, g3, g4⟩, -⟩ := a4
      rw [a5]
      show callbackRuns _ s3.log = _
      rw [g3, callbackRuns_append, callbackRuns_of_noCallback _ new g4, Nat.add_zero]

/-- C15. A fan-out of the top coordinator, started in a state the coordinator can
reach, runs its cleanup exactly once, with its own cookies.

With no target out of reach, `syncBetweenWindows` calls `_removeSyncCookie (cookies)`
itself, after the applies and before it returns, and registers no callback.

Otherwise it returns without a cookie write, having registered one callback for the
promises `P` of its sends.  Then, whatever tasks follow (messages, timers, further
calls, `attach`, turns of the promise library): the callback is pending or has run
once, never both and never twice; it has not run as long as a promise of `P` is not
resolved; once all are resolved, the next turn of the promise library runs it; no
other task runs it; and both the pending callback and its run hold the array
`cookies`, up to the changes that cleanups have made in place.

A run of a callback is the call `_removeSyncCookie` on the cookies it holds, and it
takes place in a turn of the promise library: the log of such a turn is made of runs
of callbacks and the turn resolves no promise, while a timer, a message other than a
START and `attach` leave the pending callbacks as they are and write no cookie. -/
theorem cleanup_runs_once (k : Codec) (env : Env) (cookies : List ParsedCookie)
    (initiator : Option WinId) (s : State) (n : Nat) (targets : List WinId) (P : List Nat)
    (hreach : Reachable k s) (htop : s.win = env.top.id)
    (hgen : s.messageIdGenerator = some n)
    (htargets : targets = getWindowsForSync env.top.id initiator env.top [])
    (hP : P = List.range' (n + 1) (unreachableTargets env targets).length) :
    (unreachableTargets env targets = [] →
      syncBetweenWindows k env cookies initiator s =
        removeSyncCookie k env cookies
          { s with log := (s.log ++ targets.map (fun w => Effect.syncWindowCookie w cookies)) } ∧
      (reached (syncBetweenWindows k env cookies initiator s)).log =
        s.log ++ targets.map (fun w => Effect.syncWindowCookie w cookies) ++
          cleanupWrites k env cookies ∧
      ∀ Q, pendingJoins Q (reached (syncBetweenWindows k env cookies initiator s)).joins =
        pendingJoins Q s.joins) ∧
    (unreachableTargets env targets ≠ [] →
      ∃ s2, syncBetweenWindows k env cookies initiator s = .ok s2 ∧
        s2.joins = s.joins ++ [⟨P, cookies⟩] ∧
        s2.log = s.log ++ fanOutEffects env cookies targets n s.nextTimer ∧
        cookieWrites s2.log = cookieWrites s.log ∧
        callbackRuns P s2.log = 0 ∧
        ∀ (tasks : List (Env × Event)) (t : State), t = run k tasks s2 →
          pendingJoins P t.joins + callbackRuns P t.log = 1 ∧
          (0 < callbackRuns P t.log → ∀ p ∈ P, p ∈ t.resolved) ∧
          ((∀ p ∈ P, p ∈ t.resolved) →
            ∀ env2, callbackRuns P (step k env2 .reactions t).log = 1) ∧
          (∀ env2 e, e ≠ Event.reactions →
            callbackRuns P (step k env2 e t).log = callbackRuns P t.log) ∧
          (∀ c, Effect.thenCallback P c ∈ t.log → SameBatch k cookies c) ∧
          (∀ j ∈ t.joins, j.promises = P → SameBatch k cookies j.cookies)) ∧
    (∀ (t : State) (env2 : Env),
      (∃ js : List Join,
        (step k env2 .reactions t).log = t.log ++ js.flatMap (callbackEffects k env2)) ∧
      (step k env2 .reactions t).resolved = t.resolved ∧
      (∀ h, (step k env2 (.timeout h) t).joins = t.joins ∧
        cookieWrites (step k env2 (.timeout h) t).log = cookieWrites t.log) ∧
      (∀ message source, message.cmd ≠ SYNC_COOKIE_START_CMD →
        (step k env2 (.serviceMsgReceived message source) t).joins = t.joins ∧
        cookieWrites (step k env2 (.serviceMsgReceived message source) t).log =
          cookieWrites t.log) ∧
      (∀ win, (step k env2 (.attach win) t).joins = t.joins ∧
        cookieWrites (step k env2 (.attach win) t).log = cookieWrites t.log)) := by
  subst htargets
  subst hP
  obtain ⟨s1, h1, h2, h3, h4⟩ := syncBetweenWindows_top_eq k env cookies initiator s n htop hgen
  obtain ⟨s1b, f1, -, f3, -, -, -, -⟩ :=
    fanOut_spec k env cookies (getWindowsForSync env.top.id initiator env.top []) [] s n hgen
  rw [List.nil_append] at f1
  have hs1 : s1b = s1 := (Prod.mk.inj (Except.ok.inj (f1.symm.trans h1))).2
  rw [hs1] at f3
  refine ⟨?_, ?_, ?_⟩
  · intro hun
    have hall := (unreachableTargets_eq_nil env _).mp hun
    rw [fanOut_reachable k env cookies _ [] s hall] at h1
    have hs1 : s1 = { s with log := (s.log ++
        (getWindowsForSync env.top.id initiator env.top []).map
          (fun w => Effect.syncWindowCookie w cookies)) } := by
      have := Except.ok.inj h1
      exact (Prod.mk.inj this).2.symm
    have hcall : syncBetweenWindows k env cookies initiator s =
        removeSyncCookie k env cookies s1 := by
      rw [h4, if_neg (by simp [hun])]
    refine ⟨by rw [hcall, hs1], ?_, ?_⟩
    · rw [hcall, removeSyncCookie_reached, hs1]
    · intro Q
      rw [hcall]
      have hg := removeSyncCookie_grows k env cookies s1
      rw [← h3]
      exact sameJoins_pending hg.2.2.2 Q
  · intro hun
    have hm : 0 < (unreachableTargets env
        (getWindowsForSync env.top.id initiator env.top [])).length :=
      List.length_pos.mpr hun
    have hprot := fanOutEffects_protocol env cookies
      (getWindowsForSync env.top.id initiator env.top []) n s.nextTimer
    have htracks := tracks_registered k s s1 n _ cookies _ (inv_of_reachable k s hreach)
      (joinInv_of_reachable k s hreach) hgen hm f3 h3 h2 (fun e he => (hprot e he).1)
    have hcall : syncBetweenWindows k env cookies initiator s =
        .ok { s1 with joins := s1.joins ++ [⟨List.range' (n + 1) (unreachableTargets env
          (getWindowsForSync env.top.id initiator env.top [])).length, cookies⟩] } := by
      rw [h4, if_pos hun]
    have hreach2 : Reachable k { s1 with joins := s1.joins ++ [⟨List.range' (n + 1)
        (unreachableTargets env (getWindowsForSync env.top.id initiator env.top [])).length,
        cookies⟩] } := by
      have := Reachable.step env (.syncBetweenWindows cookies initiator) s hreach
      simp only [step, hcall, reached] at this
      exact this
    refine ⟨_, hcall, by simp [h3], h2, ?_, ?_, ?_⟩
    · show cookieWrites s1.log = cookieWrites s.log
      rw [h2]
      exact cookieWrites_of_protocol _ _ hprot
    · show callbackRuns _ s1.log = 0
      rw [h2, callbackRuns_append, callbackRuns_of_noCallback _ _ (fun e he => (hprot e he).1)]
      apply callbackRuns_eq_zero
      intro c hc
      have hinv := inv_of_reachable k s hreach
      have hjoin := joinInv_of_reachable k s hreach
      have hmem : n + 1 ∈ List.range' (n + 1) (unreachableTargets env
          (getWindowsForSync env.top.id initiator env.top [])).length := by
        rw [List.mem_range'_1]
        omega
      have hres := hjoin.ranResolved _ c hc (n + 1) hmem
      obtain ⟨g, hg, hle⟩ := hinv.resolvedIds (n + 1) hres
      rw [hgen] at hg
      cases hg
      omega
    · intro tasks t ht
      subst ht
      exact tracks_facts k _ cookies _ (tracks_run k _ cookies tasks _ htracks)
        (reachable_run k tasks _ hreach2)
  · intro t env2
    refine ⟨settleLoop_log k env2 _ t, settleLoop_resolved k env2 _ t, ?_, ?_, ?_⟩
    · intro h
      simp only [step, fireTimeout, sendMsg, resolveWrapper]
      repeat' split
      all_goals simp [cookieWrites, isCookieWrite, List.filter_append]
    · intro message source hcmd
      simp only [step, onMsgReceived, resolveWrapper, if_neg hcmd]
      repeat' split
      all_goals simp [cookieWrites, isCookieWrite, List.filter_append, reached]
    · intro win
      simp only [step, attach]
      repeat' split
      all_goals simp [cookieWrites, isCookieWrite, List.filter_append]

end WindowSync

namespace WindowSync

/-- Witness of `cleanup_runs_once`: the sample fan-out registers the callback for
promise `1`.  A further `attach`, the first retry and the DONE for `1` run no callback
and write no cookie; the DONE only clears the timer.  The turn of the promise library
that follows runs the callback, which deletes the cookie, and a second turn does
nothing. -/
theorem cleanup_runs_once_witness :
    ∃ s2, syncBetweenWindows sampleCodec sampleEnv [sampleCookie] none sampleTop = .ok s2 ∧
      s2.joins = [⟨[1], [sampleCookie]⟩] ∧
      (run sampleCodec sampleTasks s2).log = s2.log ++
        [.on, startMsg 1 3 SYNC_COOKIE_START_CMD [sampleCookie], .setTimeout 2 1 1000,
          .clearTimeout (some 2)] ∧
      (run sampleCodec sampleTasks s2).joins = [⟨[1], [sampleCookie]⟩] ∧
      callbackRuns [1] (step sampleCodec sampleEnv .reactions
        (run sampleCodec sampleTasks s2)).log = 1 ∧
      (step sampleCodec sampleEnv .reactions (run sampleCodec sampleTasks s2)).log =
        (run sampleCodec sampleTasks s2).log ++
          [.thenCallback [1] [sampleCookie], .documentCookieSetter "s|k=;expires=0"] ∧
      step sampleCodec sampleEnv .reactions
          (step sampleCodec sampleEnv .reactions (run sampleCodec sampleTasks s2)) =
        step sampleCodec sampleEnv .reactions (run sampleCodec sampleTasks s2) := by
  obtain ⟨s2, h1, h2, -, -, -, hrun⟩ :=
    (cleanup_runs_once sampleCodec sampleEnv [sampleCookie] none sampleTop 0
      (getWindowsForSync sampleEnv.top.id none sampleEnv.top []) [1]
      (Reachable.attached sampleEnv 0) (by decide) (by decide) rfl (by decide)).2.1 (by decide)
  have hs2 : s2 = reached (syncBetweenWindows sampleCodec sampleEnv [sampleCookie] none
      sampleTop) := by
    rw [h1]
    rfl
  refine ⟨s2, h1, h2, ?_, ?_, ?_, ?_, ?_⟩
  · rw [hs2]
    decide
  · rw [hs2]
    decide
  · refine (hrun sampleTasks _ rfl).2.2.1 ?_ sampleEnv
    rw [hs2]
    decide
  · rw [hs2]
    decide
  · rw [hs2]
    decide

/-- The change made in place by a cleanup shows in a pending send that holds the same
cookie.  A first fan-out of a client sync cookie waits for window `3`; a second call
with the same cookie reaches every window and cleans up at once, clearing the
`window` flag of the cookie in place; the retry of the first send then carries the
changed cookie, and so does the join of the first fan-out. -/
theorem retry_carries_changed_cookie :
    (run sampleCodec
      [(sampleEnvHidden3Marker, .syncBetweenWindows [sampleClientCookie] none),
        (sampleEnvMarker, .syncBetweenWindows [sampleClientCookie] none),
        (sampleEnvHidden3Marker, .timeout 1)] sampleTop).log =
      (run sampleCodec
        [(sampleEnvHidden3Marker, .syncBetweenWindows [sampleClientCookie] none),
          (sampleEnvMarker, .syncBetweenWindows [sampleClientCookie] none)] sampleTop).log ++
        [startMsg 1 3 SYNC_COOKIE_START_CMD [{ sampleClientCookie with isWindowSync := false }],
          .setTimeout 2 1 1000] ∧
    (run sampleCodec
      [(sampleEnvHidden3Marker, .syncBetweenWindows [sampleClientCookie] none),
        (sampleEnvMarker, .syncBetweenWindows [sampleClientCookie] none)] sampleTop).joins =
      [⟨[1], [{ sampleClientCookie with isWindowSync := false }]⟩] := by
  decide

/-- The cleanup after the retries are used up.  No DONE arrives; the fifth expiry of
the retry timer resolves the promise without running the callback, and the turn of
the promise library that follows runs it. -/
theorem cleanup_after_retries :
    (run sampleCodec
      [(sampleEnv, .syncBetweenWindows [sampleCookie] none), (sampleEnv, .timeout 1),
        (sampleEnv, .timeout 2), (sampleEnv, .timeout 3), (sampleEnv, .timeout 4),
        (sampleEnv, .timeout 5)] sampleTop).resolved = [1] ∧
    cookieWrites (run sampleCodec
      [(sampleEnv, .syncBetweenWindows [sampleCookie] none), (sampleEnv, .timeout 1),
        (sampleEnv, .timeout 2), (sampleEnv, .timeout 3), (sampleEnv, .timeout 4),
        (sampleEnv, .timeout 5)] sampleTop).log = [] ∧
    (run sampleCodec
      [(sampleEnv, .syncBetweenWindows [sampleCookie] none), (sampleEnv, .timeout 1),
        (sampleEnv, .timeout 2), (sampleEnv, .timeout 3), (sampleEnv, .timeout 4),
        (sampleEnv, .timeout 5), (sampleEnv, .reactions)] sampleTop).log =
      (run sampleCodec
        [(sampleEnv, .syncBetweenWindows [sampleCookie] none), (sampleEnv, .timeout 1),
          (sampleEnv, .timeout 2), (sampleEnv, .timeout 3), (sampleEnv, .timeout 4),
          (sampleEnv, .timeout 5)] sampleTop).log ++
        [.thenCallback [1] [sampleCookie], .documentCookieSetter "s|k=;expires=0"] := by
  decide

/-- The callbacks of one turn of the promise library run in the order in which their
joins were completed.  Two fan-outs wait for window `3` with promises `1` and `2`;
the DONE for `2` arrives before the DONE for `1`, and the turn that follows runs the
callback of the second fan-out first. -/
theorem callbacks_in_completion_order :
    (run sampleCodec
      [(sampleEnv, .syncBetweenWindows [sampleCookie] none),
        (sampleEnv, .syncBetweenWindows [sampleClientCookie] none),
        (sampleEnv, .serviceMsgReceived ⟨some 2, SYNC_COOKIE_DONE_CMD, []⟩ 3),
        (sampleEnv, .serviceMsgReceived ⟨some 1, SYNC_COOKIE_DONE_CMD, []⟩ 3),
        (sampleEnv, .reactions)] sampleTop).log =
      (run sampleCodec
        [(sampleEnv, .syncBetweenWindows [sampleCookie] none),
          (sampleEnv, .syncBetweenWindows [sampleClientCookie] none),
          (sampleEnv, .serviceMsgReceived ⟨some 2, SYNC_COOKIE_DONE_CMD, []⟩ 3),
          (sampleEnv, .serviceMsgReceived ⟨some 1, SYNC_COOKIE_DONE_CMD, []⟩ 3)] sampleTop).log ++
        [.thenCallback [2] [sampleClientCookie], .documentCookieSetter "s|c=;expires=0",
          .thenCallback [1] [sampleCookie], .documentCookieSetter "s|k=;expires=0"] := by
  decide

end WindowSync
